import Mathlib

/-!
# Access gate, job queue and worker loop of `EngineWorker`

A shallow embedding of `source/EngineImpl/EngineWorker.cpp`.

* Clock readings (`std::chrono::steady_clock::now()`) are integers counting
  microseconds, the unit to which the source casts every difference it
  compares; a millisecond constant `c` is compared as `c * 1000`.
* `float` values are exact rationals.
* The worker object is a record; every source function is a function on that
  record.  A function that reads the clock takes the reading as an argument,
  one that calls the engine takes the engine's behaviour (which calls raise).
* A caller-side operation that polls takes the clock readings of its polls as
  a list; when the list runs out inside the loop the outcome is `spinning`.
* The two threads are interleaved by `System.step`. Every load and every store
  of `_accessState` is an atomic step of its own; `processJobs` (which holds the
  job mutex throughout) and each operation that takes no guard are one step.
-/

namespace Alien

/-! ## Values passed through the worker -/

/-- The float pair `RealVector2D`. -/
structure RealVector2D where
  x : ℚ
  y : ℚ
deriving DecidableEq

/-- The settings record handed to `setGpuConstants`. The worker only stores and
forwards it, so its content is a single identifying number. -/
structure GpuSettings where
  tag : Nat
deriving DecidableEq

/-- A queued force job, `ApplyForceJob{start, end, force, radius}`
(`endPos` stands for the member `end`). -/
structure ApplyForceJob where
  start : RealVector2D
  endPos : RealVector2D
  force : RealVector2D
  radius : ℚ
deriving DecidableEq

/-- The argument record of the engine's `applyForce`, built in `processJobs` as
`{{start.x, start.y}, {end.x, end.y}, {force.x, force.y}, radius, false}`. -/
structure ApplyForceData where
  startPos : ℚ × ℚ
  endPos : ℚ × ℚ
  force : ℚ × ℚ
  radius : ℚ
  onlyRotation : Bool
deriving DecidableEq

/-- A statistics snapshot (`StatisticsData`). The worker only copies snapshots,
so the timeline and histogram are a single identifying number. -/
structure StatisticsData where
  content : Nat
deriving DecidableEq

/-! ## The engine -/

/-- The calls `EngineWorker.cpp` makes on `_cudaSimulation`. Arguments that the
worker merely forwards from its caller are left out of the tag. -/
inductive EngineCall where
  | calcTimestep
  | getStatistics
  | setGpuConstants (settings : GpuSettings)
  | applyForce (data : ApplyForceData)
  | clear
  | drawVectorGraphics
  | getArraySizes
  | getOverlayData
  | removeSelection
  | registerImageResource
  | setSimulationParameters
  | other (name : String)
deriving DecidableEq

/-- The thread on which a piece of code runs. -/
inductive Thread where
  | worker
  | caller
deriving DecidableEq

/-- One entry of the call log: who called the engine, which call, and the value
of `_accessState` at the moment of the call. -/
structure EngineEvent where
  thread : Thread
  call : EngineCall
  accessState : Int
deriving DecidableEq

/-- Modelled from the spec: `_CudaSimulationFacade` is an external collaborator
("the GPU kernel execution engine", specified only by interface) and is not
among the sources. The model keeps its timestep counter. -/
structure CudaSimulationFacade where
  currentTimestep : Nat
deriving DecidableEq

/-- Modelled from the spec: effect of a call on the engine; `calcTimestep`
advances the counter by one, the other calls leave it alone. -/
def CudaSimulationFacade.perform (c : EngineCall) (e : CudaSimulationFacade) : CudaSimulationFacade :=
  match c with
  | .calcTimestep => { e with currentTimestep := e.currentTimestep + 1 }
  | _ => e

/-- What the engine does when called: `raises k c` is the message of the
`std::exception` thrown by call `c` made as the `k`-th engine call (or `none`
when it returns), `statistics k` the snapshot a `getStatistics` returns. -/
structure EngineBehaviour where
  raises : Nat → EngineCall → Option String
  statistics : Nat → StatisticsData

/-- An engine every call of which raises `std::exception` with message `m`. -/
def EngineBehaviour.failing (m : String) : EngineBehaviour :=
  { raises := fun _ _ => some m, statistics := fun k => ⟨k⟩ }

/-- An engine none of whose calls raises. -/
def EngineBehaviour.quiet : EngineBehaviour :=
  { raises := fun _ _ => none, statistics := fun k => ⟨k⟩ }

/-! ## The worker object -/

/-- The members of `EngineWorker` used by the access gate, the job queue, the
rate control and the loop, with the engine-call log as a ghost field.
`lastStatistics` starts as the default-constructed snapshot. -/
structure EngineWorker where
  accessState : Int := 0
  errorMessage : Option String := none
  isShutdown : Bool := false
  isSimulationRunning : Bool := false
  syncSimulationWithRendering : Bool := false
  syncSimulationWithRenderingRatio : Int := 1
  statisticsCounter : Int := 0
  updateGpuSettingsJob : Option GpuSettings := none
  applyForceJobs : List ApplyForceJob := []
  measureTimepoint : Option Int := none
  timestepsSinceMeasurement : Int := 0
  tps : ℚ := 0
  tpsRestriction : Int := 0
  slowDownTimepoint : Option Int := none
  slowDownOvershot : Option Int := none
  lastStatistics : StatisticsData := ⟨0⟩
  lastStatisticsUpdateTime : Option Int := none
  imageResource : Option Nat := none
  cudaSimulation : Option CudaSimulationFacade := none
  engineLog : List EngineEvent := []

namespace EngineWorker

/-- A call `_cudaSimulation->c(...)`: the call is logged; if the engine raises
the message is returned, otherwise the engine performs the call. -/
def callEngine (eng : EngineBehaviour) (t : Thread) (c : EngineCall) (w : EngineWorker) :
    EngineWorker × Option String :=
  let logged := { w with engineLog := w.engineLog ++ [⟨t, c, w.accessState⟩] }
  match eng.raises w.engineLog.length c with
  | some m => (logged, some m)
  | none => ({ logged with cudaSimulation := logged.cudaSimulation.map (CudaSimulationFacade.perform c) }, none)

/-- The constant `StatisticsUpdate(30)` milliseconds, in microseconds. -/
def StatisticsUpdate : Int := 30 * 1000

/-- The constant `FrameTimeout(500)`, in milliseconds. -/
def FrameTimeout : Int := 500

/-- Modelled from the spec: the default argument of `updateStatistics`, declared
in `EngineWorker.h` (not among the sources). Gated operations refresh the cache
("a separately-locked cache updated opportunistically") without a minimum
duration. -/
def afterMinDurationDefault : Bool := false

/-- `EngineWorker::updateStatistics(afterMinDuration)` run on thread `t` with
clock reading `now`. -/
def updateStatistics (eng : EngineBehaviour) (t : Thread) (afterMinDuration : Bool) (now : Int)
    (w : EngineWorker) : EngineWorker × Option String :=
  let due : Bool :=
    !afterMinDuration ||
      (match w.lastStatisticsUpdateTime with
        | none => true
        | some last => decide (now - last > StatisticsUpdate))
  if due then
    match w.callEngine eng t .getStatistics with
    | (w1, some m) => (w1, some m)
    | (w1, none) =>
      ({ w1 with lastStatistics := eng.statistics w.engineLog.length,
                 lastStatisticsUpdateTime := some now }, none)
  else (w, none)

/-- `EngineWorker::setGpuSettings_async`. -/
def setGpuSettings_async (gpuSettings : GpuSettings) (w : EngineWorker) : EngineWorker :=
  { w with updateGpuSettingsJob := some gpuSettings }

/-- `EngineWorker::applyForce_async`. -/
def applyForce_async (start endPos force : RealVector2D) (radius : ℚ) (w : EngineWorker) :
    EngineWorker :=
  { w with applyForceJobs := w.applyForceJobs ++ [⟨start, endPos, force, radius⟩] }

/-- The engine argument built from a queued force job in `processJobs`. -/
def forceData (job : ApplyForceJob) : ApplyForceData :=
  { startPos := (job.start.x, job.start.y), endPos := (job.endPos.x, job.endPos.y),
    force := (job.force.x, job.force.y), radius := job.radius, onlyRotation := false }

/-- The range-for over `_applyForceJobs` in `processJobs`; stops at the first
call that raises. -/
def applyForceLoop (eng : EngineBehaviour) : List ApplyForceJob → EngineWorker → EngineWorker × Option String
  | [], w => (w, none)
  | job :: rest, w =>
    match w.callEngine eng .worker (.applyForce (forceData job)) with
    | (w1, some m) => (w1, some m)
    | (w1, none) => applyForceLoop eng rest w1

/-- `EngineWorker::processJobs`, run on the worker thread under the job mutex. -/
def processJobs (eng : EngineBehaviour) (w : EngineWorker) : EngineWorker × Option String :=
  let afterSettings : EngineWorker × Option String :=
    match w.updateGpuSettingsJob with
    | some settings =>
      match w.callEngine eng .worker (.setGpuConstants settings) with
      | (w1, some m) => (w1, some m)
      | (w1, none) => ({ w1 with updateGpuSettingsJob := none }, none)
    | none => (w, none)
  match afterSettings with
  | (w1, some m) => (w1, some m)
  | (w1, none) =>
    if w1.applyForceJobs.isEmpty then (w1, none)
    else
      match applyForceLoop eng w1.applyForceJobs w1 with
      | (w2, some m) => (w2, some m)
      | (w2, none) => ({ w2 with applyForceJobs := [] }, none)

/-- The conversion `static_cast<int>` of a 64-bit count to a 32-bit `int`: the
value modulo 2^32, taken in the range from -2^31 to 2^31 - 1. -/
def castInt (x : Int) : Int :=
  (x + 2147483648) % 4294967296 - 2147483648

/-- The local `int duration` of `measureTPS`: the elapsed microseconds cast to
whole milliseconds (truncating) and then to `int`. -/
def measuredDuration (now last : Int) : Int :=
  castInt (Int.tdiv (now - last) 1000)

/-- `EngineWorker::measureTPS` with clock reading `now`. -/
def measureTPS (now : Int) (w : EngineWorker) : EngineWorker :=
  if w.isSimulationRunning then
    let w1 : EngineWorker :=
      match w.measureTimepoint with
      | none => { w with measureTimepoint := some now }
      | some last =>
        let duration : Int := measuredDuration now last
        if duration > 199 then
          { w with measureTimepoint := some now,
                   tps := if duration < 350 then (w.timestepsSinceMeasurement : ℚ) * 5 * 200 / (duration : ℚ)
                          else 1000 / (duration : ℚ),
                   timestepsSinceMeasurement := 0 }
        else w
    { w1 with timestepsSinceMeasurement := w1.timestepsSinceMeasurement + 1 }
  else { w with tps := 0 }

/-- The statement `if (_accessState == 1) { _accessState = 2; }` of
`runThreadLoop` and `waitAndAllowAccess`, as one step. -/
def grantAccess (w : EngineWorker) : EngineWorker :=
  if w.accessState = 1 then { w with accessState := 2 } else w

/-- `EngineWorker::beginShutdown`. -/
def beginShutdown (w : EngineWorker) : EngineWorker :=
  { w with isShutdown := true }

/-- `EngineWorker::endShutdown`. -/
def endShutdown (w : EngineWorker) : EngineWorker :=
  { w with isSimulationRunning := false, isShutdown := false, cudaSimulation := none }

/-- `EngineWorker::runSimulation`. -/
def runSimulation (w : EngineWorker) : EngineWorker :=
  { w with isSimulationRunning := true }

/-- `EngineWorker::getTps`. -/
def getTps (w : EngineWorker) : ℚ :=
  w.tps

/-- `EngineWorker::getTpsRestriction`. -/
def getTpsRestriction (w : EngineWorker) : Int :=
  w.tpsRestriction

/-- `EngineWorker::setTpsRestriction`. -/
def setTpsRestriction (value : Int) (w : EngineWorker) : EngineWorker :=
  { w with tpsRestriction := value }

/-- `EngineWorker::setSyncSimulationWithRendering`. -/
def setSyncSimulationWithRendering (value : Bool) (w : EngineWorker) : EngineWorker :=
  { w with syncSimulationWithRendering := value }

/-- `EngineWorker::setSyncSimulationWithRenderingRatio`. -/
def setSyncSimulationWithRenderingRatio (value : Int) (w : EngineWorker) : EngineWorker :=
  { w with syncSimulationWithRenderingRatio := value }

/-- `EngineWorker::newSimulation(timestep, ...)` with the clock reading of its
`updateStatistics()`; the settings it stores are not modelled. -/
def newSimulation (eng : EngineBehaviour) (timestep : Nat) (now : Int) (w : EngineWorker) :
    EngineWorker × Option String :=
  let w1 : EngineWorker := { w with accessState := 0, cudaSimulation := some ⟨timestep⟩ }
  let registered : EngineWorker × Option String :=
    match w1.imageResource with
    | some _ => w1.callEngine eng .caller .registerImageResource
    | none => (w1, none)
  match registered with
  | (w2, some m) => (w2, some m)
  | (w2, none) => w2.updateStatistics eng .caller afterMinDurationDefault now

end EngineWorker

/-! ## The guard and the gated operations -/

/-- The three ways a caller-side operation can end: it returns a value, it
raises, or the clock readings supplied ran out while it was still inside a
polling loop. Each carries the worker object as the operation left it. -/
inductive Outcome (α : Type) where
  | returned (value : α) (worker : EngineWorker)
  | threw (message : String) (worker : EngineWorker)
  | spinning (worker : EngineWorker)

/-- The worker object an outcome carries. -/
def Outcome.worker {α : Type} : Outcome α → EngineWorker
  | .returned _ w => w
  | .threw _ w => w
  | .spinning w => w

/-- An engine call as the last statement of an operation. -/
def Outcome.ofCall (r : EngineWorker × Option String) : Outcome Unit :=
  match r with
  | (w, some m) => .threw m w
  | (w, none) => .returned () w

/-- The operation has come to an end, by return or by error, and left
`_accessState` at 0. -/
def Outcome.ExitsIdle {α : Type} : Outcome α → Prop
  | .returned _ w => w.accessState = 0
  | .threw _ w => w.accessState = 0
  | .spinning _ => False

/-- One poll of the constructor of `EngineWorkerGuard`: whether the worker
thread ran its `if (_accessState == 1) _accessState = 2` since the caller last
looked at the flag, and the clock reading taken in the loop body. -/
structure Poll where
  workerGrants : Bool
  now : Int

/-- The clock readings one guard construction consumes: the reading stored in
`startTimepoint` and the polls that follow. -/
structure GateClock where
  startTimepoint : Int
  polls : List Poll

/-- One evaluation of the loop condition of `waitAndAllowAccess`: the clock
reading, and the value (if any) the other thread stored in `_accessState`
before the flag is tested in the loop body. -/
structure WaitPoll where
  now : Int
  stored : Option Int
deriving DecidableEq

/-- The clock readings one `slowdownTPS` consumes: at its entry (used when a
previous timepoint exists), inside `waitAndAllowAccess`, and at its end. -/
structure SlowdownClock where
  entry : Int
  waitStart : Int
  waitPolls : List WaitPoll
  exit : Int

/-- The clock readings of one iteration of the loop in
`syncSimulationWithRenderingIfDesired`. -/
structure SyncClock where
  gate : GateClock
  statistics : Int
  measure : Int
  slowdown : SlowdownClock

/-- A clock for `syncSimulationWithRenderingIfDesired` that supplies no
readings for polling loops. -/
def SyncClock.still : Nat → SyncClock :=
  fun _ => ⟨⟨0, []⟩, 0, 0, ⟨0, 0, [], 0⟩⟩

/-- The object `EngineWorkerGuard`: its member `_isTimeout`. -/
structure EngineWorkerGuard where
  isTimeoutMember : Bool
deriving DecidableEq

namespace EngineWorkerGuard

/-- Message of the error raised by `checkForException`. -/
def invalidStateMessage : String := "GPU worker thread is in an invalid state."

/-- Message of the error raised when the seven seconds have passed. -/
def notReachableMessage : String := "GPU worker thread is not reachable."

/-- `EngineWorkerGuard::checkForException`: the message it raises, if any. -/
def checkForException (w : EngineWorker) : Option String :=
  match w.errorMessage with
  | some _ => some invalidStateMessage
  | none => none

/-- What one pass through the `while` of the constructor decides. -/
inductive PollVerdict where
  | again
  | leave
  | raise (message : String)
deriving DecidableEq

/-- The conversion of `*maxDuration`, a 64-bit count of milliseconds, to the
64-bit count of microseconds that `timePassed > *maxDuration` compares with:
the product with 1000 modulo 2^64, taken in the range from -2^63 to 2^63 - 1. -/
def microseconds (d : Int) : Int :=
  (d * 1000 + 9223372036854775808) % 18446744073709551616 - 9223372036854775808

/-- One pass through `while (worker->_accessState == 1) { ... }` given the flag
value read by the condition and the clock reading of the body. `maxDuration` is
in milliseconds. -/
def poll (maxDuration : Option Int) (startTimepoint now accessState : Int) : PollVerdict :=
  if accessState = 1 then
    let timePassed : Int := now - startTimepoint
    match maxDuration with
    | some d => if timePassed > microseconds d then .leave else .again
    | none => if timePassed > 7 * 1000000 then .raise notReachableMessage else .again
  else .leave

/-- The `while` loop of the constructor over the supplied polls. The assignment
`_isTimeout = true` before the `throw` is lost with the object under
construction, so the member keeps the value `isTimeout` on every path that
returns. -/
def pollLoop (maxDuration : Option Int) (startTimepoint : Int) (isTimeout : Bool) :
    List Poll → EngineWorker → Outcome EngineWorkerGuard
  | [], w => .spinning w
  | p :: rest, w =>
    let w1 : EngineWorker := if p.workerGrants then w.grantAccess else w
    match poll maxDuration startTimepoint p.now w1.accessState with
    | .again => pollLoop maxDuration startTimepoint isTimeout rest w1
    | .leave => .returned ⟨isTimeout⟩ w1
    | .raise m => .threw m w1

/-- The constructor `EngineWorkerGuard::EngineWorkerGuard(worker, maxDuration)`.
`isTimeoutInit` is the initial value of `_isTimeout` (its declaration is in
`EngineWorker.h`, not among the sources). -/
def construct (isTimeoutInit : Bool) (maxDuration : Option Int) (clock : GateClock)
    (w : EngineWorker) : Outcome EngineWorkerGuard :=
  match checkForException w with
  | some m => .threw m w
  | none => pollLoop maxDuration clock.startTimepoint isTimeoutInit clock.polls { w with accessState := 1 }

/-- The destructor `EngineWorkerGuard::~EngineWorkerGuard`. -/
def destruct (w : EngineWorker) : EngineWorker :=
  { w with accessState := 0 }

/-- `EngineWorkerGuard::isTimeout`. -/
def isTimeout (g : EngineWorkerGuard) : Bool :=
  g.isTimeoutMember

end EngineWorkerGuard

namespace EngineWorker

/-- A function body `EngineWorkerGuard access(this, maxDuration); body`: the
guard is constructed, the body runs, and the destructor runs when the body
returns and when it raises. -/
def withGuard {α : Type} (isTimeoutInit : Bool) (maxDuration : Option Int) (clock : GateClock)
    (body : EngineWorkerGuard → EngineWorker → Outcome α) (w : EngineWorker) : Outcome α :=
  match EngineWorkerGuard.construct isTimeoutInit maxDuration clock w with
  | .threw m w1 => .threw m w1
  | .spinning w1 => .spinning w1
  | .returned access w1 =>
    match body access w1 with
    | .returned v w2 => .returned v (EngineWorkerGuard.destruct w2)
    | .threw m w2 => .threw m (EngineWorkerGuard.destruct w2)
    | .spinning w2 => .spinning w2

/-- `EngineWorker::clear`. -/
def clear (eng : EngineBehaviour) (isTimeoutInit : Bool) (clock : GateClock) (w : EngineWorker) :
    Outcome Unit :=
  withGuard isTimeoutInit none clock (fun _ w1 => Outcome.ofCall (w1.callEngine eng .caller .clear)) w

/-- The `for` loop of `calcTimesteps`; stops at the first call that raises. -/
def calcTimestepLoop (eng : EngineBehaviour) : Nat → EngineWorker → EngineWorker × Option String
  | 0, w => (w, none)
  | n + 1, w =>
    match w.callEngine eng .caller .calcTimestep with
    | (w1, some m) => (w1, some m)
    | (w1, none) => calcTimestepLoop eng n w1

/-- `EngineWorker::calcTimesteps(timesteps)`; `statisticsNow` is the clock
reading of its `updateStatistics()`. -/
def calcTimesteps (eng : EngineBehaviour) (isTimeoutInit : Bool) (clock : GateClock)
    (statisticsNow : Int) (timesteps : Nat) (w : EngineWorker) : Outcome Unit :=
  withGuard isTimeoutInit none clock
    (fun _ w1 =>
      match calcTimestepLoop eng timesteps w1 with
      | (w2, some m) => .threw m w2
      | (w2, none) =>
        Outcome.ofCall (w2.updateStatistics eng .caller afterMinDurationDefault statisticsNow))
    w

/-- `EngineWorker::getStatistics`: the member `_lastStatistics`, read under the
statistics mutex. -/
def getStatistics (w : EngineWorker) : Outcome StatisticsData :=
  .returned w.lastStatistics w

/-- `EngineWorker::setSimulationParameters`: the engine call, with no guard
around it. -/
def setSimulationParameters (eng : EngineBehaviour) (w : EngineWorker) : Outcome Unit :=
  Outcome.ofCall (w.callEngine eng .caller .setSimulationParameters)

/-- `EngineWorker::removeSelection`. -/
def removeSelection (eng : EngineBehaviour) (isTimeoutInit : Bool) (clock : GateClock)
    (statisticsNow : Int) (w : EngineWorker) : Outcome Unit :=
  withGuard isTimeoutInit none clock
    (fun _ w1 =>
      match w1.callEngine eng .caller .removeSelection with
      | (w2, some m) => .threw m w2
      | (w2, none) =>
        Outcome.ofCall (w2.updateStatistics eng .caller afterMinDurationDefault statisticsNow))
    w

/-- `EngineWorker::waitAndAllowAccess(duration)` over the supplied readings;
`none` when the readings run out before the loop condition fails. -/
def waitAndAllowAccess (duration startTimepoint : Int) : List WaitPoll → EngineWorker → Option EngineWorker
  | [], _ => none
  | p :: rest, w =>
    if p.now - startTimepoint < duration then
      let w1 : EngineWorker :=
        match p.stored with
        | some v => { w with accessState := v }
        | none => w
      waitAndAllowAccess duration startTimepoint rest w1.grantAccess
    else some w

/-- The local `timestepDuration` of `slowdownTPS`: time since the previous
timepoint plus the carried overshoot. -/
def timestepDuration (now previous : Int) (w : EngineWorker) : Int :=
  (now - previous) + (match w.slowDownOvershot with | some o => o | none => 0)

/-- The local `desiredDuration` of `slowdownTPS`, microseconds per step. -/
def desiredDuration (tpsRestriction : Int) : Int :=
  Int.tdiv 1000000 tpsRestriction

/-- The value stored in `_slowDownOvershot`. -/
def overshot (timestepDuration desiredDuration : Int) : Int :=
  min (max (timestepDuration - desiredDuration) 0) desiredDuration

/-- `EngineWorker::slowdownTPS` over the supplied readings; `none` when the
readings of its wait run out. -/
def slowdownTPS (clock : SlowdownClock) (w : EngineWorker) : Option EngineWorker :=
  let throttled : Option EngineWorker :=
    match w.slowDownTimepoint with
    | some previous =>
      let td : Int := timestepDuration clock.entry previous w
      let tpsRestriction : Int := w.tpsRestriction
      if w.isSimulationRunning && decide (tpsRestriction > 0) then
        let dd : Int := desiredDuration tpsRestriction
        let waited : Option EngineWorker :=
          if dd > td then waitAndAllowAccess (dd - td) clock.waitStart clock.waitPolls w else some w
        waited.map (fun w1 => { w1 with slowDownOvershot := some (overshot td dd) })
      else some w
    | none => some w
  throttled.map (fun w1 => { w1 with slowDownTimepoint := some clock.exit })

/-- The `for` loop of `syncSimulationWithRenderingIfDesired`, iteration `i`
onwards, `remaining` iterations to go. -/
def syncLoop (eng : EngineBehaviour) (isTimeoutInit : Bool) (clock : Nat → SyncClock) :
    Nat → Nat → EngineWorker → Outcome Unit
  | 0, _, w => .returned () w
  | remaining + 1, i, w =>
    match calcTimesteps eng isTimeoutInit (clock i).gate (clock i).statistics 1 w with
    | .returned _ w1 =>
      match slowdownTPS (clock i).slowdown (measureTPS (clock i).measure w1) with
      | some w2 => syncLoop eng isTimeoutInit clock remaining (i + 1) w2
      | none => .spinning (measureTPS (clock i).measure w1)
    | .threw m w1 => .threw m w1
    | .spinning w1 => .spinning w1

/-- `EngineWorker::syncSimulationWithRenderingIfDesired`. -/
def syncSimulationWithRenderingIfDesired (eng : EngineBehaviour) (isTimeoutInit : Bool)
    (clock : Nat → SyncClock) (w : EngineWorker) : Outcome Unit :=
  if w.syncSimulationWithRendering && w.isSimulationRunning then
    syncLoop eng isTimeoutInit clock w.syncSimulationWithRenderingRatio.toNat 0 w
  else .returned () w

/-- `EngineWorker::tryDrawVectorGraphics`. -/
def tryDrawVectorGraphics (eng : EngineBehaviour) (isTimeoutInit : Bool) (clock : GateClock)
    (sync : Nat → SyncClock) (w : EngineWorker) : Outcome Unit :=
  withGuard isTimeoutInit (some FrameTimeout) clock
    (fun access w1 =>
      if !access.isTimeout then
        match w1.callEngine eng .caller .drawVectorGraphics with
        | (w2, some m) => .threw m w2
        | (w2, none) => syncSimulationWithRenderingIfDesired eng isTimeoutInit sync w2
      else .returned () w1)
    w

/-- The overlay a successful `tryDrawVectorGraphicsAndReturnOverlay` returns,
identified by the number of the `getOverlayData` call that filled it. -/
structure OverlayDescription where
  content : Nat
deriving DecidableEq

/-- `EngineWorker::tryDrawVectorGraphicsAndReturnOverlay`; `provideTO` is its
`getArraySizes` call. -/
def tryDrawVectorGraphicsAndReturnOverlay (eng : EngineBehaviour) (isTimeoutInit : Bool)
    (clock : GateClock) (sync : Nat → SyncClock) (w : EngineWorker) :
    Outcome (Option OverlayDescription) :=
  withGuard isTimeoutInit (some FrameTimeout) clock
    (fun access w1 =>
      if !access.isTimeout then
        match w1.callEngine eng .caller .drawVectorGraphics with
        | (w2, some m) => .threw m w2
        | (w2, none) =>
          match w2.callEngine eng .caller .getArraySizes with
          | (w3, some m) => .threw m w3
          | (w3, none) =>
            match w3.callEngine eng .caller .getOverlayData with
            | (w4, some m) => .threw m w4
            | (w4, none) =>
              match syncSimulationWithRenderingIfDesired eng isTimeoutInit sync w4 with
              | .returned _ w5 => .returned (some ⟨w3.engineLog.length⟩) w5
              | .threw m w5 => .threw m w5
              | .spinning w5 => .spinning w5
      else .returned none w1)
    w

end EngineWorker

/-! ## The two threads, interleaved -/

/-- The locals `timestepDuration` and `desiredDuration` of `slowdownTPS`, kept
while the worker is inside `waitAndAllowAccess`. -/
structure Throttle where
  timestepDuration : Int
  desiredDuration : Int
deriving DecidableEq

/-- Where the worker thread stands in `runThreadLoop`. Each position is the
next access to a variable the caller thread also uses (or the next clock
reading or engine call).
* `loopHead`: `while (!_isShutdown.load())`
* `checkSync`, `checkAccess`: the two operands of
  `!_syncSimulationWithRendering && _accessState == 0`
* `checkRunning`: `if (_isSimulationRunning.load())`
* `calcStep`: `_cudaSimulation->calcTimestep()` and `++_statisticsCounter == 3`
* `refreshStatistics`: `updateStatistics(true); _statisticsCounter = 0`
* `measure`: `measureTPS()`
* `slowdown`: `slowdownTPS()` up to its decision to wait (its loads of
  `_tpsRestriction` and `_isSimulationRunning` in one step)
* `waitStart`, `waitPoll`, `waitCheck`, `waitGrant`: `waitAndAllowAccess`, its
  first clock reading, its loop condition, the test `_accessState == 1` and the
  store `_accessState = 2`
* `stamp`: `_slowDownTimepoint = now()`
* `jobs`: `processJobs()`
* `grantCheck`, `grantWrite`: `if (_accessState == 1)` and `_accessState = 2`
* `exited`: the loop was left, by shutdown or through the `catch`. -/
inductive WorkerPc where
  | loopHead
  | checkSync
  | checkAccess
  | checkRunning
  | calcStep
  | refreshStatistics
  | measure
  | slowdown
  | waitStart (throttle : Throttle)
  | waitPoll (startTimepoint : Int) (throttle : Throttle)
  | waitCheck (startTimepoint : Int) (throttle : Throttle)
  | waitGrant (startTimepoint : Int) (throttle : Throttle)
  | stamp
  | jobs
  | grantCheck
  | grantWrite
  | exited
deriving DecidableEq

/-- Where the single caller thread stands: outside any guard, inside the
constructor of a guard (before the store of 1, or in its `while`), or holding a
constructed guard. -/
inductive CallerPc where
  | idle
  | requesting (maxDuration : Option Int)
  | polling (maxDuration : Option Int) (startTimepoint : Int)
  | holding
deriving DecidableEq

/-- What the caller thread does next. `acquire` enters the constructor of a
guard, `release` is its destructor; `engineCall` and `pauseStore` are the
statements gated operations run while holding the guard; the remaining actions
are the operations of `EngineWorker` that take no guard. Inside a constructor
the caller can only go on with it, whatever the action says. -/
inductive CallerAction where
  | acquire (maxDuration : Option Int)
  | proceed
  | engineCall (c : EngineCall)
  | pauseStore
  | release
  | newSimulation (timestep : Nat)
  | beginShutdown
  | endShutdown
  | runSimulation
  | setTpsRestriction (value : Int)
  | setSyncSimulationWithRendering (value : Bool)
  | setSyncSimulationWithRenderingRatio (value : Int)
  | setGpuSettings_async (gpuSettings : GpuSettings)
  | applyForce_async (start endPos force : RealVector2D) (radius : ℚ)
  | setSimulationParameters

/-- The worker object together with the positions of the two threads. -/
structure System where
  worker : EngineWorker
  workerPc : WorkerPc
  callerPc : CallerPc

/-- One scheduling decision: which thread takes its next atomic step, and the
clock reading it gets if that step reads the clock. -/
inductive Step where
  | worker (now : Int)
  | caller (action : CallerAction) (now : Int)

namespace System

/-- The system when the worker thread enters `runThreadLoop` and the caller
holds no guard. -/
def start (w : EngineWorker) : System :=
  { worker := w, workerPc := .loopHead, callerPc := .idle }

/-- The `catch` of `runThreadLoop`: the message is stored and the loop is left. -/
def fault (m : String) (w : EngineWorker) (s : System) : System :=
  { s with worker := { w with errorMessage := some m }, workerPc := .exited }

/-- Continue the worker at position `pc` with worker object `w`. -/
def goto (pc : WorkerPc) (w : EngineWorker) (s : System) : System :=
  { s with worker := w, workerPc := pc }

/-- The next atomic step of the worker thread in `runThreadLoop`. -/
def workerStep (eng : EngineBehaviour) (now : Int) (s : System) : System :=
  let w := s.worker
  match s.workerPc with
  | .loopHead => if !w.isShutdown then s.goto .checkSync w else s.goto .exited w
  | .checkSync => if !w.syncSimulationWithRendering then s.goto .checkAccess w else s.goto .jobs w
  | .checkAccess => if w.accessState = 0 then s.goto .checkRunning w else s.goto .jobs w
  | .checkRunning => if w.isSimulationRunning then s.goto .calcStep w else s.goto .measure w
  | .calcStep =>
    match w.callEngine eng .worker .calcTimestep with
    | (w1, some m) => s.fault m w1
    | (w1, none) =>
      let w2 : EngineWorker := { w1 with statisticsCounter := w1.statisticsCounter + 1 }
      if w2.statisticsCounter = 3 then s.goto .refreshStatistics w2 else s.goto .measure w2
  | .refreshStatistics =>
    match w.updateStatistics eng .worker true now with
    | (w1, some m) => s.fault m w1
    | (w1, none) => s.goto .measure { w1 with statisticsCounter := 0 }
  | .measure => s.goto .slowdown (w.measureTPS now)
  | .slowdown =>
    match w.slowDownTimepoint with
    | some previous =>
      let td : Int := EngineWorker.timestepDuration now previous w
      let tpsRestriction : Int := w.tpsRestriction
      if w.isSimulationRunning && decide (tpsRestriction > 0) then
        let dd : Int := EngineWorker.desiredDuration tpsRestriction
        if dd > td then s.goto (.waitStart ⟨td, dd⟩) w
        else s.goto .stamp { w with slowDownOvershot := some (EngineWorker.overshot td dd) }
      else s.goto .stamp w
    | none => s.goto .stamp w
  | .waitStart t => s.goto (.waitPoll now t) w
  | .waitPoll startTimepoint t =>
    if now - startTimepoint < t.desiredDuration - t.timestepDuration then
      s.goto (.waitCheck startTimepoint t) w
    else
      s.goto .stamp
        { w with slowDownOvershot := some (EngineWorker.overshot t.timestepDuration t.desiredDuration) }
  | .waitCheck startTimepoint t =>
    if w.accessState = 1 then s.goto (.waitGrant startTimepoint t) w
    else s.goto (.waitPoll startTimepoint t) w
  | .waitGrant startTimepoint t => s.goto (.waitPoll startTimepoint t) { w with accessState := 2 }
  | .stamp => s.goto .jobs { w with slowDownTimepoint := some now }
  | .jobs =>
    match w.processJobs eng with
    | (w1, some m) => s.fault m w1
    | (w1, none) => s.goto .grantCheck w1
  | .grantCheck => if w.accessState = 1 then s.goto .grantWrite w else s.goto .loopHead w
  | .grantWrite => s.goto .loopHead { w with accessState := 2 }
  | .exited => s

/-- An operation of `EngineWorker` that takes no guard, run by the caller;
`none` for the actions that belong to a guard. An error it raises leaves the
worker object as it was at the `throw`. -/
def ungated (eng : EngineBehaviour) (now : Int) (w : EngineWorker) : CallerAction → Option EngineWorker
  | .newSimulation timestep => some (w.newSimulation eng timestep now).1
  | .beginShutdown => some w.beginShutdown
  | .endShutdown => some w.endShutdown
  | .runSimulation => some w.runSimulation
  | .setTpsRestriction value => some (w.setTpsRestriction value)
  | .setSyncSimulationWithRendering value => some (w.setSyncSimulationWithRendering value)
  | .setSyncSimulationWithRenderingRatio value => some (w.setSyncSimulationWithRenderingRatio value)
  | .setGpuSettings_async gpuSettings => some (w.setGpuSettings_async gpuSettings)
  | .applyForce_async start endPos force radius => some (w.applyForce_async start endPos force radius)
  | .setSimulationParameters => some (w.callEngine eng .caller .setSimulationParameters).1
  | _ => none

/-- The next atomic step of the caller thread. -/
def callerStep (eng : EngineBehaviour) (action : CallerAction) (now : Int) (s : System) : System :=
  let w := s.worker
  match s.callerPc with
  | .requesting maxDuration =>
    { s with worker := { w with accessState := 1 }, callerPc := .polling maxDuration now }
  | .polling maxDuration startTimepoint =>
    match EngineWorkerGuard.poll maxDuration startTimepoint now w.accessState with
    | .again => s
    | .leave => { s with callerPc := .holding }
    | .raise _ => { s with callerPc := .idle }
  | .idle =>
    match action with
    | .acquire maxDuration =>
      match EngineWorkerGuard.checkForException w with
      | some _ => s
      | none => { s with callerPc := .requesting maxDuration }
    | other =>
      match ungated eng now w other with
      | some w1 => { s with worker := w1 }
      | none => s
  | .holding =>
    match action with
    | .release => { s with worker := EngineWorkerGuard.destruct w, callerPc := .idle }
    | .engineCall c =>
      match w.callEngine eng .caller c with
      | (w1, some _) => { s with worker := EngineWorkerGuard.destruct w1, callerPc := .idle }
      | (w1, none) => { s with worker := w1 }
    | .pauseStore => { s with worker := { w with isSimulationRunning := false } }
    | other =>
      match ungated eng now w other with
      | some w1 => { s with worker := w1 }
      | none => s

/-- One step of the interleaving. -/
def step (eng : EngineBehaviour) (s : System) : Step → System
  | .worker now => s.workerStep eng now
  | .caller action now => s.callerStep eng action now

/-- A whole interleaving, from the first scheduling decision to the last. -/
def run (eng : EngineBehaviour) (s : System) (steps : List Step) : System :=
  steps.foldl (step eng) s

/-- The number of steps the worker thread takes at position `pc` in the
interleaving `steps` started from `s`. -/
def workerStepsAt (eng : EngineBehaviour) (pc : WorkerPc) : System → List Step → Nat
  | _, [] => 0
  | s, st :: rest =>
    (match st with
      | .worker _ => if s.workerPc = pc then 1 else 0
      | .caller _ _ => 0) + workerStepsAt eng pc (s.step eng st) rest

/-- The message of the `std::exception` the engine raises in the next step of
the worker thread, if that step makes an engine call that raises. -/
def stepFault (eng : EngineBehaviour) (now : Int) (s : System) : Option String :=
  match s.workerPc with
  | .calcStep => (s.worker.callEngine eng .worker .calcTimestep).2
  | .refreshStatistics => (s.worker.updateStatistics eng .worker true now).2
  | .jobs => (s.worker.processJobs eng).2
  | _ => none

end System

/-- A call of one of the two fire-and-forget operations. -/
inductive Submission where
  | settings (gpuSettings : GpuSettings)
  | force (start endPos force : RealVector2D) (radius : ℚ)

/-- The worker object after the submission. -/
def Submission.submit (w : EngineWorker) : Submission → EngineWorker
  | .settings gpuSettings => w.setGpuSettings_async gpuSettings
  | .force start endPos vector radius => w.applyForce_async start endPos vector radius

/-- The settings a submission carries, if it is a `setGpuSettings_async`. -/
def Submission.settingsOf : Submission → Option GpuSettings
  | .settings s => some s
  | .force _ _ _ _ => none

/-- The engine argument of a submission, if it is an `applyForce_async`: the
submitted start, end, force and radius. -/
def Submission.forceOf : Submission → Option ApplyForceData
  | .settings _ => none
  | .force start endPos vector radius =>
    some { startPos := (start.x, start.y), endPos := (endPos.x, endPos.y),
           force := (vector.x, vector.y), radius := radius, onlyRotation := false }

/-- The settings of the last `setGpuSettings_async` in a sequence of
submissions, if there is one. -/
def Submission.lastSettings (subs : List Submission) : Option GpuSettings :=
  (subs.filterMap Submission.settingsOf).getLast?

/-- The engine arguments of the `applyForce_async` calls in a sequence of
submissions, in the order of submission. -/
def Submission.forces (subs : List Submission) : List ApplyForceData :=
  subs.filterMap Submission.forceOf

/-- The engine calls a drain makes for a settings slot and a force list. -/
def drainCalls (slot : Option GpuSettings) (forces : List ApplyForceData) : List EngineCall :=
  (match slot with
    | some s => [EngineCall.setGpuConstants s]
    | none => []) ++ forces.map EngineCall.applyForce

/-- The calls of a log, without thread and flag. -/
def callsOf (log : List EngineEvent) : List EngineCall :=
  log.map (fun e => e.call)

/-- From `w` to `w1` the flag is unchanged and the call log has grown by calls
of thread `t` only, each made at the flag value of `w`. -/
structure CallsAt (t : Thread) (w w1 : EngineWorker) : Prop where
  accessState : w1.accessState = w.accessState
  log : ∃ added, w1.engineLog = w.engineLog ++ added ∧
    ∀ e ∈ added, e.thread = t ∧ e.accessState = w.accessState

/-- Every engine call the operation has added to the call log of `w` was made
by the caller thread with `_accessState` at 2. -/
def Outcome.CallsWhileGranted {α : Type} (o : Outcome α) (w : EngineWorker) : Prop :=
  ∃ added, o.worker.engineLog = w.engineLog ++ added ∧
    ∀ e ∈ added, e.thread = .caller ∧ e.accessState = 2

/-- An event of `processJobs` as the job mutex sees it: the acquisition of
`_mutexForAsyncJobs`, its release, or a call into the engine. -/
inductive JobEvent where
  | lock
  | unlock
  | call (c : EngineCall)
deriving DecidableEq

/-- The event trace of `EngineWorker::processJobs`. Its first statement
constructs the `std::unique_lock` on `_mutexForAsyncJobs`, which is released
when the function is left, by return or by error; the engine calls are those
the function makes in between. -/
def EngineWorker.processJobsTrace (eng : EngineBehaviour) (w : EngineWorker) : List JobEvent :=
  [JobEvent.lock] ++
    (callsOf ((w.processJobs eng).1.engineLog.drop w.engineLog.length)).map JobEvent.call ++
    [JobEvent.unlock]

/-- One pass through the body of the loop of `waitAndAllowAccess`: what the
other thread stored since the last pass, then `if (_accessState == 1)
_accessState = 2`. -/
def EngineWorker.waitPass (w : EngineWorker) (p : WaitPoll) : EngineWorker :=
  (match p.stored with
    | some v => { w with accessState := v }
    | none => w).grantAccess

/-- The statistics counter after `k` simulation steps and `j` invocations of
`updateStatistics(true)` by the worker: `k = 3 * j + counter`, the counter is 3
exactly while an invocation is pending and 0, 1 or 2 otherwise. -/
structure System.Counted (s : System) (k j : Nat) : Prop where
  total : (k : Int) = 3 * (j : Int) + s.worker.statisticsCounter
  pending : s.workerPc = .refreshStatistics → s.worker.statisticsCounter = 3
  settled : s.workerPc ≠ .refreshStatistics →
    0 ≤ s.worker.statisticsCounter ∧ s.worker.statisticsCounter ≤ 2

/-- The positions of the worker inside the body of
`if (!_syncSimulationWithRendering && _accessState == 0)`, the second operand
of the condition included: simulation step, refresh, measurement and throttle. -/
def WorkerPc.inStepBranch : WorkerPc → Bool
  | .checkAccess | .checkRunning | .calcStep | .refreshStatistics | .measure | .slowdown
  | .waitStart _ | .waitPoll _ _ | .waitCheck _ _ | .waitGrant _ _ | .stamp => true
  | _ => false

/-- The two engine calls of one nested `calcTimesteps(1)`, both made with the
flag at 2. -/
def nestedStepEvents : List EngineEvent :=
  [⟨.caller, .calcTimestep, 2⟩, ⟨.caller, .getStatistics, 2⟩]

/-- The engine calls of `n` nested `calcTimesteps(1)` in a row. -/
def nestedEvents : Nat → List EngineEvent
  | 0 => []
  | n + 1 => nestedStepEvents ++ nestedEvents n

/-- The readings of a sync clock follow a steady clock from the state `w` on: each
`slowdownTPS` is entered no earlier than the timepoint the one before it
stored, its wait has a reading at least one second after its start, and no
other thread stores to the flag during the wait. -/
structure SyncClock.Steady (sync : Nat → SyncClock) (w : EngineWorker) : Prop where
  first : ∀ t, w.slowDownTimepoint = some t → t ≤ (sync 0).slowdown.entry
  later : ∀ i, (sync i).slowdown.exit ≤ (sync (i + 1)).slowdown.entry
  carried : ∀ o, w.slowDownOvershot = some o → 0 ≤ o
  waited : ∀ i, ∃ p ∈ (sync i).slowdown.waitPolls, 1000000 ≤ p.now - (sync i).slowdown.waitStart
  alone : ∀ i, ∀ p ∈ (sync i).slowdown.waitPolls, p.stored = none

/-- The last entry of the call log of `w1` is a call made by the worker thread
that raised the message `m`. -/
def RaisedLast (eng : EngineBehaviour) (m : String) (w1 : EngineWorker) : Prop :=
  ∃ (earlier : List EngineEvent) (c : EngineCall) (a : Int),
    w1.engineLog = earlier ++ [⟨.worker, c, a⟩] ∧ eng.raises earlier.length c = some m

/-- The property of a call log that no `calcTimestep` made by the worker thread
was made while `_accessState` was 2: each was made at 0 or at 1. -/
def StepsOutsideGrant (log : List EngineEvent) : Prop :=
  ∀ e ∈ log, e.thread = .worker → e.call = .calcTimestep → e.accessState = 0 ∨ e.accessState = 1

/-- The part of the worker object the access gate consists of is the same in
`w2` as in `w1`: the flag, the recorded error, and the property of the log. -/
structure GateKept (w1 w2 : EngineWorker) : Prop where
  accessState : w2.accessState = w1.accessState
  errorMessage : w2.errorMessage = w1.errorMessage
  log : StepsOutsideGrant w1.engineLog → StepsOutsideGrant w2.engineLog

/-- The invariant of the interleaving: the log has no worker-side `calcTimestep`
at 2, and while the worker stands between its test `_accessState == 0` and the
`calcTimestep` that follows it, the flag is 0 or 1. -/
structure System.Safe (s : System) : Prop where
  log : StepsOutsideGrant s.worker.engineLog
  pending : s.workerPc = .checkRunning ∨ s.workerPc = .calcStep →
    s.worker.accessState = 0 ∨ s.worker.accessState = 1

/-! ## Frame lemmas -/

theorem GateKept.refl (w : EngineWorker) : GateKept w w :=
  ⟨rfl, rfl, id⟩

theorem GateKept.trans {w1 w2 w3 : EngineWorker} (h12 : GateKept w1 w2) (h23 : GateKept w2 w3) :
    GateKept w1 w3 :=
  ⟨h23.accessState.trans h12.accessState, h23.errorMessage.trans h12.errorMessage,
    fun h => h23.log (h12.log h)⟩

namespace EngineWorker

theorem callEngine_accessState (eng : EngineBehaviour) (t : Thread) (c : EngineCall)
    (w : EngineWorker) : (w.callEngine eng t c).1.accessState = w.accessState := by
  unfold callEngine
  cases eng.raises w.engineLog.length c <;> rfl

theorem callEngine_errorMessage (eng : EngineBehaviour) (t : Thread) (c : EngineCall)
    (w : EngineWorker) : (w.callEngine eng t c).1.errorMessage = w.errorMessage := by
  unfold callEngine
  cases eng.raises w.engineLog.length c <;> rfl

theorem callEngine_engineLog (eng : EngineBehaviour) (t : Thread) (c : EngineCall)
    (w : EngineWorker) :
    (w.callEngine eng t c).1.engineLog = w.engineLog ++ [⟨t, c, w.accessState⟩] := by
  unfold callEngine
  cases eng.raises w.engineLog.length c <;> rfl

end EngineWorker

theorem StepsOutsideGrant.append_one {log : List EngineEvent} (h : StepsOutsideGrant log)
    (t : Thread) (c : EngineCall) (a : Int)
    (hnew : t = .worker → c = .calcTimestep → a = 0 ∨ a = 1) :
    StepsOutsideGrant (log ++ [⟨t, c, a⟩]) := by
  intro e he
  rcases List.mem_append.mp he with h1 | h1
  · exact h e h1
  · rw [List.mem_singleton] at h1
    subst h1
    exact hnew

namespace EngineWorker

theorem callEngine_stepsOutsideGrant (eng : EngineBehaviour) (t : Thread) (c : EngineCall)
    (w : EngineWorker) (h : StepsOutsideGrant w.engineLog)
    (hnew : t = .worker → c = .calcTimestep → w.accessState = 0 ∨ w.accessState = 1) :
    StepsOutsideGrant (w.callEngine eng t c).1.engineLog := by
  rw [callEngine_engineLog]
  exact h.append_one t c w.accessState hnew

theorem callEngine_gateKept (eng : EngineBehaviour) (t : Thread) (c : EngineCall)
    (w : EngineWorker)
    (hnew : t = .worker → c = .calcTimestep → w.accessState = 0 ∨ w.accessState = 1) :
    GateKept w (w.callEngine eng t c).1 :=
  ⟨callEngine_accessState eng t c w, callEngine_errorMessage eng t c w,
    fun h => callEngine_stepsOutsideGrant eng t c w h hnew⟩

theorem updateStatistics_gateKept (eng : EngineBehaviour) (t : Thread) (b : Bool) (now : Int)
    (w : EngineWorker) : GateKept w (w.updateStatistics eng t b now).1 := by
  unfold updateStatistics
  have h := callEngine_gateKept eng t .getStatistics w (by intro _ hc; cases hc)
  revert h
  generalize w.callEngine eng t .getStatistics = r
  rcases r with ⟨w1, _ | m⟩ <;> intro h <;> simp only [] <;> split
  all_goals first
    | exact GateKept.refl w
    | exact ⟨h.accessState, h.errorMessage, h.log⟩

theorem applyForceLoop_gateKept (eng : EngineBehaviour) (jobs : List ApplyForceJob) :
    ∀ w : EngineWorker, GateKept w (applyForceLoop eng jobs w).1 := by
  induction jobs with
  | nil => intro w; exact GateKept.refl w
  | cons job rest ih =>
    intro w
    unfold applyForceLoop
    have h := callEngine_gateKept eng .worker (.applyForce (forceData job)) w
      (by intro _ hc; cases hc)
    revert h
    generalize w.callEngine eng .worker (.applyForce (forceData job)) = r
    rcases r with ⟨w1, _ | m⟩ <;> intro h <;> simp only []
    · exact h.trans (ih w1)
    · exact h

theorem processJobs_gateKept (eng : EngineBehaviour) (w : EngineWorker) :
    GateKept w (w.processJobs eng).1 := by
  unfold processJobs
  cases hs : w.updateGpuSettingsJob with
  | none =>
    simp only []
    split
    · exact GateKept.refl w
    · have h := applyForceLoop_gateKept eng w.applyForceJobs w
      revert h
      generalize applyForceLoop eng w.applyForceJobs w = r
      rcases r with ⟨w2, _ | m⟩ <;> intro h <;> simp only []
      · exact ⟨h.accessState, h.errorMessage, h.log⟩
      · exact h
  | some settings =>
    simp only []
    have h := callEngine_gateKept eng .worker (.setGpuConstants settings) w
      (by intro _ hc; cases hc)
    revert h
    generalize w.callEngine eng .worker (.setGpuConstants settings) = r
    rcases r with ⟨w1, _ | m⟩ <;> intro h <;> simp only []
    · split
      · exact ⟨h.accessState, h.errorMessage, h.log⟩
      · have h2 := applyForceLoop_gateKept eng w1.applyForceJobs
          { w1 with updateGpuSettingsJob := none }
        revert h2
        generalize applyForceLoop eng w1.applyForceJobs { w1 with updateGpuSettingsJob := none } = r2
        rcases r2 with ⟨w2, _ | m⟩ <;> intro h2 <;> simp only []
        · exact ⟨h2.accessState.trans h.accessState, h2.errorMessage.trans h.errorMessage,
            fun hl => h2.log (h.log hl)⟩
        · exact ⟨h2.accessState.trans h.accessState, h2.errorMessage.trans h.errorMessage,
            fun hl => h2.log (h.log hl)⟩
    · exact h

theorem measureTPS_gateKept (now : Int) (w : EngineWorker) : GateKept w (w.measureTPS now) := by
  unfold measureTPS
  split
  · cases w.measureTimepoint with
    | none => exact ⟨rfl, rfl, id⟩
    | some last =>
      simp only []
      split <;> exact ⟨rfl, rfl, id⟩
  · exact ⟨rfl, rfl, id⟩

end EngineWorker

namespace EngineWorker

theorem newSimulation_gate (eng : EngineBehaviour) (timestep : Nat) (now : Int) (w : EngineWorker) :
    (w.newSimulation eng timestep now).1.accessState = 0 ∧
      (w.newSimulation eng timestep now).1.errorMessage = w.errorMessage ∧
      (StepsOutsideGrant w.engineLog →
        StepsOutsideGrant (w.newSimulation eng timestep now).1.engineLog) := by
  have key : ∀ w1 : EngineWorker, GateKept w1 (w.newSimulation eng timestep now).1 →
      w1.accessState = 0 → w1.errorMessage = w.errorMessage → w1.engineLog = w.engineLog →
      (w.newSimulation eng timestep now).1.accessState = 0 ∧
      (w.newSimulation eng timestep now).1.errorMessage = w.errorMessage ∧
      (StepsOutsideGrant w.engineLog →
        StepsOutsideGrant (w.newSimulation eng timestep now).1.engineLog) := by
    intro w1 hk ha he hl
    exact ⟨hk.accessState.trans ha, hk.errorMessage.trans he, fun h => hk.log (hl ▸ h)⟩
  have tail : ∀ w1 : EngineWorker, GateKept w1
      (match (match w1.imageResource with
          | some _ => w1.callEngine eng .caller .registerImageResource
          | none => (w1, none)) with
        | (w2, some m) => (w2, some m)
        | (w2, none) => w2.updateStatistics eng .caller afterMinDurationDefault now).1 := by
    intro w1
    cases w1.imageResource with
    | none =>
      simp only []
      exact updateStatistics_gateKept eng .caller afterMinDurationDefault now _
    | some img =>
      simp only []
      have h := callEngine_gateKept eng .caller .registerImageResource w1 (by intro ht; cases ht)
      revert h
      generalize callEngine eng .caller .registerImageResource w1 = r
      rcases r with ⟨w2, _ | m⟩ <;> intro h <;> simp only []
      · exact h.trans (updateStatistics_gateKept eng .caller afterMinDurationDefault now w2)
      · exact h
  exact key { w with accessState := 0, cudaSimulation := some ⟨timestep⟩ } (tail _) rfl rfl rfl

end EngineWorker

namespace System

theorem ungated_gate (eng : EngineBehaviour) (now : Int) (w w1 : EngineWorker) (a : CallerAction)
    (h : ungated eng now w a = some w1) :
    (w1.accessState = w.accessState ∨ w1.accessState = 0) ∧ w1.errorMessage = w.errorMessage ∧
      (StepsOutsideGrant w.engineLog → StepsOutsideGrant w1.engineLog) := by
  cases a <;> simp only [ungated, Option.some.injEq] at h <;> try cases h
  case newSimulation timestep =>
    have hn := EngineWorker.newSimulation_gate eng timestep now w
    exact ⟨Or.inr hn.1, hn.2.1, hn.2.2⟩
  case setSimulationParameters =>
    have hk := EngineWorker.callEngine_gateKept eng .caller .setSimulationParameters w
      (by intro ht; cases ht)
    exact ⟨Or.inl hk.accessState, hk.errorMessage, hk.log⟩
  all_goals exact ⟨Or.inl rfl, rfl, id⟩

theorem callerStep_safe (eng : EngineBehaviour) (a : CallerAction) (now : Int) (s : System)
    (h : Safe s) : Safe (s.callerStep eng a now) := by
  rcases s with ⟨w, pc, cpc⟩
  have hlog : StepsOutsideGrant w.engineLog := h.log
  have hpend := h.pending
  have hung : ∀ b : CallerAction, Safe
      (match ungated eng now w b with
        | some w1 => { worker := w1, workerPc := pc, callerPc := cpc }
        | none => { worker := w, workerPc := pc, callerPc := cpc }) := by
    intro b
    cases hu : ungated eng now w b with
    | none => exact h
    | some w1 =>
      have hg := ungated_gate eng now w w1 b hu
      refine ⟨hg.2.2 hlog, fun hp => ?_⟩
      rcases hg.1 with h1 | h1
      · simp only [h1]; exact hpend hp
      · exact Or.inl h1
  cases cpc with
  | requesting md => exact ⟨hlog, fun _ => Or.inr rfl⟩
  | polling md st =>
    simp only [callerStep]
    split <;> exact ⟨hlog, hpend⟩
  | idle =>
    simp only [callerStep]
    split
    · split <;> exact ⟨hlog, hpend⟩
    · exact hung _
  | holding =>
    simp only [callerStep]
    split
    · exact ⟨hlog, fun _ => Or.inl rfl⟩
    · rename_i c
      have hk := EngineWorker.callEngine_gateKept eng .caller c w (by intro ht; cases ht)
      revert hk
      generalize w.callEngine eng .caller c = r
      rcases r with ⟨w1, _ | m⟩ <;> intro hk <;> simp only []
      · refine ⟨hk.log hlog, fun hp => ?_⟩
        rw [show w1.accessState = w.accessState from hk.accessState]
        exact hpend hp
      · exact ⟨hk.log hlog, fun _ => Or.inl rfl⟩
    · exact ⟨hlog, hpend⟩
    · exact hung _

theorem safe_goto (s : System) (pc : WorkerPc) (w : EngineWorker)
    (hlog : StepsOutsideGrant w.engineLog)
    (hpc : pc = .checkRunning ∨ pc = .calcStep → w.accessState = 0 ∨ w.accessState = 1) :
    Safe (s.goto pc w) :=
  ⟨hlog, hpc⟩

theorem safe_fault (s : System) (m : String) (w : EngineWorker)
    (hlog : StepsOutsideGrant w.engineLog) : Safe (s.fault m w) :=
  ⟨hlog, by intro h; rcases h with h | h <;> cases h⟩

theorem workerStep_safe (eng : EngineBehaviour) (now : Int) (s : System) (h : Safe s) :
    Safe (s.workerStep eng now) := by
  rcases s with ⟨w, pc, cpc⟩
  have hlog : StepsOutsideGrant w.engineLog := h.log
  cases pc with
  | loopHead =>
    simp only [workerStep]
    split <;> exact safe_goto _ _ _ hlog (by intro h; rcases h with h | h <;> cases h)
  | checkSync =>
    simp only [workerStep]
    split <;> exact safe_goto _ _ _ hlog (by intro h; rcases h with h | h <;> cases h)
  | checkAccess =>
    simp only [workerStep]
    split
    · rename_i h0
      exact safe_goto _ _ _ hlog (fun _ => Or.inl h0)
    · exact safe_goto _ _ _ hlog (by intro h; rcases h with h | h <;> cases h)
  | checkRunning =>
    have hp := h.pending (Or.inl rfl)
    simp only [workerStep]
    split
    · exact safe_goto _ _ _ hlog (fun _ => hp)
    · exact safe_goto _ _ _ hlog (by intro h; rcases h with h | h <;> cases h)
  | calcStep =>
    have hp := h.pending (Or.inr rfl)
    simp only [workerStep]
    have hk := EngineWorker.callEngine_gateKept eng .worker .calcTimestep w (fun _ _ => hp)
    revert hk
    generalize w.callEngine eng .worker .calcTimestep = r
    rcases r with ⟨w1, _ | m⟩ <;> intro hk <;> simp only []
    · split <;> exact safe_goto _ _ _ (hk.log hlog) (by intro h; rcases h with h | h <;> cases h)
    · exact safe_fault _ _ _ (hk.log hlog)
  | refreshStatistics =>
    simp only [workerStep]
    have hk := EngineWorker.updateStatistics_gateKept eng .worker true now w
    revert hk
    generalize w.updateStatistics eng .worker true now = r
    rcases r with ⟨w1, _ | m⟩ <;> intro hk <;> simp only []
    · exact safe_goto _ _ _ (hk.log hlog) (by intro h; rcases h with h | h <;> cases h)
    · exact safe_fault _ _ _ (hk.log hlog)
  | measure =>
    simp only [workerStep]
    exact safe_goto _ _ _ ((EngineWorker.measureTPS_gateKept now w).log hlog)
      (by intro h; rcases h with h | h <;> cases h)
  | slowdown =>
    simp only [workerStep]
    cases w.slowDownTimepoint with
    | none => exact safe_goto _ _ _ hlog (by intro h; rcases h with h | h <;> cases h)
    | some previous =>
      simp only []
      split
      · split <;> exact safe_goto _ _ _ hlog (by intro h; rcases h with h | h <;> cases h)
      · exact safe_goto _ _ _ hlog (by intro h; rcases h with h | h <;> cases h)
  | waitStart t =>
    exact safe_goto _ _ _ hlog (by intro h; rcases h with h | h <;> cases h)
  | waitPoll st t =>
    simp only [workerStep]
    split <;> exact safe_goto _ _ _ hlog (by intro h; rcases h with h | h <;> cases h)
  | waitCheck st t =>
    simp only [workerStep]
    split <;> exact safe_goto _ _ _ hlog (by intro h; rcases h with h | h <;> cases h)
  | waitGrant st t =>
    exact safe_goto _ _ _ hlog (by intro h; rcases h with h | h <;> cases h)
  | stamp =>
    exact safe_goto _ _ _ hlog (by intro h; rcases h with h | h <;> cases h)
  | jobs =>
    simp only [workerStep]
    have hk := EngineWorker.processJobs_gateKept eng w
    revert hk
    generalize w.processJobs eng = r
    rcases r with ⟨w1, _ | m⟩ <;> intro hk <;> simp only []
    · exact safe_goto _ _ _ (hk.log hlog) (by intro h; rcases h with h | h <;> cases h)
    · exact safe_fault _ _ _ (hk.log hlog)
  | grantCheck =>
    simp only [workerStep]
    split <;> exact safe_goto _ _ _ hlog (by intro h; rcases h with h | h <;> cases h)
  | grantWrite =>
    exact safe_goto _ _ _ hlog (by intro h; rcases h with h | h <;> cases h)
  | exited => exact h

theorem workerStep_recorded (eng : EngineBehaviour) (now : Int) (s : System)
    (h : s.worker.errorMessage.isSome = true) :
    (s.workerStep eng now).worker.errorMessage.isSome = true := by
  rcases s with ⟨w, pc, cpc⟩
  have hw : w.errorMessage.isSome = true := h
  have keep : ∀ w1 : EngineWorker, GateKept w w1 → w1.errorMessage.isSome = true := by
    intro w1 hk
    rw [hk.errorMessage]
    exact hw
  cases pc with
  | loopHead => simp only [workerStep]; split <;> exact hw
  | checkSync => simp only [workerStep]; split <;> exact hw
  | checkAccess => simp only [workerStep]; split <;> exact hw
  | checkRunning => simp only [workerStep]; split <;> exact hw
  | calcStep =>
    simp only [workerStep]
    have hk := EngineWorker.callEngine_errorMessage eng .worker .calcTimestep w
    revert hk
    generalize w.callEngine eng .worker .calcTimestep = r
    rcases r with ⟨w1, _ | m⟩ <;> intro hk <;> simp only []
    · have hw1 : w1.errorMessage.isSome = true := by
        rw [show w1.errorMessage = w.errorMessage from hk]
        exact hw
      split <;> exact hw1
    · rfl
  | refreshStatistics =>
    simp only [workerStep]
    have hk := keep _ (EngineWorker.updateStatistics_gateKept eng .worker true now w)
    revert hk
    generalize w.updateStatistics eng .worker true now = r
    rcases r with ⟨w1, _ | m⟩ <;> intro hk <;> simp only []
    · exact hk
    · rfl
  | measure => exact keep _ (EngineWorker.measureTPS_gateKept now w)
  | slowdown =>
    simp only [workerStep]
    cases w.slowDownTimepoint with
    | none => exact hw
    | some previous =>
      simp only []
      split
      · split <;> exact hw
      · exact hw
  | waitStart t => exact hw
  | waitPoll st t => simp only [workerStep]; split <;> exact hw
  | waitCheck st t => simp only [workerStep]; split <;> exact hw
  | waitGrant st t => exact hw
  | stamp => exact hw
  | jobs =>
    simp only [workerStep]
    have hk := keep _ (EngineWorker.processJobs_gateKept eng w)
    revert hk
    generalize w.processJobs eng = r
    rcases r with ⟨w1, _ | m⟩ <;> intro hk <;> simp only []
    · exact hk
    · rfl
  | grantCheck => simp only [workerStep]; split <;> exact hw
  | grantWrite => exact hw
  | exited => exact hw

theorem callerStep_recorded (eng : EngineBehaviour) (a : CallerAction) (now : Int) (s : System)
    (h : s.worker.errorMessage.isSome = true) :
    (s.callerStep eng a now).worker.errorMessage.isSome = true := by
  rcases s with ⟨w, pc, cpc⟩
  have hw : w.errorMessage.isSome = true := h
  have hung : ∀ b : CallerAction,
      (match ungated eng now w b with
        | some w1 => ({ worker := w1, workerPc := pc, callerPc := cpc } : System)
        | none => { worker := w, workerPc := pc, callerPc := cpc }).worker.errorMessage.isSome
        = true := by
    intro b
    cases hu : ungated eng now w b with
    | none => exact hw
    | some w1 =>
      have hg := ungated_gate eng now w w1 b hu
      show w1.errorMessage.isSome = true
      rw [hg.2.1]
      exact hw
  cases cpc with
  | requesting md => exact hw
  | polling md st =>
    simp only [callerStep]
    split <;> exact hw
  | idle =>
    simp only [callerStep]
    split
    · split <;> exact hw
    · exact hung _
  | holding =>
    simp only [callerStep]
    split
    · exact hw
    · rename_i c
      have hk := EngineWorker.callEngine_errorMessage eng .caller c w
      revert hk
      generalize w.callEngine eng .caller c = r
      rcases r with ⟨w1, _ | m⟩ <;> intro hk <;> simp only []
      · show w1.errorMessage.isSome = true
        rw [show w1.errorMessage = w.errorMessage from hk]
        exact hw
      · show w1.errorMessage.isSome = true
        rw [show w1.errorMessage = w.errorMessage from hk]
        exact hw
    · exact hw
    · exact hung _

theorem run_recorded (eng : EngineBehaviour) (steps : List Step) :
    ∀ s : System, s.worker.errorMessage.isSome = true →
      (s.run eng steps).worker.errorMessage.isSome = true := by
  induction steps with
  | nil => intro s h; exact h
  | cons st rest ih =>
    intro s h
    refine ih (s.step eng st) ?_
    cases st with
    | worker now => exact workerStep_recorded eng now s h
    | caller a now => exact callerStep_recorded eng a now s h

theorem step_safe (eng : EngineBehaviour) (s : System) (st : Step) (h : Safe s) :
    Safe (s.step eng st) := by
  cases st with
  | worker now => exact workerStep_safe eng now s h
  | caller a now => exact callerStep_safe eng a now s h

theorem run_safe (eng : EngineBehaviour) (steps : List Step) :
    ∀ s : System, Safe s → Safe (s.run eng steps) := by
  induction steps with
  | nil => intro s h; exact h
  | cons st rest ih =>
    intro s h
    exact ih (s.step eng st) (step_safe eng s st h)

end System

theorem EngineWorkerGuard.construct_of_recorded (isTimeoutInit : Bool) (maxDuration : Option Int)
    (clock : GateClock) (w : EngineWorker) (h : w.errorMessage.isSome = true) :
    EngineWorkerGuard.construct isTimeoutInit maxDuration clock w
      = .threw EngineWorkerGuard.invalidStateMessage w := by
  unfold EngineWorkerGuard.construct EngineWorkerGuard.checkForException
  cases hr : w.errorMessage with
  | none => rw [hr] at h; cases h
  | some m1 => rfl

theorem EngineWorkerGuard.pollLoop_cons (maxDuration : Option Int) (start : Int) (init : Bool)
    (p : Poll) (rest : List Poll) (w : EngineWorker) :
    EngineWorkerGuard.pollLoop maxDuration start init (p :: rest) w =
      (match EngineWorkerGuard.poll maxDuration start p.now
          (if p.workerGrants then w.grantAccess else w).accessState with
        | .again => EngineWorkerGuard.pollLoop maxDuration start init rest
            (if p.workerGrants then w.grantAccess else w)
        | .leave => .returned ⟨init⟩ (if p.workerGrants then w.grantAccess else w)
        | .raise m => .threw m (if p.workerGrants then w.grantAccess else w)) :=
  rfl

theorem EngineWorkerGuard.construct_of_clear (isTimeoutInit : Bool) (maxDuration : Option Int)
    (clock : GateClock) (w : EngineWorker) (h : w.errorMessage = none) :
    EngineWorkerGuard.construct isTimeoutInit maxDuration clock w
      = EngineWorkerGuard.pollLoop maxDuration clock.startTimepoint isTimeoutInit clock.polls
          { w with accessState := 1 } := by
  have hc : EngineWorkerGuard.checkForException w = none := by
    unfold EngineWorkerGuard.checkForException
    rw [h]
  unfold EngineWorkerGuard.construct
  rw [hc]

theorem EngineWorkerGuard.pollLoop_skip (maxDuration : Option Int) (start : Int) (init : Bool)
    (rest : List Poll) (w : EngineWorker) (hw : w.accessState = 1) :
    ∀ before : List Poll,
      (∀ q ∈ before, q.workerGrants = false ∧
        EngineWorkerGuard.poll maxDuration start q.now 1 = .again) →
      EngineWorkerGuard.pollLoop maxDuration start init (before ++ rest) w
        = EngineWorkerGuard.pollLoop maxDuration start init rest w := by
  intro before
  induction before with
  | nil => intro _; rfl
  | cons q qs ih =>
    intro h
    have hq := h q (List.mem_cons_self q qs)
    have hqs := ih (fun r hr => h r (List.mem_cons_of_mem q hr))
    show EngineWorkerGuard.pollLoop maxDuration start init (q :: (qs ++ rest)) w = _
    rw [EngineWorkerGuard.pollLoop_cons]
    simp only [hq.1, Bool.false_eq_true, if_false, hw, hq.2]
    exact hqs

theorem EngineWorkerGuard.poll_hard_again (start now : Int) (h : now - start ≤ 7000000) :
    EngineWorkerGuard.poll none start now 1 = .again := by
  unfold EngineWorkerGuard.poll
  simp only [if_true]
  rw [if_neg (by omega)]

theorem EngineWorkerGuard.poll_hard_raise (start now : Int) (h : now - start > 7000000) :
    EngineWorkerGuard.poll none start now 1 = .raise EngineWorkerGuard.notReachableMessage := by
  unfold EngineWorkerGuard.poll
  simp only [if_true]
  rw [if_pos (by omega)]

theorem EngineWorkerGuard.microseconds_of_range (d : Int)
    (hlow : -9223372036854775808 ≤ d * 1000) (hhigh : d * 1000 < 9223372036854775808) :
    EngineWorkerGuard.microseconds d = d * 1000 := by
  unfold EngineWorkerGuard.microseconds
  omega

theorem EngineWorkerGuard.poll_advisory_again (d start now : Int)
    (h : now - start ≤ EngineWorkerGuard.microseconds d) :
    EngineWorkerGuard.poll (some d) start now 1 = .again := by
  unfold EngineWorkerGuard.poll
  simp only [if_true]
  rw [if_neg (not_lt.mpr h)]

theorem EngineWorkerGuard.poll_advisory_leave (d start now : Int)
    (h : now - start > EngineWorkerGuard.microseconds d) :
    EngineWorkerGuard.poll (some d) start now 1 = .leave := by
  unfold EngineWorkerGuard.poll
  simp only [if_true]
  rw [if_pos h]

theorem EngineWorkerGuard.poll_advisory_ne_raise (d start now a : Int) (m : String) :
    EngineWorkerGuard.poll (some d) start now a ≠ .raise m := by
  unfold EngineWorkerGuard.poll
  split
  · simp only []
    split <;> simp
  · simp

theorem EngineWorkerGuard.pollLoop_advisory_ne_threw (d start : Int) (init : Bool) (m : String)
    (w1 : EngineWorker) :
    ∀ (polls : List Poll) (w : EngineWorker),
      EngineWorkerGuard.pollLoop (some d) start init polls w ≠ .threw m w1 := by
  intro polls
  induction polls with
  | nil => intro w h; cases h
  | cons q qs ih =>
    intro w
    rw [EngineWorkerGuard.pollLoop_cons]
    split
    · exact ih _
    · intro h; cases h
    · rename_i m1 hp
      exact absurd hp (EngineWorkerGuard.poll_advisory_ne_raise d start q.now _ m1)

theorem EngineWorker.withGuard_exitsIdle {α : Type} (isTimeoutInit : Bool)
    (maxDuration : Option Int) (clock : GateClock)
    (body : EngineWorkerGuard → EngineWorker → Outcome α) (w w1 : EngineWorker)
    (g : EngineWorkerGuard)
    (hc : EngineWorkerGuard.construct isTimeoutInit maxDuration clock w = .returned g w1)
    (hbody : ∀ w2, body g w1 ≠ .spinning w2) :
    (EngineWorker.withGuard isTimeoutInit maxDuration clock body w).ExitsIdle := by
  unfold EngineWorker.withGuard
  rw [hc]
  simp only []
  cases hb : body g w1 with
  | returned v w2 => exact rfl
  | threw m w2 => exact rfl
  | spinning w2 => exact absurd hb (hbody w2)

theorem Outcome.ofCall_ne_spinning (r : EngineWorker × Option String) (w2 : EngineWorker) :
    Outcome.ofCall r ≠ .spinning w2 := by
  rcases r with ⟨w1, _ | m⟩ <;> intro h <;> cases h

namespace EngineWorker

theorem callEngine_jobs (eng : EngineBehaviour) (t : Thread) (c : EngineCall) (w : EngineWorker) :
    (w.callEngine eng t c).1.updateGpuSettingsJob = w.updateGpuSettingsJob ∧
      (w.callEngine eng t c).1.applyForceJobs = w.applyForceJobs := by
  unfold callEngine
  cases eng.raises w.engineLog.length c <;> exact ⟨rfl, rfl⟩

theorem callsOf_callEngine (eng : EngineBehaviour) (t : Thread) (c : EngineCall)
    (w : EngineWorker) : callsOf (w.callEngine eng t c).1.engineLog = callsOf w.engineLog ++ [c] := by
  rw [callEngine_engineLog]
  simp [callsOf]

theorem applyForceLoop_returns (eng : EngineBehaviour) (jobs : List ApplyForceJob) :
    ∀ w w1 : EngineWorker, applyForceLoop eng jobs w = (w1, none) →
      callsOf w1.engineLog = callsOf w.engineLog ++ (jobs.map forceData).map EngineCall.applyForce ∧
        w1.updateGpuSettingsJob = w.updateGpuSettingsJob ∧ w1.applyForceJobs = w.applyForceJobs := by
  induction jobs with
  | nil =>
    intro w w1 h
    simp only [applyForceLoop, Prod.mk.injEq, and_true] at h
    subst h
    simp
  | cons job rest ih =>
    intro w w1 h
    unfold applyForceLoop at h
    have hl := callsOf_callEngine eng .worker (.applyForce (forceData job)) w
    have hj := callEngine_jobs eng .worker (.applyForce (forceData job)) w
    revert h hl hj
    generalize w.callEngine eng .worker (.applyForce (forceData job)) = r
    rcases r with ⟨w2, _ | m⟩ <;> intro h hl hj <;> simp only [] at h
    · have h2 := ih w2 w1 h
      refine ⟨?_, h2.2.1.trans hj.1, h2.2.2.trans hj.2⟩
      rw [h2.1, show callsOf w2.engineLog = callsOf w.engineLog ++ [_] from hl]
      simp
    · simp at h

theorem drainForces_returns (eng : EngineBehaviour) (w w1 : EngineWorker)
    (h : (if w.applyForceJobs.isEmpty then (w, none)
        else
          match applyForceLoop eng w.applyForceJobs w with
          | (w2, some m) => (w2, some m)
          | (w2, none) => ({ w2 with applyForceJobs := [] }, none)) = (w1, (none : Option String))) :
    callsOf w1.engineLog
        = callsOf w.engineLog ++ (w.applyForceJobs.map forceData).map EngineCall.applyForce ∧
      w1.updateGpuSettingsJob = w.updateGpuSettingsJob ∧ w1.applyForceJobs = [] := by
  split at h
  · rename_i hempty
    have hnil : w.applyForceJobs = [] := List.isEmpty_iff.mp hempty
    simp only [Prod.mk.injEq, and_true] at h
    subst h
    rw [hnil]
    simp
  · have hl := applyForceLoop_returns eng w.applyForceJobs w
    revert h hl
    generalize applyForceLoop eng w.applyForceJobs w = r
    rcases r with ⟨w2, _ | m⟩ <;> intro h hl <;> simp only [] at h
    · have h2 := hl w2 rfl
      simp only [Prod.mk.injEq, and_true] at h
      subst h
      exact ⟨h2.1, h2.2.1, rfl⟩
    · simp at h

theorem processJobs_returns (eng : EngineBehaviour) (w w1 : EngineWorker)
    (h : w.processJobs eng = (w1, none)) :
    callsOf w1.engineLog
        = callsOf w.engineLog ++ drainCalls w.updateGpuSettingsJob (w.applyForceJobs.map forceData) ∧
      w1.updateGpuSettingsJob = none ∧ w1.applyForceJobs = [] := by
  unfold processJobs at h
  cases hs : w.updateGpuSettingsJob with
  | none =>
    rw [hs] at h
    simp only [] at h
    have hd := drainForces_returns eng w w1 h
    refine ⟨?_, hd.2.1.trans hs, hd.2.2⟩
    rw [hd.1]
    simp [drainCalls]
  | some settings =>
    rw [hs] at h
    simp only [] at h
    have hl := callsOf_callEngine eng .worker (.setGpuConstants settings) w
    have hj := callEngine_jobs eng .worker (.setGpuConstants settings) w
    revert h hl hj
    generalize w.callEngine eng .worker (.setGpuConstants settings) = r
    rcases r with ⟨w2, _ | m⟩ <;> intro h hl hj <;> simp only [] at h
    · have hd := drainForces_returns eng { w2 with updateGpuSettingsJob := none } w1 h
      refine ⟨?_, hd.2.1, hd.2.2⟩
      rw [hd.1]
      show callsOf w2.engineLog ++ (w2.applyForceJobs.map forceData).map EngineCall.applyForce = _
      rw [show callsOf w2.engineLog = callsOf w.engineLog ++ [_] from hl,
        show w2.applyForceJobs = w.applyForceJobs from hj.2]
      simp [drainCalls]
    · simp at h

theorem processJobs_of_empty (eng : EngineBehaviour) (w : EngineWorker)
    (hslot : w.updateGpuSettingsJob = none) (hjobs : w.applyForceJobs = []) :
    w.processJobs eng = (w, none) := by
  unfold processJobs
  rw [hslot]
  simp only []
  rw [hjobs]
  rfl

end EngineWorker

theorem Submission.foldl_submit (subs : List Submission) :
    ∀ w : EngineWorker,
      (subs.foldl Submission.submit w).updateGpuSettingsJob
          = (match Submission.lastSettings subs with
            | some s => some s
            | none => w.updateGpuSettingsJob) ∧
        (subs.foldl Submission.submit w).applyForceJobs.map EngineWorker.forceData
          = w.applyForceJobs.map EngineWorker.forceData ++ Submission.forces subs ∧
        (subs.foldl Submission.submit w).engineLog = w.engineLog := by
  induction subs with
  | nil => intro w; simp [Submission.lastSettings, Submission.forces]
  | cons a rest ih =>
    intro w
    have h := ih (Submission.submit w a)
    rw [List.foldl_cons]
    refine ⟨?_, ?_, ?_⟩
    · rw [h.1]
      unfold Submission.lastSettings
      cases a with
      | settings g =>
        simp only [List.filterMap_cons, Submission.settingsOf, List.getLast?_cons]
        cases (List.filterMap Submission.settingsOf rest).getLast? <;> rfl
      | force st en f r =>
        simp only [List.filterMap_cons, Submission.settingsOf]
        rfl
    · rw [h.2.1]
      cases a with
      | settings g =>
        simp [Submission.submit, Submission.forces, Submission.forceOf,
          EngineWorker.setGpuSettings_async]
      | force st en f r =>
        simp [Submission.submit, Submission.forces, Submission.forceOf,
          EngineWorker.applyForce_async, EngineWorker.forceData]
    · rw [h.2.2]
      cases a <;> rfl

/-! ## The claims -/

/-- C1: in every interleaving of the worker loop (its throttle wait included)
with a caller that uses guards one after the other, started with an empty call
log, every `calcTimestep` the worker thread makes is logged with `_accessState`
equal to 0 (Idle) or 1 (Requested), never 2 (Granted); and whenever the worker
stands right before its `calcTimestep` the flag is 0 or 1. -/
theorem worker_calcTimestep_outside_granted (eng : EngineBehaviour) (w : EngineWorker)
    (hw : w.engineLog = []) (steps : List Step) :
    (∀ e ∈ ((System.start w).run eng steps).worker.engineLog,
        e.thread = .worker → e.call = .calcTimestep → e.accessState = 0 ∨ e.accessState = 1) ∧
      (((System.start w).run eng steps).workerPc = .calcStep →
        ((System.start w).run eng steps).worker.accessState = 0 ∨
          ((System.start w).run eng steps).worker.accessState = 1) := by
  have hlog : StepsOutsideGrant (System.start w).worker.engineLog := by
    intro e he
    rw [show (System.start w).worker.engineLog = [] from hw] at he
    cases he
  have h0 : System.Safe (System.start w) :=
    ⟨hlog, fun h => by rcases h with h | h <;> cases h⟩
  have h := System.run_safe eng steps (System.start w) h0
  exact ⟨h.log, fun hp => h.pending (Or.inr hp)⟩

/-- An interleaving in which the caller requests access between the worker's
test of the flag and its `calcTimestep`: the step is logged at 1. -/
theorem worker_calcTimestep_outside_granted_witness :
    ((System.start { isSimulationRunning := true }).run EngineBehaviour.quiet
        [.worker 0, .worker 0, .worker 0, .caller (.acquire none) 0, .caller .proceed 0,
          .worker 0, .worker 0]).worker.engineLog = [⟨.worker, .calcTimestep, 1⟩] ∧
      ((1 : Int) = 0 ∨ (1 : Int) = 1) :=
  ⟨by decide,
    (worker_calcTimestep_outside_granted EngineBehaviour.quiet { isSimulationRunning := true } rfl
      [.worker 0, .worker 0, .worker 0, .caller (.acquire none) 0, .caller .proceed 0,
        .worker 0, .worker 0]).1 ⟨.worker, .calcTimestep, 1⟩ (by decide) rfl rfl⟩

/-- C2: once an error message is recorded, then after any further steps of the
two threads (the caller's `newSimulation`, `endShutdown` and all its other
operations included) the construction of a guard, with or without a
`maxDuration` and whatever the clock readings (none at all included), raises
and leaves the worker object, its `_accessState` in particular, exactly as it
was before the construction. -/
theorem acquire_after_fault_raises_untouched (eng : EngineBehaviour) (s : System) (m : String)
    (hm : s.worker.errorMessage = some m) (steps : List Step) (isTimeoutInit : Bool)
    (maxDuration : Option Int) (clock : GateClock) :
    EngineWorkerGuard.construct isTimeoutInit maxDuration clock (s.run eng steps).worker
        = .threw EngineWorkerGuard.invalidStateMessage (s.run eng steps).worker ∧
      (EngineWorkerGuard.construct isTimeoutInit maxDuration clock
          (s.run eng steps).worker).worker.accessState = (s.run eng steps).worker.accessState := by
  have h := System.run_recorded eng steps s (by rw [hm]; rfl)
  have hc := EngineWorkerGuard.construct_of_recorded isTimeoutInit maxDuration clock
    (s.run eng steps).worker h
  exact ⟨hc, by rw [hc]; rfl⟩

/-- A recorded fault, then `newSimulation`, `endShutdown` and a worker step:
the acquire that follows raises although no clock reading is supplied. -/
theorem acquire_after_fault_raises_untouched_witness :
    (System.start { errorMessage := some "boom" }).worker.errorMessage = some "boom" ∧
      (EngineWorkerGuard.construct false none ⟨0, []⟩
          ((System.start { errorMessage := some "boom" }).run EngineBehaviour.quiet
            [.caller (.newSimulation 5) 0, .caller .endShutdown 0, .worker 0]).worker).worker.accessState
        = ((System.start { errorMessage := some "boom" }).run EngineBehaviour.quiet
            [.caller (.newSimulation 5) 0, .caller .endShutdown 0, .worker 0]).worker.accessState :=
  ⟨rfl, (acquire_after_fault_raises_untouched EngineBehaviour.quiet
    (System.start { errorMessage := some "boom" }) "boom" rfl
    [.caller (.newSimulation 5) 0, .caller .endShutdown 0, .worker 0] false none ⟨0, []⟩).2⟩

/-- C3, as the claim states it, fails: the worker loop records the message
"boom" of a failing `calcTimestep`, and the acquire that follows raises an error
whose message is not "boom". -/
theorem acquire_error_drops_recorded_message :
    ((System.start { isSimulationRunning := true }).run (EngineBehaviour.failing "boom")
        [.worker 0, .worker 0, .worker 0, .worker 0, .worker 0]).worker.errorMessage = some "boom" ∧
      ¬ ∃ w1, EngineWorkerGuard.construct false none ⟨0, []⟩
          ((System.start { isSimulationRunning := true }).run (EngineBehaviour.failing "boom")
            [.worker 0, .worker 0, .worker 0, .worker 0, .worker 0]).worker = .threw "boom" w1 := by
  refine ⟨by decide, ?_⟩
  rintro ⟨w1, h⟩
  rw [EngineWorkerGuard.construct_of_recorded false none ⟨0, []⟩ _ (by decide)] at h
  have hmsg : EngineWorkerGuard.invalidStateMessage = "boom" := by
    injection h
  exact absurd hmsg (by decide)

/-- C3, amended: whatever message `m` the `catch` of the worker loop records, a
later acquire raises an error with the fixed message "GPU worker thread is in an
invalid state."; the recorded message only decides that it raises. -/
theorem acquire_after_fault_raises_fixed_message (s : System) (m : String) (w : EngineWorker)
    (isTimeoutInit : Bool) (maxDuration : Option Int) (clock : GateClock) :
    (s.fault m w).worker.errorMessage = some m ∧
      EngineWorkerGuard.construct isTimeoutInit maxDuration clock (s.fault m w).worker
        = .threw "GPU worker thread is in an invalid state." (s.fault m w).worker :=
  ⟨rfl, EngineWorkerGuard.construct_of_recorded isTimeoutInit maxDuration clock _ rfl⟩

/-- C4: with no fault recorded, no `maxDuration`, and a worker that leaves the
flag at 1, the constructor raises "GPU worker thread is not reachable." at the
first poll whose elapsed time exceeds 7 seconds (7000000 microseconds), the
flag still being 1; through the polls before it, all with an elapsed time of at
most 7 seconds, it raises nothing and is still polling. -/
theorem acquire_hard_timeout (isTimeoutInit : Bool) (w : EngineWorker) (start : Int)
    (before : List Poll) (p : Poll) (after : List Poll)
    (hw : w.errorMessage = none)
    (hquiet : ∀ q ∈ before ++ [p], q.workerGrants = false)
    (hbefore : ∀ q ∈ before, q.now - start ≤ 7000000)
    (hp : p.now - start > 7000000) :
    EngineWorkerGuard.construct isTimeoutInit none ⟨start, before ++ p :: after⟩ w
        = .threw "GPU worker thread is not reachable." { w with accessState := 1 } ∧
      EngineWorkerGuard.construct isTimeoutInit none ⟨start, before⟩ w
        = .spinning { w with accessState := 1 } := by
  have hskip : ∀ rest : List Poll,
      EngineWorkerGuard.pollLoop none start isTimeoutInit (before ++ rest) { w with accessState := 1 }
        = EngineWorkerGuard.pollLoop none start isTimeoutInit rest { w with accessState := 1 } :=
    fun rest => EngineWorkerGuard.pollLoop_skip none start isTimeoutInit rest _ rfl before
      (fun q hq => ⟨hquiet q (List.mem_append_left _ hq),
        EngineWorkerGuard.poll_hard_again start q.now (hbefore q hq)⟩)
  have hpq : p.workerGrants = false := hquiet p (List.mem_append_right _ (List.mem_singleton_self p))
  constructor
  · rw [EngineWorkerGuard.construct_of_clear _ _ _ _ hw]
    show EngineWorkerGuard.pollLoop none start isTimeoutInit (before ++ p :: after) _ = _
    rw [hskip (p :: after), EngineWorkerGuard.pollLoop_cons]
    simp only [hpq, Bool.false_eq_true, if_false, EngineWorkerGuard.poll_hard_raise start p.now hp]
    rfl
  · rw [EngineWorkerGuard.construct_of_clear _ _ _ _ hw]
    show EngineWorkerGuard.pollLoop none start isTimeoutInit before _ = _
    have h := hskip []
    rw [List.append_nil] at h
    rw [h]
    rfl

/-- Polls at 3 s and at exactly 7 s raise nothing; the poll at 7 s and one
microsecond raises. -/
theorem acquire_hard_timeout_witness :
    EngineWorkerGuard.construct false none ⟨0, [⟨false, 3000000⟩, ⟨false, 7000000⟩] ++
        [⟨false, 7000001⟩]⟩ {}
        = .threw "GPU worker thread is not reachable." { accessState := 1 } ∧
      EngineWorkerGuard.construct false none ⟨0, [⟨false, 3000000⟩, ⟨false, 7000000⟩]⟩ {}
        = .spinning { accessState := 1 } :=
  acquire_hard_timeout false {} 0 [⟨false, 3000000⟩, ⟨false, 7000000⟩] ⟨false, 7000001⟩ [] rfl
    (by decide) (by decide) (by decide)

/-- C5 as stated fails for a `maxDuration` whose count of microseconds does not
fit 64 bits: with `d` = 2^62 milliseconds the product `d * 1000` wraps to 0, and
the constructor returns at the first poll, one microsecond after its start,
although the elapsed time does not exceed `d`. -/
theorem acquire_advisory_expires_before_duration :
    EngineWorkerGuard.construct false (some 4611686018427387904) ⟨0, [⟨false, 1⟩]⟩ {}
        = .returned ⟨false⟩ { accessState := 1 } ∧
      EngineWorkerGuard.microseconds 4611686018427387904 = 0 ∧
      ¬ ((1 : Int) - 0 > 4611686018427387904 * 1000) := by
  refine ⟨?_, ?_, ?_⟩
  · rfl
  · decide
  · decide

/-- C5, amended: with no fault recorded and a `maxDuration` of `d` milliseconds
the constructor never raises, for every `d`, whatever the worker does and
whatever the clock reads. If the worker does not grant, it returns at the first
poll whose elapsed time exceeds `d` converted to the 64-bit count of
microseconds, the flag still being 1; that count is `d * 1000`, so the poll is
the first whose elapsed time exceeds `d` milliseconds, for every `d` whose
count of microseconds fits 64 bits, those of 7 seconds and more included. -/
theorem acquire_advisory_never_raises (isTimeoutInit : Bool) (w : EngineWorker) (d : Int)
    (hw : w.errorMessage = none) :
    (∀ (clock : GateClock) (m : String) (w1 : EngineWorker),
        EngineWorkerGuard.construct isTimeoutInit (some d) clock w ≠ .threw m w1) ∧
      (∀ (start : Int) (before : List Poll) (p : Poll) (after : List Poll),
        (∀ q ∈ before ++ [p], q.workerGrants = false) →
        (∀ q ∈ before, q.now - start ≤ EngineWorkerGuard.microseconds d) →
        p.now - start > EngineWorkerGuard.microseconds d →
        EngineWorkerGuard.construct isTimeoutInit (some d) ⟨start, before ++ p :: after⟩ w
          = .returned ⟨isTimeoutInit⟩ { w with accessState := 1 }) ∧
      (-9223372036854775808 ≤ d * 1000 → d * 1000 < 9223372036854775808 →
        EngineWorkerGuard.microseconds d = d * 1000 ∧
          ∀ (start : Int) (before : List Poll) (p : Poll) (after : List Poll),
            (∀ q ∈ before ++ [p], q.workerGrants = false) →
            (∀ q ∈ before, q.now - start ≤ d * 1000) →
            p.now - start > d * 1000 →
            EngineWorkerGuard.construct isTimeoutInit (some d) ⟨start, before ++ p :: after⟩ w
              = .returned ⟨isTimeoutInit⟩ { w with accessState := 1 }) := by
  have hgen : ∀ (start : Int) (before : List Poll) (p : Poll) (after : List Poll),
      (∀ q ∈ before ++ [p], q.workerGrants = false) →
      (∀ q ∈ before, q.now - start ≤ EngineWorkerGuard.microseconds d) →
      p.now - start > EngineWorkerGuard.microseconds d →
      EngineWorkerGuard.construct isTimeoutInit (some d) ⟨start, before ++ p :: after⟩ w
        = .returned ⟨isTimeoutInit⟩ { w with accessState := 1 } := ?_
  refine ⟨?_, hgen, fun hlow hhigh => ?_⟩
  · intro clock m w1
    rw [EngineWorkerGuard.construct_of_clear _ _ _ _ hw]
    exact EngineWorkerGuard.pollLoop_advisory_ne_threw d clock.startTimepoint isTimeoutInit m w1 _ _
  · have hm := EngineWorkerGuard.microseconds_of_range d hlow hhigh
    refine ⟨hm, fun start before p after hquiet hbefore hp => ?_⟩
    exact hgen start before p after hquiet (fun q hq => by rw [hm]; exact hbefore q hq)
      (by rw [hm]; exact hp)
  · intro start before p after hquiet hbefore hp
    rw [EngineWorkerGuard.construct_of_clear _ _ _ _ hw]
    show EngineWorkerGuard.pollLoop (some d) start isTimeoutInit (before ++ p :: after) _ = _
    rw [EngineWorkerGuard.pollLoop_skip (some d) start isTimeoutInit (p :: after) _ rfl before
      (fun q hq => ⟨hquiet q (List.mem_append_left _ hq),
        EngineWorkerGuard.poll_advisory_again d start q.now (hbefore q hq)⟩)]
    have hpq : p.workerGrants = false :=
      hquiet p (List.mem_append_right _ (List.mem_singleton_self p))
    rw [EngineWorkerGuard.pollLoop_cons]
    simp only [hpq, Bool.false_eq_true, if_false,
      EngineWorkerGuard.poll_advisory_leave d start p.now hp]

/-- A `maxDuration` of 8000 ms: the poll at 8 s and one microsecond returns,
where the constructor without `maxDuration` would have raised. -/
theorem acquire_advisory_never_raises_witness :
    ({} : EngineWorker).errorMessage = none ∧
      EngineWorkerGuard.construct false (some 8000) ⟨0, [⟨false, 7500000⟩] ++
          ⟨false, 8000001⟩ :: []⟩ {}
        = .returned ⟨false⟩ { accessState := 1 } :=
  ⟨rfl, ((acquire_advisory_never_raises false {} 8000 rfl).2.2 (by decide) (by decide)).2 0
    [⟨false, 7500000⟩] ⟨false, 8000001⟩ [] (by decide) (by decide) (by decide)⟩

/-- C6 at its failing input: a guard with a `maxDuration` of 500 ms whose wait
ends at 500.001 ms with the flag still 1 reports `isTimeout() = false`; and
whatever the initial value of `_isTimeout`, the guard reports the same value
after an expired wait (flag 1) as after a granted one (flag 2). -/
theorem isTimeout_after_expired_wait :
    EngineWorkerGuard.construct false (some 500) ⟨0, [⟨false, 500001⟩]⟩ {}
        = .returned ⟨false⟩ { accessState := 1 } ∧
      EngineWorkerGuard.isTimeout ⟨false⟩ = false ∧
      ∀ init : Bool,
        EngineWorkerGuard.construct init (some 500) ⟨0, [⟨false, 500001⟩]⟩ {}
            = .returned ⟨init⟩ { accessState := 1 } ∧
          EngineWorkerGuard.construct init (some 500) ⟨0, [⟨true, 10⟩]⟩ {}
            = .returned ⟨init⟩ { accessState := 2 } :=
  ⟨rfl, rfl, fun _ => ⟨rfl, rfl⟩⟩

/-- C7 at its failing input: the worker does not grant within the 500 ms frame
timeout (the flag is still 1 when the wait ends), and
`tryDrawVectorGraphicsAndReturnOverlay` returns an overlay after calling
`drawVectorGraphics`, `getArraySizes` and `getOverlayData` at flag 1, and
`tryDrawVectorGraphics` calls `drawVectorGraphics` at flag 1. -/
theorem tryDraw_after_expired_wait :
    EngineWorker.tryDrawVectorGraphicsAndReturnOverlay EngineBehaviour.quiet false
        ⟨0, [⟨false, 500001⟩]⟩ SyncClock.still { cudaSimulation := some ⟨0⟩ }
        = .returned (some ⟨2⟩)
            { cudaSimulation := some ⟨0⟩,
              engineLog := [⟨.caller, .drawVectorGraphics, 1⟩, ⟨.caller, .getArraySizes, 1⟩,
                ⟨.caller, .getOverlayData, 1⟩] } ∧
      EngineWorker.tryDrawVectorGraphics EngineBehaviour.quiet false
        ⟨0, [⟨false, 500001⟩]⟩ SyncClock.still { cudaSimulation := some ⟨0⟩ }
        = .returned ()
            { cudaSimulation := some ⟨0⟩, engineLog := [⟨.caller, .drawVectorGraphics, 1⟩] } :=
  ⟨rfl, rfl⟩

/-- C8: when the constructor of the guard has returned, each of `clear`,
`calcTimesteps` and `removeSelection` comes to an end, by return or by error,
with `_accessState` equal to 0, whatever the engine does (return or raise), and
so does every body run under a guard unless it is itself caught in a polling
loop; the destructor stores 0 whatever the flag was, and running it twice is
the same as running it once. -/
theorem gated_operations_exit_idle (eng : EngineBehaviour) (isTimeoutInit : Bool)
    (clock : GateClock) (statisticsNow : Int) (timesteps : Nat) (w w1 : EngineWorker)
    (g : EngineWorkerGuard)
    (hc : EngineWorkerGuard.construct isTimeoutInit none clock w = .returned g w1) :
    (EngineWorker.clear eng isTimeoutInit clock w).ExitsIdle ∧
      (EngineWorker.calcTimesteps eng isTimeoutInit clock statisticsNow timesteps w).ExitsIdle ∧
      (EngineWorker.removeSelection eng isTimeoutInit clock statisticsNow w).ExitsIdle ∧
      (∀ (α : Type) (body : EngineWorkerGuard → EngineWorker → Outcome α),
        (∀ w2, body g w1 ≠ .spinning w2) →
        (EngineWorker.withGuard isTimeoutInit none clock body w).ExitsIdle) ∧
      (∀ v : EngineWorker, (EngineWorkerGuard.destruct v).accessState = 0 ∧
        EngineWorkerGuard.destruct (EngineWorkerGuard.destruct v) = EngineWorkerGuard.destruct v) := by
  refine ⟨?_, ?_, ?_, fun α body hb =>
    EngineWorker.withGuard_exitsIdle isTimeoutInit none clock body w w1 g hc hb, fun v => ⟨rfl, rfl⟩⟩
  · exact EngineWorker.withGuard_exitsIdle isTimeoutInit none clock _ w w1 g hc
      (fun w2 => Outcome.ofCall_ne_spinning _ w2)
  · refine EngineWorker.withGuard_exitsIdle isTimeoutInit none clock _ w w1 g hc (fun w2 => ?_)
    beta_reduce
    rcases EngineWorker.calcTimestepLoop eng timesteps w1 with ⟨w3, _ | m⟩ <;> simp only []
    · exact Outcome.ofCall_ne_spinning _ w2
    · intro h; cases h
  · refine EngineWorker.withGuard_exitsIdle isTimeoutInit none clock _ w w1 g hc (fun w2 => ?_)
    beta_reduce
    rcases w1.callEngine eng .caller .removeSelection with ⟨w3, _ | m⟩ <;> simp only []
    · exact Outcome.ofCall_ne_spinning _ w2
    · intro h; cases h

/-- A granted guard around `calcTimesteps(2)` whose second engine call raises:
the operation ends with the flag at 0. -/
theorem gated_operations_exit_idle_witness :
    EngineWorkerGuard.construct false none ⟨0, [⟨true, 5⟩]⟩ { cudaSimulation := some ⟨0⟩ }
        = .returned ⟨false⟩ { accessState := 2, cudaSimulation := some ⟨0⟩ } ∧
      (EngineWorker.calcTimesteps
        { raises := fun k _ => if k = 1 then some "boom" else none, statistics := fun k => ⟨k⟩ }
        false ⟨0, [⟨true, 5⟩]⟩ 0 2 { cudaSimulation := some ⟨0⟩ }).ExitsIdle :=
  ⟨rfl, (gated_operations_exit_idle
    { raises := fun k _ => if k = 1 then some "boom" else none, statistics := fun k => ⟨k⟩ }
    false ⟨0, [⟨true, 5⟩]⟩ 0 2 { cudaSimulation := some ⟨0⟩ }
    { accessState := 2, cudaSimulation := some ⟨0⟩ } ⟨false⟩ rfl).2.1⟩

/-- C9: for every sequence of `setGpuSettings_async` and `applyForce_async`
calls made after a drain that returned, the next drain that returns makes
exactly these engine calls, in this order: `setGpuConstants` once with the last
submitted settings if any settings were submitted (and not otherwise), then
`applyForce` once per submitted force, with the submitted values, in the order
of submission. -/
theorem drain_applies_last_settings_and_every_force (eng : EngineBehaviour)
    (w0 w1 w3 : EngineWorker) (subs : List Submission)
    (hfirst : w0.processJobs eng = (w1, none))
    (hnext : (subs.foldl Submission.submit w1).processJobs eng = (w3, none)) :
    callsOf w3.engineLog
      = callsOf w1.engineLog ++
          ((match Submission.lastSettings subs with
            | some s => [EngineCall.setGpuConstants s]
            | none => []) ++ (Submission.forces subs).map EngineCall.applyForce) := by
  have h1 := EngineWorker.processJobs_returns eng w0 w1 hfirst
  have h3 := EngineWorker.processJobs_returns eng _ w3 hnext
  have hs := Submission.foldl_submit subs w1
  rw [h3.1, hs.2.2, hs.1, hs.2.1, h1.2.2, h1.2.1]
  cases Submission.lastSettings subs <;> simp [drainCalls]

/-- Two settings and three forces submitted between two drains: the second
drain calls `setGpuConstants` with the second settings only, then `applyForce`
three times in the order of submission. -/
theorem drain_applies_last_settings_and_every_force_witness :
    callsOf ({ engineLog :=
        [⟨.worker, .setGpuConstants ⟨2⟩, 0⟩,
          ⟨.worker, .applyForce ⟨(1, 1), (2, 2), (3, 3), 4, false⟩, 0⟩,
          ⟨.worker, .applyForce ⟨(5, 5), (6, 6), (7, 7), 8, false⟩, 0⟩,
          ⟨.worker, .applyForce ⟨(9, 9), (9, 9), (9, 9), 9, false⟩, 0⟩] } : EngineWorker).engineLog
      = callsOf ({} : EngineWorker).engineLog ++
          ((match Submission.lastSettings
              [.settings ⟨1⟩, .force ⟨1, 1⟩ ⟨2, 2⟩ ⟨3, 3⟩ 4, .force ⟨5, 5⟩ ⟨6, 6⟩ ⟨7, 7⟩ 8,
                .settings ⟨2⟩, .force ⟨9, 9⟩ ⟨9, 9⟩ ⟨9, 9⟩ 9] with
            | some s => [EngineCall.setGpuConstants s]
            | none => []) ++
            (Submission.forces
              [.settings ⟨1⟩, .force ⟨1, 1⟩ ⟨2, 2⟩ ⟨3, 3⟩ 4, .force ⟨5, 5⟩ ⟨6, 6⟩ ⟨7, 7⟩ 8,
                .settings ⟨2⟩, .force ⟨9, 9⟩ ⟨9, 9⟩ ⟨9, 9⟩ 9]).map EngineCall.applyForce) :=
  drain_applies_last_settings_and_every_force EngineBehaviour.quiet {} {} _
    [.settings ⟨1⟩, .force ⟨1, 1⟩ ⟨2, 2⟩ ⟨3, 3⟩ 4, .force ⟨5, 5⟩ ⟨6, 6⟩ ⟨7, 7⟩ 8,
      .settings ⟨2⟩, .force ⟨9, 9⟩ ⟨9, 9⟩ ⟨9, 9⟩ 9] rfl rfl

/-- C10: a drain that returns has called `setGpuConstants` for the pending
settings (if any) before `applyForce` for the queued forces, in queue order,
and leaves the settings slot and the force list empty; a second drain right
after it returns the worker object unchanged, so it makes no engine call. -/
theorem drain_settings_first_then_empty (eng : EngineBehaviour) (w w1 : EngineWorker)
    (h : w.processJobs eng = (w1, none)) :
    callsOf w1.engineLog
        = callsOf w.engineLog ++
          ((match w.updateGpuSettingsJob with
            | some s => [EngineCall.setGpuConstants s]
            | none => []) ++
            (w.applyForceJobs.map EngineWorker.forceData).map EngineCall.applyForce) ∧
      w1.updateGpuSettingsJob = none ∧ w1.applyForceJobs = [] ∧
      w1.processJobs eng = (w1, none) := by
  have hr := EngineWorker.processJobs_returns eng w w1 h
  exact ⟨hr.1, hr.2.1, hr.2.2, EngineWorker.processJobs_of_empty eng w1 hr.2.1 hr.2.2⟩

/-- A drain of one pending settings update and two queued forces. -/
theorem drain_settings_first_then_empty_witness :
    (EngineWorker.processJobs EngineBehaviour.quiet
        { updateGpuSettingsJob := some ⟨7⟩,
          applyForceJobs := [⟨⟨1, 1⟩, ⟨2, 2⟩, ⟨3, 3⟩, 4⟩, ⟨⟨5, 5⟩, ⟨6, 6⟩, ⟨7, 7⟩, 8⟩] }).2 = none ∧
      callsOf (EngineWorker.processJobs EngineBehaviour.quiet
        { updateGpuSettingsJob := some ⟨7⟩,
          applyForceJobs := [⟨⟨1, 1⟩, ⟨2, 2⟩, ⟨3, 3⟩, 4⟩, ⟨⟨5, 5⟩, ⟨6, 6⟩, ⟨7, 7⟩, 8⟩] }).1.engineLog
        = [.setGpuConstants ⟨7⟩, .applyForce ⟨(1, 1), (2, 2), (3, 3), 4, false⟩,
            .applyForce ⟨(5, 5), (6, 6), (7, 7), 8, false⟩] :=
  ⟨rfl, (drain_settings_first_then_empty EngineBehaviour.quiet
    { updateGpuSettingsJob := some ⟨7⟩,
      applyForceJobs := [⟨⟨1, 1⟩, ⟨2, 2⟩, ⟨3, 3⟩, 4⟩, ⟨⟨5, 5⟩, ⟨6, 6⟩, ⟨7, 7⟩, 8⟩] } _ rfl).1⟩

/-- C12: whenever `measureTPS` is called while the simulation is not running,
the rate read by `getTps` becomes 0 and the step counter and the last-sample
timestamp stay as they were. -/
theorem measureTPS_not_running (w : EngineWorker) (now : Int)
    (hrun : w.isSimulationRunning = false) :
    (w.measureTPS now).getTps = 0 ∧
      (w.measureTPS now).timestepsSinceMeasurement = w.timestepsSinceMeasurement ∧
      (w.measureTPS now).measureTimepoint = w.measureTimepoint := by
  unfold EngineWorker.measureTPS
  rw [if_neg (by rw [hrun]; decide)]
  exact ⟨rfl, rfl, rfl⟩

/-- A paused worker with a rate of 200, 17 steps counted and a sample at 5. -/
theorem measureTPS_not_running_witness :
    (({ tps := 200, timestepsSinceMeasurement := 17, measureTimepoint := some 5 } :
        EngineWorker).measureTPS 900000).getTps = 0 ∧
      (({ tps := 200, timestepsSinceMeasurement := 17, measureTimepoint := some 5 } :
        EngineWorker).measureTPS 900000).timestepsSinceMeasurement = 17 ∧
      (({ tps := 200, timestepsSinceMeasurement := 17, measureTimepoint := some 5 } :
        EngineWorker).measureTPS 900000).measureTimepoint = some 5 :=
  measureTPS_not_running { tps := 200, timestepsSinceMeasurement := 17, measureTimepoint := some 5 }
    900000 rfl

namespace EngineWorker

theorem waitAndAllowAccess_returns (duration start : Int) :
    ∀ (polls : List WaitPoll) (w : EngineWorker),
      (∃ p ∈ polls, duration ≤ p.now - start) →
      ∃ w1, waitAndAllowAccess duration start polls w = some w1 := by
  intro polls
  induction polls with
  | nil => intro w h; rcases h with ⟨p, hp, _⟩; cases hp
  | cons q qs ih =>
    intro w h
    unfold waitAndAllowAccess
    by_cases hq : q.now - start < duration
    · rw [if_pos hq]
      apply ih
      rcases h with ⟨p, hp, hd⟩
      rcases List.mem_cons.mp hp with h1 | h1
      · subst h1; omega
      · exact ⟨p, h1, hd⟩
    · rw [if_neg hq]
      exact ⟨w, rfl⟩

theorem waitAndAllowAccess_waiting (duration start : Int) :
    ∀ (polls : List WaitPoll) (w : EngineWorker),
      (∀ p ∈ polls, p.now - start < duration) →
      waitAndAllowAccess duration start polls w = none := by
  intro polls
  induction polls with
  | nil => intro w _; rfl
  | cons q qs ih =>
    intro w h
    unfold waitAndAllowAccess
    rw [if_pos (h q (List.mem_cons_self q qs))]
    exact ih _ (fun p hp => h p (List.mem_cons_of_mem q hp))

theorem desiredDuration_pos (r : Int) (hr : 0 < r) : desiredDuration r = 1000000 / r := by
  unfold desiredDuration
  exact Int.tdiv_eq_ediv (by decide) (le_of_lt hr)

theorem slowdownTPS_throttled (clock : SlowdownClock) (w : EngineWorker) (previous : Int)
    (hprev : w.slowDownTimepoint = some previous) (hrun : w.isSimulationRunning = true)
    (hr : 0 < w.tpsRestriction) :
    slowdownTPS clock w =
      ((if desiredDuration w.tpsRestriction > timestepDuration clock.entry previous w then
          waitAndAllowAccess
            (desiredDuration w.tpsRestriction - timestepDuration clock.entry previous w)
            clock.waitStart clock.waitPolls w
        else some w).map
        (fun w1 => { w1 with
          slowDownOvershot := some (overshot (timestepDuration clock.entry previous w)
            (desiredDuration w.tpsRestriction)) })).map
        (fun w1 => { w1 with slowDownTimepoint := some clock.exit }) := by
  unfold slowdownTPS
  rw [hprev]
  simp only [hrun, Bool.true_and, gt_iff_lt, hr, decide_True, if_true]

theorem slowdownTPS_unthrottled (clock : SlowdownClock) (w : EngineWorker)
    (h : w.tpsRestriction ≤ 0 ∨ w.isSimulationRunning = false ∨ w.slowDownTimepoint = none) :
    slowdownTPS clock w = some { w with slowDownTimepoint := some clock.exit } := by
  unfold slowdownTPS
  cases hp : w.slowDownTimepoint with
  | none => rfl
  | some previous =>
    have hc : (w.isSimulationRunning && decide (w.tpsRestriction > 0)) = false := by
      rcases h with h | h | h
      · simp only [Bool.and_eq_false_imp, decide_eq_false_iff_not, gt_iff_lt]
        intro _; omega
      · rw [h]; rfl
      · rw [h] at hp; cases hp
    simp only [hc, Bool.false_eq_true, if_false, Option.map_some']

theorem slowdownTPS_stamps (clock : SlowdownClock) (w w1 : EngineWorker)
    (h : slowdownTPS clock w = some w1) : w1.slowDownTimepoint = some clock.exit := by
  unfold slowdownTPS at h
  simp only [Option.map_eq_some'] at h
  rcases h with ⟨w0, _, h2⟩
  rw [← h2]

theorem timestepDuration_eq (now previous : Int) (w : EngineWorker) (carried : Option Int)
    (h : w.slowDownOvershot = carried) :
    timestepDuration now previous w = (now - previous) + carried.getD 0 := by
  unfold timestepDuration
  rw [h]
  cases carried <;> rfl

theorem slowdownTPS_returns (clock : SlowdownClock) (w : EngineWorker) :
    ∃ D : Int, ∀ polls : List WaitPoll, (∃ p ∈ polls, D ≤ p.now - clock.waitStart) →
      ∃ w1, slowdownTPS ⟨clock.entry, clock.waitStart, polls, clock.exit⟩ w = some w1 ∧
        w1.slowDownTimepoint = some clock.exit := by
  by_cases hthr : w.tpsRestriction ≤ 0 ∨ w.isSimulationRunning = false ∨ w.slowDownTimepoint = none
  · refine ⟨0, fun polls _ => ⟨_, slowdownTPS_unthrottled _ w hthr, rfl⟩⟩
  · have hr : 0 < w.tpsRestriction := by
      by_contra hc
      exact hthr (Or.inl (by omega))
    have hrun : w.isSimulationRunning = true := by
      cases hb : w.isSimulationRunning with
      | true => rfl
      | false => exact absurd (Or.inr (Or.inl hb)) hthr
    cases hp : w.slowDownTimepoint with
    | none => exact absurd (Or.inr (Or.inr hp)) hthr
    | some previous =>
      refine ⟨desiredDuration w.tpsRestriction - timestepDuration clock.entry previous w,
        fun polls hpolls => ?_⟩
      rw [slowdownTPS_throttled _ w previous hp hrun hr]
      by_cases hw : desiredDuration w.tpsRestriction > timestepDuration clock.entry previous w
      · rcases waitAndAllowAccess_returns _ clock.waitStart polls w hpolls with ⟨w0, h0⟩
        simp only [if_pos hw, h0, Option.map_some']
        exact ⟨_, rfl, rfl⟩
      · simp only [if_neg hw, Option.map_some']
        exact ⟨_, rfl, rfl⟩

end EngineWorker

/-- C13: in `slowdownTPS` with a previous timepoint, the simulation running and
a target rate `r > 0`, let `desired = 1000000 / r`, `e` the time since the
previous timepoint and `o` the carried overshoot. If `e + o < desired` the call
runs `waitAndAllowAccess` for `desired - (e + o)` microseconds: it is still
waiting while every reading is below that amount after the start of the wait,
and it has returned once a reading has reached it. Otherwise the call returns
without any reading of the wait. -/
theorem slowdownTPS_waits_for_the_difference (w : EngineWorker) (clock : SlowdownClock)
    (previous : Int) (carried : Option Int)
    (hprev : w.slowDownTimepoint = some previous) (hcarried : w.slowDownOvershot = carried)
    (hrun : w.isSimulationRunning = true) (hr : 0 < w.tpsRestriction) :
    ((clock.entry - previous) + carried.getD 0 < 1000000 / w.tpsRestriction →
        w.slowdownTPS clock
          = (EngineWorker.waitAndAllowAccess
              (1000000 / w.tpsRestriction - ((clock.entry - previous) + carried.getD 0))
              clock.waitStart clock.waitPolls w).map
              (fun w1 => { w1 with
                slowDownOvershot := some (EngineWorker.overshot
                  ((clock.entry - previous) + carried.getD 0) (1000000 / w.tpsRestriction)),
                slowDownTimepoint := some clock.exit }) ∧
          ((∀ p ∈ clock.waitPolls, p.now - clock.waitStart
              < 1000000 / w.tpsRestriction - ((clock.entry - previous) + carried.getD 0)) →
            w.slowdownTPS clock = none) ∧
          ((∃ p ∈ clock.waitPolls, 1000000 / w.tpsRestriction
              - ((clock.entry - previous) + carried.getD 0) ≤ p.now - clock.waitStart) →
            ∃ w1, w.slowdownTPS clock = some w1)) ∧
      (1000000 / w.tpsRestriction ≤ (clock.entry - previous) + carried.getD 0 →
        w.slowdownTPS clock
          = some { w with
              slowDownOvershot := some (EngineWorker.overshot
                ((clock.entry - previous) + carried.getD 0) (1000000 / w.tpsRestriction)),
              slowDownTimepoint := some clock.exit }) := by
  have heq := EngineWorker.slowdownTPS_throttled clock w previous hprev hrun hr
  rw [EngineWorker.timestepDuration_eq clock.entry previous w carried hcarried,
    EngineWorker.desiredDuration_pos _ hr] at heq
  constructor
  · intro hlt
    have hmain : w.slowdownTPS clock
        = (EngineWorker.waitAndAllowAccess
            (1000000 / w.tpsRestriction - ((clock.entry - previous) + carried.getD 0))
            clock.waitStart clock.waitPolls w).map
            (fun w1 => { w1 with
              slowDownOvershot := some (EngineWorker.overshot
                ((clock.entry - previous) + carried.getD 0) (1000000 / w.tpsRestriction)),
              slowDownTimepoint := some clock.exit }) := by
      rw [heq, if_pos (by omega), Option.map_map]
      rfl
    refine ⟨hmain, fun hall => ?_, fun hex => ?_⟩
    · rw [hmain, EngineWorker.waitAndAllowAccess_waiting _ _ _ w hall]
      rfl
    · rcases EngineWorker.waitAndAllowAccess_returns _ _ _ w hex with ⟨w0, h0⟩
      rw [hmain, h0]
      exact ⟨_, rfl⟩
  · intro hge
    rw [heq, if_neg (by omega)]
    rfl

/-- Target rate 10, 40000 microseconds elapsed, nothing carried: the wait is for
60000 microseconds; readings 10000 and 59999 after its start keep it waiting,
the reading 60000 after its start ends it. -/
theorem slowdownTPS_waits_for_the_difference_witness :
    (1000000 / (10 : Int) - ((40000 - 0) + (none : Option Int).getD 0) = 60000) ∧
      EngineWorker.slowdownTPS ⟨40000, 40000, [⟨50000, none⟩, ⟨99999, none⟩], 0⟩
        { slowDownTimepoint := some 0, isSimulationRunning := true, tpsRestriction := 10 } = none ∧
      ∃ w1, EngineWorker.slowdownTPS
        ⟨40000, 40000, [⟨50000, none⟩, ⟨99999, none⟩, ⟨100000, none⟩], 100001⟩
        { slowDownTimepoint := some 0, isSimulationRunning := true, tpsRestriction := 10 }
          = some w1 :=
  ⟨by decide,
    ((slowdownTPS_waits_for_the_difference
      { slowDownTimepoint := some 0, isSimulationRunning := true, tpsRestriction := 10 }
      ⟨40000, 40000, [⟨50000, none⟩, ⟨99999, none⟩], 0⟩ 0 none rfl rfl rfl (by decide)).1
      (by decide)).2.1 (by decide),
    ((slowdownTPS_waits_for_the_difference
      { slowDownTimepoint := some 0, isSimulationRunning := true, tpsRestriction := 10 }
      ⟨40000, 40000, [⟨50000, none⟩, ⟨99999, none⟩, ⟨100000, none⟩], 100001⟩ 0 none rfl rfl rfl
      (by decide)).1 (by decide)).2.2 ⟨⟨100000, none⟩, by decide, by decide⟩⟩

/-- C14, as the claim states it, fails: target rate 10 (desired 100000), 150000
microseconds elapsed since the previous call and 30000 carried. The overshoot
stored is 80000, while the clamp of elapsed minus desired is 50000. -/
theorem slowdownTPS_overshoot_counts_carried :
    (EngineWorker.slowdownTPS ⟨150000, 150000, [], 150001⟩
        { slowDownTimepoint := some 0, slowDownOvershot := some 30000,
          isSimulationRunning := true, tpsRestriction := 10 }).map
        (fun w1 => w1.slowDownOvershot) = some (some 80000) ∧
      min (max ((150000 : Int) - 0 - 1000000 / 10) 0) (1000000 / 10) = 50000 ∧
      (EngineWorker.slowdownTPS ⟨150000, 150000, [], 150001⟩
        { slowDownTimepoint := some 0, slowDownOvershot := some 30000,
          isSimulationRunning := true, tpsRestriction := 10 }).map
        (fun w1 => w1.slowDownOvershot)
        ≠ some (some (min (max ((150000 : Int) - 0 - 1000000 / 10) 0) (1000000 / 10))) := by
  decide

/-- C14, amended: after every throttled call of `slowdownTPS` that has returned
(previous timepoint present, simulation running, target rate `r > 0`) the
overshoot carried into the next call is the clamp to `[0, desired]` of
`(e + o) - desired`, where `e` is the time from the previous timepoint to the
entry of the call, `o` the overshoot carried into this call and
`desired = 1000000 / r`. -/
theorem slowdownTPS_overshoot_of_elapsed_plus_carried (w w1 : EngineWorker)
    (clock : SlowdownClock) (previous : Int) (carried : Option Int)
    (hprev : w.slowDownTimepoint = some previous) (hcarried : w.slowDownOvershot = carried)
    (hrun : w.isSimulationRunning = true) (hr : 0 < w.tpsRestriction)
    (hret : w.slowdownTPS clock = some w1) :
    w1.slowDownOvershot
      = some (min (max ((clock.entry - previous) + carried.getD 0 - 1000000 / w.tpsRestriction) 0)
          (1000000 / w.tpsRestriction)) := by
  rw [EngineWorker.slowdownTPS_throttled clock w previous hprev hrun hr,
    EngineWorker.timestepDuration_eq clock.entry previous w carried hcarried,
    EngineWorker.desiredDuration_pos _ hr] at hret
  simp only [Option.map_eq_some'] at hret
  rcases hret with ⟨w2, ⟨w3, _, h3⟩, h2⟩
  rw [← h2, ← h3]
  rfl

/-- The call of the counterexample: 150000 elapsed, 30000 carried, desired
100000 give an overshoot of 80000. -/
theorem slowdownTPS_overshoot_of_elapsed_plus_carried_witness :
    (EngineWorker.slowdownTPS ⟨150000, 150000, [], 150001⟩
        { slowDownTimepoint := some 0, slowDownOvershot := some 30000,
          isSimulationRunning := true, tpsRestriction := 10 }
      = some { slowDownTimepoint := some 150001, slowDownOvershot := some 80000,
               isSimulationRunning := true, tpsRestriction := 10 }) ∧
      (some (80000 : Int)
        = some (min (max ((150000 - 0) + (some (30000 : Int)).getD 0 - 1000000 / 10) 0)
            (1000000 / 10))) :=
  ⟨rfl, slowdownTPS_overshoot_of_elapsed_plus_carried
    { slowDownTimepoint := some 0, slowDownOvershot := some 30000,
      isSimulationRunning := true, tpsRestriction := 10 }
    { slowDownTimepoint := some 150001, slowDownOvershot := some 80000,
      isSimulationRunning := true, tpsRestriction := 10 }
    ⟨150000, 150000, [], 150001⟩ 0 (some 30000) rfl rfl rfl (by decide) rfl⟩

/-- C15: if the target rate is at most 0 or the simulation is not running,
`slowdownTPS` returns without any reading of the wait, with the carried
overshoot (and everything but the timepoint) unchanged; and in every case,
throttled or not, first call or not, a call that has returned has stored the
reading of its end as the new timepoint, and the call does return once the
clock of the wait has advanced far enough. `setTpsRestriction` stores the rate
that `slowdownTPS` loads. -/
theorem slowdownTPS_disabled_and_stamp (w : EngineWorker) (clock : SlowdownClock) :
    ((w.getTpsRestriction ≤ 0 ∨ w.isSimulationRunning = false) →
        w.slowdownTPS clock = some { w with slowDownTimepoint := some clock.exit }) ∧
      (∀ w1, w.slowdownTPS clock = some w1 → w1.slowDownTimepoint = some clock.exit) ∧
      (∃ D : Int, ∀ polls : List WaitPoll, (∃ p ∈ polls, D ≤ p.now - clock.waitStart) →
        ∃ w1, EngineWorker.slowdownTPS ⟨clock.entry, clock.waitStart, polls, clock.exit⟩ w
            = some w1 ∧ w1.slowDownTimepoint = some clock.exit) ∧
      (∀ value : Int, (w.setTpsRestriction value).getTpsRestriction = value ∧
        (w.setTpsRestriction value).tpsRestriction = value) := by
  refine ⟨fun h => ?_, fun w1 h => EngineWorker.slowdownTPS_stamps clock w w1 h,
    EngineWorker.slowdownTPS_returns clock w, fun _ => ⟨rfl, rfl⟩⟩
  apply EngineWorker.slowdownTPS_unthrottled
  rcases h with h | h
  · exact Or.inl h
  · exact Or.inr (Or.inl h)

/-- A running worker with target rate 0 and an overshoot of 7 carried: the call
returns with no reading of the wait supplied and only the timepoint changed. -/
theorem slowdownTPS_disabled_and_stamp_witness :
    EngineWorker.slowdownTPS ⟨500, 500, [], 501⟩
        { slowDownTimepoint := some 0, slowDownOvershot := some 7, isSimulationRunning := true,
          tpsRestriction := 0 }
      = some { slowDownTimepoint := some 501, slowDownOvershot := some 7,
               isSimulationRunning := true, tpsRestriction := 0 } :=
  (slowdownTPS_disabled_and_stamp
    { slowDownTimepoint := some 0, slowDownOvershot := some 7, isSimulationRunning := true,
      tpsRestriction := 0 }
    ⟨500, 500, [], 501⟩).1 (Or.inl (by decide))

namespace System

theorem workerStep_exited (eng : EngineBehaviour) (now : Int) (s : System)
    (h : s.workerPc = .exited) : s.workerStep eng now = s := by
  rcases s with ⟨w, pc, cpc⟩
  cases h
  rfl

theorem callerStep_workerPc (eng : EngineBehaviour) (a : CallerAction) (now : Int) (s : System) :
    (s.callerStep eng a now).workerPc = s.workerPc := by
  rcases s with ⟨w, pc, cpc⟩
  cases cpc with
  | requesting md => rfl
  | polling md st =>
    simp only [callerStep]
    split <;> rfl
  | idle =>
    simp only [callerStep]
    split
    · split <;> rfl
    · split <;> rfl
  | holding =>
    simp only [callerStep]
    split
    · rfl
    · split <;> rfl
    · rfl
    · split <;> rfl

theorem run_exited (eng : EngineBehaviour) (steps : List Step) :
    ∀ s : System, s.workerPc = .exited → (s.run eng steps).workerPc = .exited := by
  induction steps with
  | nil => intro s h; exact h
  | cons st rest ih =>
    intro s h
    refine ih (s.step eng st) ?_
    cases st with
    | worker now =>
      show (s.workerStep eng now).workerPc = .exited
      rw [workerStep_exited eng now s h]
      exact h
    | caller a now =>
      show (s.callerStep eng a now).workerPc = .exited
      rw [callerStep_workerPc]
      exact h

end System

/-- C16: if the shutdown flag is set when the worker evaluates the loop condition,
the loop is left at once with the worker object untouched, it stays left
through every continuation of the interleaving, and a worker thread that has
left the loop does nothing in any state: no step, no measurement or throttle,
no drain, no grant. `beginShutdown` changes the flag and nothing else. -/
theorem shutdown_observed_at_loop_head (eng : EngineBehaviour) (s : System) (now : Int)
    (hpc : s.workerPc = .loopHead) (hflag : s.worker.isShutdown = true) :
    s.workerStep eng now = { s with workerPc := .exited } ∧
      (∀ steps : List Step, ((s.workerStep eng now).run eng steps).workerPc = .exited) ∧
      (∀ (t : System) (later : Int), t.workerPc = .exited → t.workerStep eng later = t) ∧
      (∀ w : EngineWorker, w.beginShutdown = { w with isShutdown := true }) := by
  have hstep : s.workerStep eng now = { s with workerPc := .exited } := by
    rcases s with ⟨w, pc, cpc⟩
    cases hpc
    have hf : w.isShutdown = true := hflag
    simp only [System.workerStep, hf, Bool.not_true, Bool.false_eq_true, if_false]
    rfl
  refine ⟨hstep, fun steps => ?_, fun t later ht => System.workerStep_exited eng later t ht,
    fun w => rfl⟩
  rw [hstep]
  exact System.run_exited eng steps _ rfl

/-- A running worker with a request pending and a settings job queued, shut
down before the loop condition: the one worker step leaves everything but the
position as it was, and seven more worker steps change nothing. -/
theorem shutdown_observed_at_loop_head_witness :
    ((System.start
          { isShutdown := true, isSimulationRunning := true, accessState := 1,
            updateGpuSettingsJob := some ⟨1⟩ }).workerStep EngineBehaviour.quiet 0
        = { worker :=
              { isShutdown := true, isSimulationRunning := true, accessState := 1,
                updateGpuSettingsJob := some ⟨1⟩ },
            workerPc := .exited, callerPc := .idle }) ∧
      (((System.start
          { isShutdown := true, isSimulationRunning := true, accessState := 1,
            updateGpuSettingsJob := some ⟨1⟩ }).workerStep EngineBehaviour.quiet 0).run
          EngineBehaviour.quiet
          [.worker 1, .worker 2, .worker 3, .worker 4, .worker 5, .worker 6, .worker 7]).workerPc
        = .exited :=
  ⟨(shutdown_observed_at_loop_head EngineBehaviour.quiet
      (System.start
        { isShutdown := true, isSimulationRunning := true, accessState := 1,
          updateGpuSettingsJob := some ⟨1⟩ }) 0 rfl rfl).1,
    (shutdown_observed_at_loop_head EngineBehaviour.quiet
      (System.start
        { isShutdown := true, isSimulationRunning := true, accessState := 1,
          updateGpuSettingsJob := some ⟨1⟩ }) 0 rfl rfl).2.1
      [.worker 1, .worker 2, .worker 3, .worker 4, .worker 5, .worker 6, .worker 7]⟩

namespace EngineWorker

theorem callEngine_raised (eng : EngineBehaviour) (c : EngineCall) (w w1 : EngineWorker)
    (m : String) (h : w.callEngine eng .worker c = (w1, some m)) : RaisedLast eng m w1 := by
  unfold callEngine at h
  cases hr : eng.raises w.engineLog.length c with
  | none => rw [hr] at h; simp at h
  | some m1 =>
    rw [hr] at h
    simp only [Prod.mk.injEq, Option.some.injEq] at h
    rcases h with ⟨h1, h2⟩
    subst h1 h2
    exact ⟨w.engineLog, c, w.accessState, rfl, hr⟩

theorem updateStatistics_raised (eng : EngineBehaviour) (b : Bool) (now : Int)
    (w w1 : EngineWorker) (m : String)
    (h : w.updateStatistics eng .worker b now = (w1, some m)) : RaisedLast eng m w1 := by
  unfold updateStatistics at h
  have hc := callEngine_raised eng .getStatistics w
  revert h hc
  generalize w.callEngine eng .worker .getStatistics = r
  rcases r with ⟨w2, _ | m2⟩ <;> intro h hc <;> simp only [] at h <;> split at h
  all_goals simp only [Prod.mk.injEq, Option.some.injEq, reduceCtorEq, and_false] at h
  rcases h with ⟨h1, h2⟩
  subst h1 h2
  exact hc w2 m2 rfl

theorem applyForceLoop_raised (eng : EngineBehaviour) (m : String) (w1 : EngineWorker) :
    ∀ (jobs : List ApplyForceJob) (w : EngineWorker),
      applyForceLoop eng jobs w = (w1, some m) → RaisedLast eng m w1 := by
  intro jobs
  induction jobs with
  | nil => intro w h; simp [applyForceLoop] at h
  | cons job rest ih =>
    intro w h
    unfold applyForceLoop at h
    have hc := callEngine_raised eng (.applyForce (forceData job)) w
    revert h hc
    generalize w.callEngine eng .worker (.applyForce (forceData job)) = r
    rcases r with ⟨w2, _ | m2⟩ <;> intro h hc <;> simp only [] at h
    · exact ih w2 h
    · simp only [Prod.mk.injEq, Option.some.injEq] at h
      rcases h with ⟨h1, h2⟩
      subst h1 h2
      exact hc w2 m2 rfl

theorem drainForces_raised (eng : EngineBehaviour) (w w1 : EngineWorker) (m : String)
    (h : (if w.applyForceJobs.isEmpty then (w, none)
        else
          match applyForceLoop eng w.applyForceJobs w with
          | (w2, some m) => (w2, some m)
          | (w2, none) => ({ w2 with applyForceJobs := [] }, none)) = (w1, some m)) :
    RaisedLast eng m w1 := by
  split at h
  · simp at h
  · have hl := applyForceLoop_raised eng m w1 w.applyForceJobs w
    revert h hl
    generalize applyForceLoop eng w.applyForceJobs w = r
    rcases r with ⟨w2, _ | m2⟩ <;> intro h hl <;> simp only [] at h
    · simp at h
    · exact hl h

theorem processJobs_raised (eng : EngineBehaviour) (w w1 : EngineWorker) (m : String)
    (h : w.processJobs eng = (w1, some m)) : RaisedLast eng m w1 := by
  unfold processJobs at h
  cases hs : w.updateGpuSettingsJob with
  | none =>
    rw [hs] at h
    exact drainForces_raised eng w w1 m h
  | some settings =>
    rw [hs] at h
    simp only [] at h
    have hc := callEngine_raised eng (.setGpuConstants settings) w
    revert h hc
    generalize w.callEngine eng .worker (.setGpuConstants settings) = r
    rcases r with ⟨w2, _ | m2⟩ <;> intro h hc <;> simp only [] at h
    · exact drainForces_raised eng { w2 with updateGpuSettingsJob := none } w1 m h
    · simp only [Prod.mk.injEq, Option.some.injEq] at h
      rcases h with ⟨h1, h2⟩
      subst h1 h2
      exact hc w2 m2 rfl

end EngineWorker

theorem System.workerStep_of_stepFault (eng : EngineBehaviour) (now : Int) (s : System)
    (m : String) (h : s.stepFault eng now = some m) :
    ∃ w1, s.workerStep eng now = s.fault m w1 ∧ RaisedLast eng m w1 := by
  rcases s with ⟨w, pc, cpc⟩
  cases pc <;> simp only [System.stepFault, reduceCtorEq] at h
  case calcStep =>
    simp only [System.workerStep]
    have hc := EngineWorker.callEngine_raised eng .calcTimestep w
    revert h hc
    generalize w.callEngine eng .worker .calcTimestep = r
    rcases r with ⟨w2, _ | m2⟩ <;> intro h hc <;> simp only [reduceCtorEq, Option.some.injEq] at h
    subst h
    exact ⟨w2, rfl, hc w2 m2 rfl⟩
  case refreshStatistics =>
    simp only [System.workerStep]
    have hc := EngineWorker.updateStatistics_raised eng true now w
    revert h hc
    generalize w.updateStatistics eng .worker true now = r
    rcases r with ⟨w2, _ | m2⟩ <;> intro h hc <;> simp only [reduceCtorEq, Option.some.injEq] at h
    subst h
    exact ⟨w2, rfl, hc w2 m2 rfl⟩
  case jobs =>
    simp only [System.workerStep]
    have hc := EngineWorker.processJobs_raised eng w
    revert h hc
    generalize w.processJobs eng = r
    rcases r with ⟨w2, _ | m2⟩ <;> intro h hc <;> simp only [reduceCtorEq, Option.some.injEq] at h
    subst h
    exact ⟨w2, rfl, hc w2 m2 rfl⟩

/-- C17: if the engine call of the worker's next step (the `calcTimestep`, the
`getStatistics` of the statistics refresh, or a call inside `processJobs`)
raises a standard exception with message `m`, then that step leaves the loop
(the exception is caught, `runThreadLoop` returns), the recorded message is
`m`, the last entry of the call log is the worker's call that raised `m`, and
the worker thread makes no further step in any continuation. A `calcTimestep`
that raises is such a step. -/
theorem loop_fault_recorded_and_loop_left (eng : EngineBehaviour) (s : System) (now : Int)
    (m : String) (h : s.stepFault eng now = some m) :
    (s.workerStep eng now).workerPc = .exited ∧
      (s.workerStep eng now).worker.errorMessage = some m ∧
      RaisedLast eng m (s.workerStep eng now).worker ∧
      (∀ steps : List Step, ((s.workerStep eng now).run eng steps).workerPc = .exited) ∧
      (∀ (t : System) (later : Int), t.workerPc = .exited → t.workerStep eng later = t) ∧
      (∀ t : System, t.workerPc = .calcStep →
        eng.raises t.worker.engineLog.length .calcTimestep = some m →
        t.stepFault eng now = some m) := by
  rcases System.workerStep_of_stepFault eng now s m h with ⟨w1, hstep, hraised⟩
  rw [hstep]
  refine ⟨rfl, rfl, hraised, fun steps => System.run_exited eng steps _ rfl,
    fun t later ht => System.workerStep_exited eng later t ht, fun t hpc hr => ?_⟩
  rcases t with ⟨w, pc, cpc⟩
  cases hpc
  simp only [System.stepFault, EngineWorker.callEngine]
  rw [show eng.raises w.engineLog.length EngineCall.calcTimestep = some m from hr]

/-- A running worker whose `calcTimestep` raises "boom": the step records
"boom" and leaves the loop. -/
theorem loop_fault_recorded_and_loop_left_witness :
    (((System.start { isSimulationRunning := true }).run (EngineBehaviour.failing "boom")
        [.worker 0, .worker 0, .worker 0, .worker 0]).workerStep
        (EngineBehaviour.failing "boom") 0).workerPc = .exited ∧
      (((System.start { isSimulationRunning := true }).run (EngineBehaviour.failing "boom")
        [.worker 0, .worker 0, .worker 0, .worker 0]).workerStep
        (EngineBehaviour.failing "boom") 0).worker.errorMessage = some "boom" :=
  ⟨(loop_fault_recorded_and_loop_left (EngineBehaviour.failing "boom")
      ((System.start { isSimulationRunning := true }).run (EngineBehaviour.failing "boom")
        [.worker 0, .worker 0, .worker 0, .worker 0]) 0 "boom" rfl).1,
    (loop_fault_recorded_and_loop_left (EngineBehaviour.failing "boom")
      ((System.start { isSimulationRunning := true }).run (EngineBehaviour.failing "boom")
        [.worker 0, .worker 0, .worker 0, .worker 0]) 0 "boom" rfl).2.1⟩

/-- C18, as the claim states it, fails: the loop is entered with the message
"first" recorded, its `calcTimestep` raises "second", and the recorded message
is "second" afterwards, not "first". -/
theorem catch_overwrites_recorded_message :
    (System.start { errorMessage := some "first", isSimulationRunning := true }).worker.errorMessage
        = some "first" ∧
      ((System.start { errorMessage := some "first", isSimulationRunning := true }).run
        (EngineBehaviour.failing "second")
        [.worker 0, .worker 0, .worker 0, .worker 0, .worker 0]).worker.errorMessage
        = some "second" ∧
      ((System.start { errorMessage := some "first", isSimulationRunning := true }).run
        (EngineBehaviour.failing "second")
        [.worker 0, .worker 0, .worker 0, .worker 0, .worker 0]).worker.errorMessage
        ≠ some "first" := by
  decide

/-- C18, amended: recording a fault replaces an existing record. Whatever is
recorded (nothing, or an earlier message `m1`) when an engine call of the loop
raises `m2`, the recorded message is `m2` after the `catch`. -/
theorem catch_records_latest_message (eng : EngineBehaviour) (s : System) (now : Int)
    (m2 : String) (hfault : s.stepFault eng now = some m2) :
    (s.workerStep eng now).worker.errorMessage = some m2 ∧
      (∀ m1 : String, s.worker.errorMessage = some m1 → m1 ≠ m2 →
        (s.workerStep eng now).worker.errorMessage ≠ s.worker.errorMessage) := by
  rcases System.workerStep_of_stepFault eng now s m2 hfault with ⟨w1, hstep, _⟩
  rw [hstep]
  refine ⟨rfl, fun m1 h1 hne hc => ?_⟩
  rw [h1] at hc
  exact hne (Option.some.inj hc).symm

/-- The run of the counterexample, at its last step. -/
theorem catch_records_latest_message_witness :
    (((System.start { errorMessage := some "first", isSimulationRunning := true }).run
        (EngineBehaviour.failing "second")
        [.worker 0, .worker 0, .worker 0, .worker 0]).workerStep
        (EngineBehaviour.failing "second") 0).worker.errorMessage = some "second" :=
  (catch_records_latest_message (EngineBehaviour.failing "second")
    ((System.start { errorMessage := some "first", isSimulationRunning := true }).run
      (EngineBehaviour.failing "second") [.worker 0, .worker 0, .worker 0, .worker 0])
    0 "second" rfl).1

/-- C19, as the claim states it, fails: the worker finishes an idle iteration,
the caller queues a settings update and a force and then acquires the gate,
the worker grants, and in its next iteration, with `_accessState` at 2 and the
caller holding the guard, the worker calls `setGpuConstants` and `applyForce`. -/
theorem worker_drains_jobs_while_granted :
    ((System.start {}).run EngineBehaviour.quiet
        [.worker 0, .worker 0, .worker 0, .worker 0, .worker 0, .worker 0, .worker 0, .worker 0,
          .caller (.setGpuSettings_async ⟨1⟩) 0,
          .caller (.applyForce_async ⟨1, 1⟩ ⟨2, 2⟩ ⟨3, 3⟩ 4) 0,
          .caller (.acquire none) 0, .caller .proceed 0,
          .worker 0, .worker 0, .caller .proceed 0,
          .worker 0, .worker 0, .worker 0, .worker 0]).worker.engineLog
        = [⟨.worker, .setGpuConstants ⟨1⟩, 2⟩,
            ⟨.worker, .applyForce ⟨(1, 1), (2, 2), (3, 3), 4, false⟩, 2⟩] ∧
      ((System.start {}).run EngineBehaviour.quiet
        [.worker 0, .worker 0, .worker 0, .worker 0, .worker 0, .worker 0, .worker 0, .worker 0,
          .caller (.setGpuSettings_async ⟨1⟩) 0,
          .caller (.applyForce_async ⟨1, 1⟩ ⟨2, 2⟩ ⟨3, 3⟩ 4) 0,
          .caller (.acquire none) 0, .caller .proceed 0,
          .worker 0, .worker 0, .caller .proceed 0,
          .worker 0, .worker 0, .worker 0, .worker 0]).callerPc = .holding := by
  decide

/-- C19, amended: a loop iteration whose test `_accessState == 0` finds the flag
at 1 or 2 goes straight to the job drain, skipping `calcTimestep`, the rate
measurement and the throttle; the drain runs whatever the flag is, and when it
returns the engine calls of the whole iteration are the `setGpuConstants` and
`applyForce` calls of the queued jobs, after which the loop is back at its
head (having granted if the flag was 1). -/
theorem busy_iteration_skips_step_and_drains (eng : EngineBehaviour) (s : System)
    (w1 : EngineWorker) (a b c d : Int)
    (hpc : s.workerPc = .checkAccess)
    (hst : s.worker.accessState = 1 ∨ s.worker.accessState = 2)
    (hdrain : s.worker.processJobs eng = (w1, none)) :
    s.workerStep eng a = { s with workerPc := .jobs } ∧
      callsOf w1.engineLog
        = callsOf s.worker.engineLog ++
            drainCalls s.worker.updateGpuSettingsJob
              (s.worker.applyForceJobs.map EngineWorker.forceData) ∧
      (s.worker.accessState = 1 →
        s.run eng [.worker a, .worker b, .worker c, .worker d]
          = { s with worker := { w1 with accessState := 2 }, workerPc := .loopHead }) ∧
      (s.worker.accessState = 2 →
        s.run eng [.worker a, .worker b, .worker c]
          = { s with worker := w1, workerPc := .loopHead }) := by
  rcases s with ⟨w, pc, cpc⟩
  cases hpc
  have hne : ¬ w.accessState = 0 := by
    rcases hst with h | h <;> (rw [show w.accessState = _ from h]; decide)
  have hacc : w1.accessState = w.accessState := by
    have hk := EngineWorker.processJobs_gateKept eng w
    rw [show w.processJobs eng = (w1, none) from hdrain] at hk
    exact hk.accessState
  have hd : w.processJobs eng = (w1, none) := hdrain
  have step1 : ∀ t : Int, System.workerStep eng t ⟨w, .checkAccess, cpc⟩ = ⟨w, .jobs, cpc⟩ := by
    intro t
    simp only [System.workerStep, hne, if_false, System.goto]
  have step2 : ∀ t : Int, System.workerStep eng t ⟨w, .jobs, cpc⟩ = ⟨w1, .grantCheck, cpc⟩ := by
    intro t
    simp only [System.workerStep, hd, System.goto]
  refine ⟨step1 a, (EngineWorker.processJobs_returns eng w w1 hd).1, fun h1 => ?_, fun h2 => ?_⟩
  · have h1w : w1.accessState = 1 := hacc.trans h1
    have step3 : System.workerStep eng c ⟨w1, .grantCheck, cpc⟩ = ⟨w1, .grantWrite, cpc⟩ := by
      simp only [System.workerStep, h1w, if_true, System.goto]
    show System.workerStep eng d (System.workerStep eng c (System.workerStep eng b
      (System.workerStep eng a ⟨w, .checkAccess, cpc⟩))) = _
    rw [step1, step2, step3]
    rfl
  · have h2w : w1.accessState = 2 := hacc.trans h2
    have step3 : System.workerStep eng c ⟨w1, .grantCheck, cpc⟩ = ⟨w1, .loopHead, cpc⟩ := by
      simp only [System.workerStep, h2w, System.goto]
      rfl
    show System.workerStep eng c (System.workerStep eng b
      (System.workerStep eng a ⟨w, .checkAccess, cpc⟩)) = _
    rw [step1, step2, step3]

/-- A granted iteration with a settings job queued: three worker steps lead
from the test of the flag back to the loop head, with `setGpuConstants` called
at flag 2. -/
theorem busy_iteration_skips_step_and_drains_witness :
    System.run EngineBehaviour.quiet
        ⟨{ accessState := 2, updateGpuSettingsJob := some ⟨1⟩ }, .checkAccess, .holding⟩
        [.worker 0, .worker 0, .worker 0]
      = { (⟨{ accessState := 2, updateGpuSettingsJob := some ⟨1⟩ }, .checkAccess, .holding⟩ :
            System) with
          worker := { accessState := 2, engineLog := [⟨.worker, .setGpuConstants ⟨1⟩, 2⟩] },
          workerPc := .loopHead } :=
  (busy_iteration_skips_step_and_drains EngineBehaviour.quiet
    ⟨{ accessState := 2, updateGpuSettingsJob := some ⟨1⟩ }, .checkAccess, .holding⟩
    { accessState := 2, engineLog := [⟨.worker, .setGpuConstants ⟨1⟩, 2⟩] } 0 0 0 0 rfl
    (Or.inr rfl) rfl).2.2.2 rfl

theorem CallsAt.unchanged (t : Thread) (w : EngineWorker) : CallsAt t w w :=
  ⟨rfl, [], by simp, by simp⟩

theorem CallsAt.followedBy {t : Thread} {w1 w2 w3 : EngineWorker} (h12 : CallsAt t w1 w2)
    (h23 : CallsAt t w2 w3) : CallsAt t w1 w3 := by
  rcases h12.log with ⟨l1, e1, p1⟩
  rcases h23.log with ⟨l2, e2, p2⟩
  refine ⟨h23.accessState.trans h12.accessState, l1 ++ l2, ?_, fun e he => ?_⟩
  · rw [e2, e1, List.append_assoc]
  · rcases List.mem_append.mp he with h | h
    · exact p1 e h
    · have := p2 e h
      rw [h12.accessState] at this
      exact this

namespace EngineWorker

theorem callEngine_callsAt (eng : EngineBehaviour) (t : Thread) (c : EngineCall)
    (w : EngineWorker) : CallsAt t w (w.callEngine eng t c).1 := by
  refine ⟨callEngine_accessState eng t c w, [⟨t, c, w.accessState⟩],
    callEngine_engineLog eng t c w, fun e he => ?_⟩
  rw [List.mem_singleton] at he
  subst he
  exact ⟨rfl, rfl⟩

theorem updateStatistics_callsAt (eng : EngineBehaviour) (t : Thread) (b : Bool) (now : Int)
    (w : EngineWorker) : CallsAt t w (w.updateStatistics eng t b now).1 := by
  unfold updateStatistics
  have h := callEngine_callsAt eng t .getStatistics w
  revert h
  generalize w.callEngine eng t .getStatistics = r
  rcases r with ⟨w1, _ | m⟩ <;> intro h <;> simp only [] <;> split
  all_goals first
    | exact CallsAt.unchanged t w
    | exact ⟨h.accessState, h.log⟩

theorem calcTimestepLoop_callsAt (eng : EngineBehaviour) (n : Nat) :
    ∀ w : EngineWorker, CallsAt .caller w (calcTimestepLoop eng n w).1 := by
  induction n with
  | zero => intro w; exact CallsAt.unchanged .caller w
  | succ k ih =>
    intro w
    unfold calcTimestepLoop
    have h := callEngine_callsAt eng .caller .calcTimestep w
    revert h
    generalize w.callEngine eng .caller .calcTimestep = r
    rcases r with ⟨w1, _ | m⟩ <;> intro h <;> simp only []
    · exact h.followedBy (ih w1)
    · exact h

end EngineWorker

theorem EngineWorker.grantAccess_engineLog (w : EngineWorker) :
    w.grantAccess.engineLog = w.engineLog := by
  unfold EngineWorker.grantAccess
  split <;> rfl

theorem EngineWorkerGuard.pollLoop_engineLog (maxDuration : Option Int) (start : Int)
    (init : Bool) :
    ∀ (polls : List Poll) (w : EngineWorker),
      (EngineWorkerGuard.pollLoop maxDuration start init polls w).worker.engineLog
        = w.engineLog := by
  intro polls
  induction polls with
  | nil => intro w; rfl
  | cons p rest ih =>
    intro w
    have hw : (if p.workerGrants then w.grantAccess else w).engineLog = w.engineLog := by
      split
      · exact EngineWorker.grantAccess_engineLog w
      · rfl
    rw [EngineWorkerGuard.pollLoop_cons]
    split
    · rw [ih]; exact hw
    · exact hw
    · exact hw

theorem EngineWorkerGuard.pollLoop_hard_granted (start : Int) (init : Bool)
    (g : EngineWorkerGuard) (w1 : EngineWorker) :
    ∀ (polls : List Poll) (w : EngineWorker), w.accessState = 1 →
      EngineWorkerGuard.pollLoop none start init polls w = .returned g w1 →
      w1.accessState = 2 := by
  intro polls
  induction polls with
  | nil => intro w _ h; cases h
  | cons p rest ih =>
    intro w hw h
    rw [EngineWorkerGuard.pollLoop_cons] at h
    cases hp : p.workerGrants with
    | true =>
      have hg : w.grantAccess.accessState = 2 := by
        unfold EngineWorker.grantAccess
        rw [if_pos hw]
      simp only [hp, if_true, EngineWorkerGuard.poll, hg] at h
      simp only [show ¬ ((2 : Int) = 1) by decide, if_false] at h
      cases h
      exact hg
    | false =>
      simp only [hp, Bool.false_eq_true, if_false] at h
      split at h
      · exact ih w hw h
      · rename_i hv
        simp only [EngineWorkerGuard.poll, hw, if_true] at hv
        split at hv <;> cases hv
      · cases h

theorem Outcome.ofCall_worker (r : EngineWorker × Option String) :
    (Outcome.ofCall r).worker = r.1 := by
  rcases r with ⟨w1, _ | m⟩ <;> rfl

theorem EngineWorker.withGuard_callsWhileGranted {α : Type} (isTimeoutInit : Bool)
    (clock : GateClock) (body : EngineWorkerGuard → EngineWorker → Outcome α) (w : EngineWorker)
    (hw : w.errorMessage = none)
    (hbody : ∀ g w1, CallsAt .caller w1 (body g w1).worker) :
    (EngineWorker.withGuard isTimeoutInit none clock body w).CallsWhileGranted w := by
  unfold EngineWorker.withGuard
  rw [EngineWorkerGuard.construct_of_clear _ _ _ _ hw]
  have hlog := EngineWorkerGuard.pollLoop_engineLog none clock.startTimepoint isTimeoutInit
    clock.polls { w with accessState := 1 }
  have hgr := fun g w1 => EngineWorkerGuard.pollLoop_hard_granted clock.startTimepoint
    isTimeoutInit g w1 clock.polls { w with accessState := 1 } rfl
  revert hlog hgr
  generalize EngineWorkerGuard.pollLoop none clock.startTimepoint isTimeoutInit clock.polls
    { w with accessState := 1 } = r
  intro hlog hgr
  cases r with
  | threw m w1 => exact ⟨[], by simpa using hlog, by simp⟩
  | spinning w1 => exact ⟨[], by simpa using hlog, by simp⟩
  | returned g w1 =>
    have h2 : w1.accessState = 2 := hgr g w1 rfl
    have hl : w1.engineLog = w.engineLog := hlog
    have hb := hbody g w1
    rcases hb.log with ⟨added, hadd, hall⟩
    have key : ∀ w2 : EngineWorker, w2.engineLog = (body g w1).worker.engineLog →
        ∃ added, w2.engineLog = w.engineLog ++ added ∧
          ∀ e ∈ added, e.thread = .caller ∧ e.accessState = 2 := by
      intro w2 h
      refine ⟨added, by rw [h, hadd, hl], fun e he => ?_⟩
      have := hall e he
      rw [h2] at this
      exact this
    simp only []
    cases hr : body g w1 with
    | returned v w2 => exact key _ (by rw [hr]; rfl)
    | threw m w2 => exact key _ (by rw [hr]; rfl)
    | spinning w2 => exact key _ (by rw [hr])

theorem EngineWorker.withGuard_of_recorded {α : Type} (isTimeoutInit : Bool)
    (maxDuration : Option Int) (clock : GateClock)
    (body : EngineWorkerGuard → EngineWorker → Outcome α) (w : EngineWorker)
    (h : w.errorMessage.isSome = true) :
    EngineWorker.withGuard isTimeoutInit maxDuration clock body w
      = .threw EngineWorkerGuard.invalidStateMessage w := by
  unfold EngineWorker.withGuard
  rw [EngineWorkerGuard.construct_of_recorded isTimeoutInit maxDuration clock w h]

/-- C20, as the claim states it, fails for `setSimulationParameters`: with a fault
recorded it does not raise, and it calls the engine with `_accessState` at 0,
which it neither sets to 1 nor waits on. -/
theorem setSimulationParameters_takes_no_guard :
    EngineWorker.setSimulationParameters EngineBehaviour.quiet
        { errorMessage := some "boom", cudaSimulation := some ⟨0⟩ }
      = .returned ()
          { errorMessage := some "boom", cudaSimulation := some ⟨0⟩,
            engineLog := [⟨.caller, .setSimulationParameters, 0⟩] } :=
  rfl

/-- C20, amended: `clear`, `calcTimesteps` and `removeSelection` are gated. When
a fault is recorded each raises "GPU worker thread is in an invalid state." and
leaves the worker object, its call log included, untouched; otherwise every
engine call each of them makes is made by the caller with `_accessState` at 2,
that is after the constructor has stored 1 and the worker has granted.
`setSimulationParameters` takes no guard: it calls the engine at whatever value
the flag has, fault recorded or not, and leaves the flag alone. -/
theorem gated_operations_acquire_first (eng : EngineBehaviour) (isTimeoutInit : Bool)
    (clock : GateClock) (statisticsNow : Int) (timesteps : Nat) (w : EngineWorker) :
    (w.errorMessage.isSome = true →
        EngineWorker.clear eng isTimeoutInit clock w
          = .threw EngineWorkerGuard.invalidStateMessage w ∧
        EngineWorker.calcTimesteps eng isTimeoutInit clock statisticsNow timesteps w
          = .threw EngineWorkerGuard.invalidStateMessage w ∧
        EngineWorker.removeSelection eng isTimeoutInit clock statisticsNow w
          = .threw EngineWorkerGuard.invalidStateMessage w) ∧
      (w.errorMessage = none →
        (EngineWorker.clear eng isTimeoutInit clock w).CallsWhileGranted w ∧
        (EngineWorker.calcTimesteps eng isTimeoutInit clock statisticsNow timesteps
          w).CallsWhileGranted w ∧
        (EngineWorker.removeSelection eng isTimeoutInit clock statisticsNow
          w).CallsWhileGranted w) ∧
      (w.setSimulationParameters eng).worker.engineLog
        = w.engineLog ++ [⟨.caller, .setSimulationParameters, w.accessState⟩] ∧
      (w.setSimulationParameters eng).worker.accessState = w.accessState := by
  refine ⟨fun h => ⟨?_, ?_, ?_⟩, fun h => ⟨?_, ?_, ?_⟩, ?_, ?_⟩
  · exact EngineWorker.withGuard_of_recorded isTimeoutInit none clock _ w h
  · exact EngineWorker.withGuard_of_recorded isTimeoutInit none clock _ w h
  · exact EngineWorker.withGuard_of_recorded isTimeoutInit none clock _ w h
  · refine EngineWorker.withGuard_callsWhileGranted isTimeoutInit clock _ w h (fun g w1 => ?_)
    beta_reduce
    rw [Outcome.ofCall_worker]
    exact EngineWorker.callEngine_callsAt eng .caller .clear w1
  · refine EngineWorker.withGuard_callsWhileGranted isTimeoutInit clock _ w h (fun g w1 => ?_)
    beta_reduce
    have hl := EngineWorker.calcTimestepLoop_callsAt eng timesteps w1
    revert hl
    generalize EngineWorker.calcTimestepLoop eng timesteps w1 = r
    rcases r with ⟨w2, _ | m⟩ <;> intro hl <;> simp only []
    · rw [Outcome.ofCall_worker]
      exact hl.followedBy (EngineWorker.updateStatistics_callsAt eng .caller _ statisticsNow w2)
    · exact hl
  · refine EngineWorker.withGuard_callsWhileGranted isTimeoutInit clock _ w h (fun g w1 => ?_)
    beta_reduce
    have hl := EngineWorker.callEngine_callsAt eng .caller .removeSelection w1
    revert hl
    generalize w1.callEngine eng .caller .removeSelection = r
    rcases r with ⟨w2, _ | m⟩ <;> intro hl <;> simp only []
    · rw [Outcome.ofCall_worker]
      exact hl.followedBy (EngineWorker.updateStatistics_callsAt eng .caller _ statisticsNow w2)
    · exact hl
  · unfold EngineWorker.setSimulationParameters
    rw [Outcome.ofCall_worker]
    exact EngineWorker.callEngine_engineLog eng .caller .setSimulationParameters w
  · unfold EngineWorker.setSimulationParameters
    rw [Outcome.ofCall_worker]
    exact EngineWorker.callEngine_accessState eng .caller .setSimulationParameters w

/-- A granted `calcTimesteps(2)` with nothing recorded, and a `clear` with "boom"
recorded. -/
theorem gated_operations_acquire_first_witness :
    (EngineWorker.calcTimesteps EngineBehaviour.quiet false ⟨0, [⟨true, 5⟩]⟩ 0 2
        { cudaSimulation := some ⟨0⟩ }).CallsWhileGranted { cudaSimulation := some ⟨0⟩ } ∧
      EngineWorker.clear EngineBehaviour.quiet false ⟨0, [⟨true, 5⟩]⟩
          { errorMessage := some "boom" }
        = .threw EngineWorkerGuard.invalidStateMessage { errorMessage := some "boom" } :=
  ⟨((gated_operations_acquire_first EngineBehaviour.quiet false ⟨0, [⟨true, 5⟩]⟩ 0 2
      { cudaSimulation := some ⟨0⟩ }).2.1 rfl).2.1,
    ((gated_operations_acquire_first EngineBehaviour.quiet false ⟨0, [⟨true, 5⟩]⟩ 0 2
      { errorMessage := some "boom" }).1 rfl).1⟩

theorem EngineWorker.updateStatistics_due (eng : EngineBehaviour) (t : Thread) (b : Bool)
    (now : Int) (w w1 : EngineWorker)
    (hdue : b = false ∨ w.lastStatisticsUpdateTime = none ∨
      ∃ last, w.lastStatisticsUpdateTime = some last ∧ now - last > 30000)
    (h : w.updateStatistics eng t b now = (w1, none)) :
    w1 = { (w.callEngine eng t .getStatistics).1 with
            lastStatistics := eng.statistics w.engineLog.length,
            lastStatisticsUpdateTime := some now } := by
  unfold EngineWorker.updateStatistics at h
  have hd : (!b || (match w.lastStatisticsUpdateTime with
      | none => true
      | some last => decide (now - last > EngineWorker.StatisticsUpdate))) = true := by
    rcases hdue with h1 | h1 | ⟨last, h1, h2⟩
    · rw [h1]; rfl
    · rw [h1]; simp
    · rw [h1]
      simp only [EngineWorker.StatisticsUpdate, Bool.or_eq_true, decide_eq_true_eq]
      right
      omega
  simp only [hd, if_true] at h
  revert h
  generalize w.callEngine eng t .getStatistics = r
  rcases r with ⟨w2, _ | m⟩ <;> intro h <;> simp only [Prod.mk.injEq, and_true, reduceCtorEq,
    and_false] at h
  exact h.symm

theorem EngineWorker.updateStatistics_not_due (eng : EngineBehaviour) (t : Thread) (now : Int)
    (w : EngineWorker) (last : Int) (hlast : w.lastStatisticsUpdateTime = some last)
    (hrecent : now - last ≤ 30000) :
    w.updateStatistics eng t true now = (w, none) := by
  unfold EngineWorker.updateStatistics
  have hd : (!true || (match w.lastStatisticsUpdateTime with
      | none => true
      | some last => decide (now - last > EngineWorker.StatisticsUpdate))) = false := by
    rw [hlast]
    simp only [EngineWorker.StatisticsUpdate, Bool.not_true, Bool.false_or, decide_eq_false_iff_not]
    omega
  simp only [hd, Bool.false_eq_true, if_false]

/-- C21: `getStatistics` takes no guard. It returns the member `_lastStatistics`
and leaves the worker object as it is (no engine call, no store to the flag);
what it returns does not depend on the flag or on a recorded fault, and it
never raises. A refresh of `updateStatistics` that has returned has stored the
snapshot the engine gave it, which is then what `getStatistics` returns; an
`updateStatistics(true)` within 30 ms of the last refresh stores nothing, so
`getStatistics` still returns the snapshot of that refresh. -/
theorem getStatistics_returns_cached_snapshot (eng : EngineBehaviour) (w : EngineWorker) :
    w.getStatistics = .returned w.lastStatistics w ∧
      (∀ (a : Int) (e : Option String),
        ({ w with accessState := a, errorMessage := e } : EngineWorker).getStatistics
          = .returned w.lastStatistics { w with accessState := a, errorMessage := e }) ∧
      (∀ (t : Thread) (b : Bool) (now : Int) (w1 : EngineWorker),
        (b = false ∨ w.lastStatisticsUpdateTime = none ∨
          ∃ last, w.lastStatisticsUpdateTime = some last ∧ now - last > 30000) →
        w.updateStatistics eng t b now = (w1, none) →
        w1.getStatistics = .returned (eng.statistics w.engineLog.length) w1) ∧
      (∀ (t : Thread) (now last : Int), w.lastStatisticsUpdateTime = some last →
        now - last ≤ 30000 →
        (w.updateStatistics eng t true now).1.getStatistics = w.getStatistics) := by
  refine ⟨rfl, fun a e => rfl, fun t b now w1 hdue h => ?_, fun t now last hl hr => ?_⟩
  · rw [EngineWorker.updateStatistics_due eng t b now w w1 hdue h]
    rfl
  · rw [EngineWorker.updateStatistics_not_due eng t now w last hl hr]

/-- A worker with a fault recorded and the flag at 2, after a refresh that gave
snapshot 0 of the engine: `getStatistics` returns it and changes nothing. -/
theorem getStatistics_returns_cached_snapshot_witness :
    (EngineWorker.updateStatistics EngineBehaviour.quiet .caller false 5
        { accessState := 2, errorMessage := some "boom" }).1.getStatistics
      = .returned (EngineBehaviour.quiet.statistics 0)
          (EngineWorker.updateStatistics EngineBehaviour.quiet .caller false 5
            { accessState := 2, errorMessage := some "boom" }).1 :=
  (getStatistics_returns_cached_snapshot EngineBehaviour.quiet
    { accessState := 2, errorMessage := some "boom" }).2.2.1 .caller false 5 _ (Or.inl rfl) rfl

namespace EngineWorker

theorem callEngine_quiet (eng : EngineBehaviour) (hq : ∀ k c, eng.raises k c = none)
    (t : Thread) (c : EngineCall) (w : EngineWorker) :
    w.callEngine eng t c
      = ({ w with engineLog := w.engineLog ++ [⟨t, c, w.accessState⟩],
                  cudaSimulation := w.cudaSimulation.map (CudaSimulationFacade.perform c) },
          none) := by
  unfold callEngine
  rw [hq]

end EngineWorker

theorem EngineWorkerGuard.construct_granted (isTimeoutInit : Bool) (maxDuration : Option Int)
    (start : Int) (p : Poll) (rest : List Poll) (w : EngineWorker)
    (hw : w.errorMessage = none) (hgrant : p.workerGrants = true) :
    EngineWorkerGuard.construct isTimeoutInit maxDuration ⟨start, p :: rest⟩ w
      = .returned ⟨isTimeoutInit⟩ { w with accessState := 2 } := by
  rw [EngineWorkerGuard.construct_of_clear _ _ _ _ hw]
  show EngineWorkerGuard.pollLoop maxDuration start isTimeoutInit (p :: rest) _ = _
  rw [EngineWorkerGuard.pollLoop_cons]
  simp only [hgrant, if_true]
  have hg : ({ w with accessState := 1 } : EngineWorker).grantAccess
      = { w with accessState := 2 } := by
    unfold EngineWorker.grantAccess
    rw [if_pos rfl]
  rw [hg]
  have hp : EngineWorkerGuard.poll maxDuration start p.now
      ({ w with accessState := 2 } : EngineWorker).accessState = .leave := by
    unfold EngineWorkerGuard.poll
    rw [if_neg (show ¬ ((2 : Int) = 1) by decide)]
  rw [hp]

namespace EngineWorker

end EngineWorker

/-- C23: `setGpuSettings_async` and `applyForce_async` only enqueue. The first
replaces the settings slot and the second appends one job at the end of the
force list (the earlier jobs stay in place); every other member is as before,
in particular the call log (no engine call), the flag, the run and shutdown
flags and the rate state. Neither looks at the flag or at a recorded fault: run
by an idle caller they are a single step that never raises. -/
theorem async_submissions_only_enqueue (eng : EngineBehaviour) (w : EngineWorker)
    (g : GpuSettings) (start endPos force : RealVector2D) (radius : ℚ) :
    (w.setGpuSettings_async g = { w with updateGpuSettingsJob := some g } ∧
        (w.setGpuSettings_async g).engineLog = w.engineLog ∧
        (w.setGpuSettings_async g).accessState = w.accessState ∧
        (w.setGpuSettings_async g).applyForceJobs = w.applyForceJobs) ∧
      (w.applyForce_async start endPos force radius
          = { w with applyForceJobs := w.applyForceJobs ++ [⟨start, endPos, force, radius⟩] } ∧
        (w.applyForce_async start endPos force radius).engineLog = w.engineLog ∧
        (w.applyForce_async start endPos force radius).accessState = w.accessState ∧
        (w.applyForce_async start endPos force radius).updateGpuSettingsJob
          = w.updateGpuSettingsJob ∧
        (w.applyForce_async start endPos force radius).applyForceJobs.take w.applyForceJobs.length
          = w.applyForceJobs ∧
        (w.applyForce_async start endPos force radius).applyForceJobs.length
          = w.applyForceJobs.length + 1) ∧
      (∀ (a : Int) (e : Option String),
        ({ w with accessState := a, errorMessage := e } : EngineWorker).setGpuSettings_async g
          = { w.setGpuSettings_async g with accessState := a, errorMessage := e } ∧
        ({ w with accessState := a, errorMessage := e } : EngineWorker).applyForce_async
            start endPos force radius
          = { w.applyForce_async start endPos force radius with
              accessState := a, errorMessage := e }) ∧
      (∀ (s : System) (now : Int), s.callerPc = .idle →
        s.callerStep eng (.setGpuSettings_async g) now
          = { s with worker := s.worker.setGpuSettings_async g } ∧
        s.callerStep eng (.applyForce_async start endPos force radius) now
          = { s with worker := s.worker.applyForce_async start endPos force radius }) := by
  refine ⟨⟨rfl, rfl, rfl, rfl⟩, ⟨rfl, rfl, rfl, rfl, ?_, ?_⟩, fun a e => ⟨rfl, rfl⟩,
    fun s now h => ?_⟩
  · simp [EngineWorker.applyForce_async]
  · simp [EngineWorker.applyForce_async]
  · rcases s with ⟨v, pc, cpc⟩
    cases h
    exact ⟨rfl, rfl⟩

namespace System

theorem workerStep_enters_grantWrite (eng : EngineBehaviour) (now : Int) (s : System)
    (h : (s.workerStep eng now).workerPc = .grantWrite) :
    s.workerPc = .grantCheck ∧ s.worker.accessState = 1 := by
  rcases s with ⟨w, pc, cpc⟩
  cases pc <;> simp only [workerStep, goto, fault] at h <;> (repeat' split at h) <;>
    simp_all

theorem workerStep_enters_waitGrant (eng : EngineBehaviour) (now : Int) (s : System)
    (st : Int) (t : Throttle) (h : (s.workerStep eng now).workerPc = .waitGrant st t) :
    s.workerPc = .waitCheck st t ∧ s.worker.accessState = 1 := by
  rcases s with ⟨w, pc, cpc⟩
  cases pc <;> simp only [workerStep, goto, fault] at h <;> (repeat' split at h) <;>
    simp_all

theorem workerStep_accessState (eng : EngineBehaviour) (now : Int) (s : System) :
    (s.workerStep eng now).worker.accessState = s.worker.accessState ∨
      ((s.workerStep eng now).worker.accessState = 2 ∧
        (s.workerPc = .grantWrite ∨ ∃ st t, s.workerPc = .waitGrant st t)) := by
  rcases s with ⟨w, pc, cpc⟩
  cases pc with
  | grantWrite => exact Or.inr ⟨rfl, Or.inl rfl⟩
  | waitGrant st t => exact Or.inr ⟨rfl, Or.inr ⟨st, t, rfl⟩⟩
  | calcStep =>
    left
    simp only [workerStep]
    have hk := EngineWorker.callEngine_accessState eng .worker .calcTimestep w
    revert hk
    generalize w.callEngine eng .worker .calcTimestep = r
    rcases r with ⟨w1, _ | m⟩ <;> intro hk <;> simp only []
    · split <;> exact hk
    · exact hk
  | refreshStatistics =>
    left
    simp only [workerStep]
    have hk := (EngineWorker.updateStatistics_gateKept eng .worker true now w).accessState
    revert hk
    generalize w.updateStatistics eng .worker true now = r
    rcases r with ⟨w1, _ | m⟩ <;> intro hk <;> exact hk
  | measure => exact Or.inl (EngineWorker.measureTPS_gateKept now w).accessState
  | jobs =>
    left
    simp only [workerStep]
    have hk := (EngineWorker.processJobs_gateKept eng w).accessState
    revert hk
    generalize w.processJobs eng = r
    rcases r with ⟨w1, _ | m⟩ <;> intro hk <;> exact hk
  | slowdown =>
    left
    simp only [workerStep]
    cases w.slowDownTimepoint with
    | none => rfl
    | some previous =>
      simp only []
      split
      · split <;> rfl
      · rfl
  | loopHead => left; simp only [workerStep]; split <;> rfl
  | checkSync => left; simp only [workerStep]; split <;> rfl
  | checkAccess => left; simp only [workerStep]; split <;> rfl
  | checkRunning => left; simp only [workerStep]; split <;> rfl
  | waitStart t => exact Or.inl rfl
  | waitPoll st t => left; simp only [workerStep]; split <;> rfl
  | waitCheck st t => left; simp only [workerStep]; split <;> rfl
  | stamp => exact Or.inl rfl
  | grantCheck => left; simp only [workerStep]; split <;> rfl
  | exited => exact Or.inl rfl

theorem callerStep_to_idle (eng : EngineBehaviour) (a : CallerAction) (now : Int) (s : System)
    (h : (s.callerStep eng a now).worker.accessState = 0) :
    s.worker.accessState = 0 ∨
      (s.callerPc = .holding ∧ (a = .release ∨ ∃ c, a = .engineCall c)) ∨
      (∃ t, a = .newSimulation t) := by
  rcases s with ⟨w, pc, cpc⟩
  have hung : ∀ w1, ungated eng now w a = some w1 → w1.accessState = 0 →
      w.accessState = 0 ∨ ∃ t, a = .newSimulation t := by
    intro w1 hu h0
    rcases (ungated_gate eng now w w1 a hu).1 with h1 | _
    · exact Or.inl (h1 ▸ h0)
    · cases a <;> simp only [ungated, reduceCtorEq] at hu
      case newSimulation t => exact Or.inr ⟨t, rfl⟩
      all_goals
        left
        simp only [Option.some.injEq] at hu
        subst hu
        first
          | exact h0
          | exact (EngineWorker.callEngine_accessState eng .caller .setSimulationParameters w) ▸ h0
  cases cpc with
  | requesting md => simp [callerStep] at h
  | polling md st =>
    simp only [callerStep] at h
    split at h <;> exact Or.inl h
  | idle =>
    simp only [callerStep] at h
    split at h
    · split at h <;> exact Or.inl h
    · split at h
      · rename_i w1 hu
        rcases hung w1 hu h with h1 | h1
        · exact Or.inl h1
        · exact Or.inr (Or.inr h1)
      · exact Or.inl h
  | holding =>
    simp only [callerStep] at h
    split at h
    · exact Or.inr (Or.inl ⟨rfl, Or.inl rfl⟩)
    · rename_i c
      exact Or.inr (Or.inl ⟨rfl, Or.inr ⟨c, rfl⟩⟩)
    · exact Or.inl h
    · split at h
      · rename_i w1 hu
        rcases hung w1 hu h with h1 | h1
        · exact Or.inl h1
        · exact Or.inr (Or.inr h1)
      · exact Or.inl h

end System

/-- A caller with a fault recorded and the flag at 2 submits settings: one step,
only the slot changes. -/
theorem async_submissions_only_enqueue_witness :
    System.callerStep EngineBehaviour.quiet (.setGpuSettings_async ⟨3⟩) 0
        ⟨{ accessState := 2, errorMessage := some "boom" }, .loopHead, .idle⟩
      = { (⟨{ accessState := 2, errorMessage := some "boom" }, .loopHead, .idle⟩ : System) with
          worker := EngineWorker.setGpuSettings_async ⟨3⟩
            { accessState := 2, errorMessage := some "boom" } } :=
  ((async_submissions_only_enqueue EngineBehaviour.quiet {} ⟨3⟩ ⟨0, 0⟩ ⟨0, 0⟩ ⟨0, 0⟩ 0).2.2.2
    ⟨{ accessState := 2, errorMessage := some "boom" }, .loopHead, .idle⟩ 0 rfl).1

/-- C24, as the claim states it, fails: with a settings update pending, the
trace of `processJobs` has the `setGpuConstants` call after the acquisition of
the job mutex and before its release. -/
theorem processJobs_calls_engine_under_lock :
    EngineWorker.processJobsTrace EngineBehaviour.quiet { updateGpuSettingsJob := some ⟨1⟩ }
      = [.lock, .call (.setGpuConstants ⟨1⟩), .unlock] := by
  decide

/-- C24, amended: the job mutex is held for the whole of `processJobs`. Its trace
starts with the acquisition and ends with the release, with nothing but engine
calls in between; when the drain returns these are the `setGpuConstants` and
`applyForce` calls of the queued jobs, all made under the lock. -/
theorem processJobs_holds_lock_throughout (eng : EngineBehaviour) (w : EngineWorker) :
    (∃ calls : List EngineCall,
        w.processJobsTrace eng = JobEvent.lock :: (calls.map JobEvent.call ++ [JobEvent.unlock])) ∧
      (∀ w1, w.processJobs eng = (w1, none) →
        w.processJobsTrace eng
          = JobEvent.lock ::
              ((drainCalls w.updateGpuSettingsJob
                (w.applyForceJobs.map EngineWorker.forceData)).map JobEvent.call
                ++ [JobEvent.unlock])) := by
  refine ⟨⟨_, rfl⟩, fun w1 h => ?_⟩
  have hr := (EngineWorker.processJobs_returns eng w w1 h).1
  unfold EngineWorker.processJobsTrace
  rw [h]
  have hd : callsOf (w1.engineLog.drop w.engineLog.length)
      = drainCalls w.updateGpuSettingsJob (w.applyForceJobs.map EngineWorker.forceData) := by
    have h1 : callsOf (w1.engineLog.drop w.engineLog.length)
        = (callsOf w1.engineLog).drop (callsOf w.engineLog).length := by
      simp [callsOf, List.map_drop]
    rw [h1, hr, List.drop_left]
  show JobEvent.lock :: _ = _
  rw [hd]
  rfl

/-- A drain of one settings update and one force: both calls lie between the
acquisition and the release. -/
theorem processJobs_holds_lock_throughout_witness :
    EngineWorker.processJobsTrace EngineBehaviour.quiet
        { updateGpuSettingsJob := some ⟨1⟩, applyForceJobs := [⟨⟨1, 1⟩, ⟨2, 2⟩, ⟨3, 3⟩, 4⟩] }
      = JobEvent.lock ::
          ((drainCalls (some ⟨1⟩)
            ([(⟨⟨1, 1⟩, ⟨2, 2⟩, ⟨3, 3⟩, 4⟩ : ApplyForceJob)].map EngineWorker.forceData)).map
            JobEvent.call ++ [JobEvent.unlock]) :=
  (processJobs_holds_lock_throughout EngineBehaviour.quiet
    { updateGpuSettingsJob := some ⟨1⟩, applyForceJobs := [⟨⟨1, 1⟩, ⟨2, 2⟩, ⟨3, 3⟩, 4⟩] }).2 _ rfl

/-- C25 as stated fails: the test `_accessState == 1` and the store
`_accessState = 2` are separate accesses. The worker reads 1 at the end of an
iteration; the caller's advisory wait of 500 ms then expires and its guard is
released, which stores 0; the store of the worker that follows takes the flag
from 0 to 2, with the caller outside any guard. -/
theorem worker_store_takes_idle_to_granted :
    ((System.start {}).run EngineBehaviour.quiet
        [.caller (.acquire (some 500)) 0, .caller .proceed 0, .worker 1, .worker 2, .worker 3,
          .worker 4, .worker 5, .caller .proceed 500001, .caller .release 500002]).worker.accessState
        = 0 ∧
      ((System.start {}).run EngineBehaviour.quiet
        [.caller (.acquire (some 500)) 0, .caller .proceed 0, .worker 1, .worker 2, .worker 3,
          .worker 4, .worker 5, .caller .proceed 500001, .caller .release 500002]).workerPc
        = .grantWrite ∧
      ((System.start {}).run EngineBehaviour.quiet
        [.caller (.acquire (some 500)) 0, .caller .proceed 0, .worker 1, .worker 2, .worker 3,
          .worker 4, .worker 5, .caller .proceed 500001, .caller .release 500002]).callerPc
        = .idle ∧
      ((System.start {}).run EngineBehaviour.quiet
        [.caller (.acquire (some 500)) 0, .caller .proceed 0, .worker 1, .worker 2, .worker 3,
          .worker 4, .worker 5, .caller .proceed 500001, .caller .release 500002,
          .worker 500003]).worker.accessState = 2 := by
  refine ⟨?_, ?_, ?_, ?_⟩ <;> decide

/-- C25, amended: a step of the worker thread either leaves `_accessState` as it
is or stores 2 in it, and it stores 2 only at its two stores `_accessState = 2`,
which it reaches only from the test `_accessState == 1` having read 1; a test
that reads 0 or 2 is followed by no store. It never takes the flag from another
value to 0. The caller takes the flag to 0 only by the destructor of a guard
(at `release`, or when an engine call raises under the guard) or by
`newSimulation`. The store writes 2 whatever the flag holds by then: it
overwrites 1 when no step of the caller lies between the test and the store,
and otherwise whatever the caller has stored in between. -/
theorem worker_only_grants (eng : EngineBehaviour) (now : Int) (s : System) :
    ((s.workerStep eng now).worker.accessState = s.worker.accessState ∨
        ((s.workerStep eng now).worker.accessState = 2 ∧
          (s.workerPc = .grantWrite ∨ ∃ st t, s.workerPc = .waitGrant st t))) ∧
      ((s.workerStep eng now).workerPc = .grantWrite →
        s.workerPc = .grantCheck ∧ s.worker.accessState = 1) ∧
      (∀ st t, (s.workerStep eng now).workerPc = .waitGrant st t →
        s.workerPc = .waitCheck st t ∧ s.worker.accessState = 1) ∧
      (s.workerPc = .grantCheck → s.worker.accessState ≠ 1 →
        s.workerStep eng now = { s with workerPc := .loopHead }) ∧
      (∀ st t, s.workerPc = .waitCheck st t → s.worker.accessState ≠ 1 →
        s.workerStep eng now = { s with workerPc := .waitPoll st t }) ∧
      (s.worker.accessState ≠ 0 → (s.workerStep eng now).worker.accessState ≠ 0) ∧
      (∀ w : EngineWorker,
        w.grantAccess.accessState = if w.accessState = 1 then 2 else w.accessState) ∧
      (∀ a : CallerAction, (s.callerStep eng a now).worker.accessState = 0 →
        s.worker.accessState = 0 ∨
          (s.callerPc = .holding ∧ (a = .release ∨ ∃ c, a = .engineCall c)) ∨
          (∃ t, a = .newSimulation t)) ∧
      ((s.workerPc = .grantWrite ∨ ∃ st t, s.workerPc = .waitGrant st t) →
        (s.workerStep eng now).worker.accessState = 2) ∧
      (∀ now2 : Int, s.workerPc = .grantCheck → s.worker.accessState = 1 →
        (s.workerStep eng now).workerPc = .grantWrite ∧
          (s.workerStep eng now).worker.accessState = 1 ∧
          ((s.workerStep eng now).workerStep eng now2).worker.accessState = 2) ∧
      (∀ (now2 : Int) (st : Int) (t : Throttle), s.workerPc = .waitCheck st t →
        s.worker.accessState = 1 →
        (s.workerStep eng now).workerPc = .waitGrant st t ∧
          (s.workerStep eng now).worker.accessState = 1 ∧
          ((s.workerStep eng now).workerStep eng now2).worker.accessState = 2) := by
  refine ⟨System.workerStep_accessState eng now s,
    System.workerStep_enters_grantWrite eng now s,
    fun st t => System.workerStep_enters_waitGrant eng now s st t, fun hpc hne => ?_,
    fun st t hpc hne => ?_, fun hne h0 => ?_, fun w => ?_,
    fun a h => System.callerStep_to_idle eng a now s h, fun hpc => ?_,
    fun now2 hpc hread => ?_, fun now2 st t hpc hread => ?_⟩
  · rcases s with ⟨w, pc, cpc⟩
    cases hpc
    have hw : ¬ w.accessState = 1 := hne
    simp only [System.workerStep, hw, if_false, System.goto]
  · rcases s with ⟨w, pc, cpc⟩
    cases hpc
    have hw : ¬ w.accessState = 1 := hne
    simp only [System.workerStep, hw, if_false, System.goto]
  · rcases System.workerStep_accessState eng now s with h | ⟨h, _⟩
    · exact hne (h ▸ h0)
    · rw [h] at h0
      exact absurd h0 (by decide)
  · unfold EngineWorker.grantAccess
    split <;> rfl
  · rcases s with ⟨w, pc, cpc⟩
    rcases hpc with hpc | ⟨st, t, hpc⟩ <;> cases hpc <;> rfl
  · rcases s with ⟨w, pc, cpc⟩
    cases hpc
    have hw : w.accessState = 1 := hread
    simp only [System.workerStep, hw, if_true, System.goto]
    exact ⟨trivial, trivial, trivial⟩
  · rcases s with ⟨w, pc, cpc⟩
    cases hpc
    have hw : w.accessState = 1 := hread
    simp only [System.workerStep, hw, if_true, System.goto]
    exact ⟨trivial, trivial, trivial⟩

/-- The grant at the end of an iteration: the test reads 1, the next step stores
2; at flag 2 the test is followed by no store. -/
theorem worker_only_grants_witness :
    ((System.workerStep EngineBehaviour.quiet 0
        ⟨{ accessState := 1 }, .grantCheck, .polling none 0⟩).workerPc = .grantWrite ∧
      (⟨{ accessState := 1 }, .grantCheck, .polling none 0⟩ : System).workerPc = .grantCheck ∧
        (⟨{ accessState := 1 }, .grantCheck, .polling none 0⟩ : System).worker.accessState = 1) ∧
      System.workerStep EngineBehaviour.quiet 0 ⟨{ accessState := 2 }, .grantCheck, .holding⟩
        = { (⟨{ accessState := 2 }, .grantCheck, .holding⟩ : System) with workerPc := .loopHead } :=
  ⟨⟨rfl, (worker_only_grants EngineBehaviour.quiet 0
      ⟨{ accessState := 1 }, .grantCheck, .polling none 0⟩).2.1 rfl⟩,
    (worker_only_grants EngineBehaviour.quiet 0
      ⟨{ accessState := 2 }, .grantCheck, .holding⟩).2.2.2.1 rfl (by decide)⟩

namespace EngineWorker

theorem callEngine_statisticsCounter (eng : EngineBehaviour) (t : Thread) (c : EngineCall)
    (w : EngineWorker) : (w.callEngine eng t c).1.statisticsCounter = w.statisticsCounter := by
  unfold callEngine
  cases eng.raises w.engineLog.length c <;> rfl

theorem updateStatistics_statisticsCounter (eng : EngineBehaviour) (t : Thread) (b : Bool)
    (now : Int) (w : EngineWorker) :
    (w.updateStatistics eng t b now).1.statisticsCounter = w.statisticsCounter := by
  unfold updateStatistics
  have h := callEngine_statisticsCounter eng t .getStatistics w
  revert h
  generalize w.callEngine eng t .getStatistics = r
  rcases r with ⟨w1, _ | m⟩ <;> intro h <;> simp only [] <;> split
  all_goals first
    | rfl
    | exact h

theorem applyForceLoop_statisticsCounter (eng : EngineBehaviour) (jobs : List ApplyForceJob) :
    ∀ w : EngineWorker, (applyForceLoop eng jobs w).1.statisticsCounter = w.statisticsCounter := by
  induction jobs with
  | nil => intro w; rfl
  | cons job rest ih =>
    intro w
    unfold applyForceLoop
    have h := callEngine_statisticsCounter eng .worker (.applyForce (forceData job)) w
    revert h
    generalize w.callEngine eng .worker (.applyForce (forceData job)) = r
    rcases r with ⟨w1, _ | m⟩ <;> intro h <;> simp only []
    · exact (ih w1).trans h
    · exact h

theorem drainForces_statisticsCounter (eng : EngineBehaviour) (w : EngineWorker) :
    (if w.applyForceJobs.isEmpty then (w, (none : Option String))
      else
        match applyForceLoop eng w.applyForceJobs w with
        | (w2, some m) => (w2, some m)
        | (w2, none) => ({ w2 with applyForceJobs := [] }, none)).1.statisticsCounter
      = w.statisticsCounter := by
  split
  · rfl
  · have h := applyForceLoop_statisticsCounter eng w.applyForceJobs w
    revert h
    generalize applyForceLoop eng w.applyForceJobs w = r
    rcases r with ⟨w2, _ | m⟩ <;> intro h <;> exact h

theorem processJobs_statisticsCounter (eng : EngineBehaviour) (w : EngineWorker) :
    (w.processJobs eng).1.statisticsCounter = w.statisticsCounter := by
  unfold processJobs
  cases hs : w.updateGpuSettingsJob with
  | none => exact drainForces_statisticsCounter eng w
  | some settings =>
    simp only []
    have h := callEngine_statisticsCounter eng .worker (.setGpuConstants settings) w
    revert h
    generalize w.callEngine eng .worker (.setGpuConstants settings) = r
    rcases r with ⟨w1, _ | m⟩ <;> intro h <;> simp only []
    · exact (drainForces_statisticsCounter eng { w1 with updateGpuSettingsJob := none }).trans h
    · exact h

theorem measureTPS_statisticsCounter (now : Int) (w : EngineWorker) :
    (w.measureTPS now).statisticsCounter = w.statisticsCounter := by
  unfold measureTPS
  split
  · cases w.measureTimepoint with
    | none => rfl
    | some last =>
      simp only []
      split <;> rfl
  · rfl

theorem newSimulation_statisticsCounter (eng : EngineBehaviour) (timestep : Nat) (now : Int)
    (w : EngineWorker) :
    (w.newSimulation eng timestep now).1.statisticsCounter = w.statisticsCounter := by
  have tail : ∀ w1 : EngineWorker,
      (match (match w1.imageResource with
          | some _ => w1.callEngine eng .caller .registerImageResource
          | none => (w1, none)) with
        | (w2, some m) => (w2, some m)
        | (w2, none) => w2.updateStatistics eng .caller afterMinDurationDefault now).1.statisticsCounter
        = w1.statisticsCounter := by
    intro w1
    cases w1.imageResource with
    | none => exact updateStatistics_statisticsCounter eng .caller _ now w1
    | some img =>
      simp only []
      have h := callEngine_statisticsCounter eng .caller .registerImageResource w1
      revert h
      generalize callEngine eng .caller .registerImageResource w1 = r
      rcases r with ⟨w2, _ | m⟩ <;> intro h <;> simp only []
      · exact (updateStatistics_statisticsCounter eng .caller _ now w2).trans h
      · exact h
  exact tail { w with accessState := 0, cudaSimulation := some ⟨timestep⟩ }

end EngineWorker

namespace System

theorem counted_move {w w1 : EngineWorker} {pc pc1 : WorkerPc} {cpc cpc1 : CallerPc} {k j : Nat}
    (h : Counted ⟨w, pc, cpc⟩ k j) (hpc : pc ≠ .refreshStatistics)
    (hw : w1.statisticsCounter = w.statisticsCounter) (hpc1 : pc1 ≠ .refreshStatistics) :
    Counted ⟨w1, pc1, cpc1⟩ k j := by
  have ht := h.total
  have hs := h.settled hpc
  refine ⟨?_, fun hp => absurd hp hpc1, fun _ => ?_⟩
  · show (k : Int) = 3 * (j : Int) + w1.statisticsCounter
    rw [hw]; exact ht
  · show 0 ≤ w1.statisticsCounter ∧ w1.statisticsCounter ≤ 2
    rw [hw]; exact hs

theorem workerStep_counted (eng : EngineBehaviour) (hq : ∀ k c, eng.raises k c = none)
    (now : Int) (s : System) (k j : Nat) (h : Counted s k j) :
    Counted (s.workerStep eng now) (k + (if s.workerPc = .calcStep then 1 else 0))
      (j + (if s.workerPc = .refreshStatistics then 1 else 0)) := by
  rcases s with ⟨w, pc, cpc⟩
  cases pc with
  | calcStep =>
    have ht : (k : Int) = 3 * (j : Int) + w.statisticsCounter := h.total
    have hs : 0 ≤ w.statisticsCounter ∧ w.statisticsCounter ≤ 2 := h.settled (by simp)
    simp only [workerStep, EngineWorker.callEngine_quiet eng hq, reduceCtorEq, if_false, if_true,
      Nat.add_zero, goto]
    split
    · rename_i h3
      refine ⟨?_, fun _ => h3, fun hp => absurd rfl hp⟩
      show ((k + 1 : Nat) : Int) = 3 * (j : Int) + (w.statisticsCounter + 1)
      push_cast; omega
    · rename_i h3
      have h3' : ¬ w.statisticsCounter + 1 = 3 := h3
      refine ⟨?_, fun hp => (by cases hp), fun _ => ?_⟩
      · show ((k + 1 : Nat) : Int) = 3 * (j : Int) + (w.statisticsCounter + 1)
        push_cast; omega
      · show 0 ≤ w.statisticsCounter + 1 ∧ w.statisticsCounter + 1 ≤ 2
        omega
  | refreshStatistics =>
    have ht : (k : Int) = 3 * (j : Int) + w.statisticsCounter := h.total
    have hp : w.statisticsCounter = 3 := h.pending rfl
    simp only [workerStep, reduceCtorEq, if_false, if_true, Nat.add_zero]
    have hr : ∃ w1, w.updateStatistics eng .worker true now = (w1, none) := by
      unfold EngineWorker.updateStatistics
      rw [EngineWorker.callEngine_quiet eng hq]
      simp only []
      split
      · exact ⟨_, rfl⟩
      · exact ⟨_, rfl⟩
    rcases hr with ⟨w1, hw1⟩
    rw [hw1]
    refine ⟨?_, fun hp1 => (by cases hp1), fun _ => ?_⟩
    · show (k : Int) = 3 * ((j + 1 : Nat) : Int) + 0
      push_cast; omega
    · show (0 : Int) ≤ 0 ∧ (0 : Int) ≤ 2
      decide
  | measure =>
    simp only [reduceCtorEq, if_false, Nat.add_zero]
    exact counted_move h (by simp) (EngineWorker.measureTPS_statisticsCounter now w) (by simp)
  | jobs =>
    simp only [reduceCtorEq, if_false, Nat.add_zero, workerStep]
    have hk := EngineWorker.processJobs_statisticsCounter eng w
    revert hk
    generalize w.processJobs eng = r
    rcases r with ⟨w1, _ | m⟩ <;> intro hk
    · exact counted_move h (by simp) hk (by simp)
    · exact counted_move h (by simp) hk (by simp)
  | slowdown =>
    simp only [reduceCtorEq, if_false, Nat.add_zero, workerStep]
    cases w.slowDownTimepoint with
    | none => exact counted_move h (by simp) rfl (by simp)
    | some previous =>
      simp only []
      split
      · split <;> exact counted_move h (by simp) rfl (by simp)
      · exact counted_move h (by simp) rfl (by simp)
  | loopHead =>
    simp only [reduceCtorEq, if_false, Nat.add_zero, workerStep]
    split <;> exact counted_move h (by simp) rfl (by simp)
  | checkSync =>
    simp only [reduceCtorEq, if_false, Nat.add_zero, workerStep]
    split <;> exact counted_move h (by simp) rfl (by simp)
  | checkAccess =>
    simp only [reduceCtorEq, if_false, Nat.add_zero, workerStep]
    split <;> exact counted_move h (by simp) rfl (by simp)
  | checkRunning =>
    simp only [reduceCtorEq, if_false, Nat.add_zero, workerStep]
    split <;> exact counted_move h (by simp) rfl (by simp)
  | waitStart t =>
    simp only [reduceCtorEq, if_false, Nat.add_zero]
    exact counted_move h (by simp) rfl (by simp)
  | waitPoll st t =>
    simp only [reduceCtorEq, if_false, Nat.add_zero, workerStep]
    split <;> exact counted_move h (by simp) rfl (by simp)
  | waitCheck st t =>
    simp only [reduceCtorEq, if_false, Nat.add_zero, workerStep]
    split <;> exact counted_move h (by simp) rfl (by simp)
  | waitGrant st t =>
    simp only [reduceCtorEq, if_false, Nat.add_zero]
    exact counted_move h (by simp) rfl (by simp)
  | stamp =>
    simp only [reduceCtorEq, if_false, Nat.add_zero]
    exact counted_move h (by simp) rfl (by simp)
  | grantCheck =>
    simp only [reduceCtorEq, if_false, Nat.add_zero, workerStep]
    split <;> exact counted_move h (by simp) rfl (by simp)
  | grantWrite =>
    simp only [reduceCtorEq, if_false, Nat.add_zero]
    exact counted_move h (by simp) rfl (by simp)
  | exited =>
    simp only [reduceCtorEq, if_false, Nat.add_zero]
    exact h

theorem ungated_statisticsCounter (eng : EngineBehaviour) (now : Int) (w w1 : EngineWorker)
    (a : CallerAction) (h : ungated eng now w a = some w1) :
    w1.statisticsCounter = w.statisticsCounter := by
  cases a <;> simp only [ungated, Option.some.injEq, reduceCtorEq] at h <;> subst h
  · exact EngineWorker.newSimulation_statisticsCounter eng _ now w
  · rfl
  · rfl
  · rfl
  · rfl
  · rfl
  · rfl
  · rfl
  · rfl
  · exact EngineWorker.callEngine_statisticsCounter eng .caller .setSimulationParameters w

theorem callerStep_statisticsCounter (eng : EngineBehaviour) (a : CallerAction) (now : Int)
    (s : System) :
    (s.callerStep eng a now).worker.statisticsCounter = s.worker.statisticsCounter := by
  rcases s with ⟨w, pc, cpc⟩
  cases cpc with
  | requesting md => rfl
  | polling md st =>
    simp only [callerStep]
    split <;> rfl
  | idle =>
    simp only [callerStep]
    split
    · split <;> rfl
    · split
      · rename_i w1 hu
        exact ungated_statisticsCounter eng now w w1 _ hu
      · rfl
  | holding =>
    simp only [callerStep]
    split
    · rfl
    · have hk := EngineWorker.callEngine_statisticsCounter eng .caller ‹EngineCall› w
      split
      · rename_i w1 _ hc
        rw [hc] at hk
        exact hk
      · rename_i w1 hc
        rw [hc] at hk
        exact hk
    · rfl
    · split
      · rename_i w1 hu
        exact ungated_statisticsCounter eng now w w1 _ hu
      · rfl

theorem callerStep_counted (eng : EngineBehaviour) (a : CallerAction) (now : Int) (s : System)
    (k j : Nat) (h : Counted s k j) : Counted (s.callerStep eng a now) k j := by
  have hc := callerStep_statisticsCounter eng a now s
  have hp := callerStep_workerPc eng a now s
  refine ⟨?_, fun hpc => ?_, fun hpc => ?_⟩
  · rw [hc]; exact h.total
  · rw [hc]; exact h.pending (hp ▸ hpc)
  · rw [hc]; exact h.settled (hp ▸ hpc)

theorem run_counted (eng : EngineBehaviour) (hq : ∀ k c, eng.raises k c = none)
    (steps : List Step) :
    ∀ (s : System) (k j : Nat), Counted s k j →
      Counted (s.run eng steps) (k + workerStepsAt eng .calcStep s steps)
        (j + workerStepsAt eng .refreshStatistics s steps) := by
  induction steps with
  | nil => intro s k j h; exact h
  | cons st rest ih =>
    intro s k j h
    cases st with
    | worker now =>
      have h1 := ih _ _ _ (workerStep_counted eng hq now s k j h)
      simp only [workerStepsAt, run, List.foldl_cons, step] at h1 ⊢
      rw [Nat.add_assoc, Nat.add_assoc] at h1
      exact h1
    | caller a now =>
      have h1 := ih _ _ _ (callerStep_counted eng a now s k j h)
      simp only [workerStepsAt, run, List.foldl_cons, step, Nat.zero_add] at h1 ⊢
      exact h1

end System

namespace EngineWorker

theorem callEngine_lastStatistics (eng : EngineBehaviour) (t : Thread) (c : EngineCall)
    (w : EngineWorker) : (w.callEngine eng t c).1.lastStatistics = w.lastStatistics := by
  unfold callEngine
  cases eng.raises w.engineLog.length c <;> rfl

theorem applyForceLoop_lastStatistics (eng : EngineBehaviour) (jobs : List ApplyForceJob) :
    ∀ w : EngineWorker, (applyForceLoop eng jobs w).1.lastStatistics = w.lastStatistics := by
  induction jobs with
  | nil => intro w; rfl
  | cons job rest ih =>
    intro w
    unfold applyForceLoop
    have h := callEngine_lastStatistics eng .worker (.applyForce (forceData job)) w
    revert h
    generalize w.callEngine eng .worker (.applyForce (forceData job)) = r
    rcases r with ⟨w1, _ | m⟩ <;> intro h <;> simp only []
    · exact (ih w1).trans h
    · exact h

theorem drainForces_lastStatistics (eng : EngineBehaviour) (w : EngineWorker) :
    (if w.applyForceJobs.isEmpty then (w, (none : Option String))
      else
        match applyForceLoop eng w.applyForceJobs w with
        | (w2, some m) => (w2, some m)
        | (w2, none) => ({ w2 with applyForceJobs := [] }, none)).1.lastStatistics
      = w.lastStatistics := by
  split
  · rfl
  · have h := applyForceLoop_lastStatistics eng w.applyForceJobs w
    revert h
    generalize applyForceLoop eng w.applyForceJobs w = r
    rcases r with ⟨w2, _ | m⟩ <;> intro h <;> exact h

theorem processJobs_lastStatistics (eng : EngineBehaviour) (w : EngineWorker) :
    (w.processJobs eng).1.lastStatistics = w.lastStatistics := by
  unfold processJobs
  cases hs : w.updateGpuSettingsJob with
  | none => exact drainForces_lastStatistics eng w
  | some settings =>
    simp only []
    have h := callEngine_lastStatistics eng .worker (.setGpuConstants settings) w
    revert h
    generalize w.callEngine eng .worker (.setGpuConstants settings) = r
    rcases r with ⟨w1, _ | m⟩ <;> intro h <;> simp only []
    · exact (drainForces_lastStatistics eng { w1 with updateGpuSettingsJob := none }).trans h
    · exact h

theorem measureTPS_lastStatistics (now : Int) (w : EngineWorker) :
    (w.measureTPS now).lastStatistics = w.lastStatistics := by
  unfold measureTPS
  split
  · cases w.measureTimepoint with
    | none => rfl
    | some last =>
      simp only []
      split <;> rfl
  · rfl

theorem callEngine_lastStatisticsUpdateTime (eng : EngineBehaviour) (t : Thread) (c : EngineCall)
    (w : EngineWorker) : (w.callEngine eng t c).1.lastStatisticsUpdateTime = w.lastStatisticsUpdateTime := by
  unfold callEngine
  cases eng.raises w.engineLog.length c <;> rfl

theorem applyForceLoop_lastStatisticsUpdateTime (eng : EngineBehaviour) (jobs : List ApplyForceJob) :
    ∀ w : EngineWorker, (applyForceLoop eng jobs w).1.lastStatisticsUpdateTime = w.lastStatisticsUpdateTime := by
  induction jobs with
  | nil => intro w; rfl
  | cons job rest ih =>
    intro w
    unfold applyForceLoop
    have h := callEngine_lastStatisticsUpdateTime eng .worker (.applyForce (forceData job)) w
    revert h
    generalize w.callEngine eng .worker (.applyForce (forceData job)) = r
    rcases r with ⟨w1, _ | m⟩ <;> intro h <;> simp only []
    · exact (ih w1).trans h
    · exact h

theorem drainForces_lastStatisticsUpdateTime (eng : EngineBehaviour) (w : EngineWorker) :
    (if w.applyForceJobs.isEmpty then (w, (none : Option String))
      else
        match applyForceLoop eng w.applyForceJobs w with
        | (w2, some m) => (w2, some m)
        | (w2, none) => ({ w2 with applyForceJobs := [] }, none)).1.lastStatisticsUpdateTime
      = w.lastStatisticsUpdateTime := by
  split
  · rfl
  · have h := applyForceLoop_lastStatisticsUpdateTime eng w.applyForceJobs w
    revert h
    generalize applyForceLoop eng w.applyForceJobs w = r
    rcases r with ⟨w2, _ | m⟩ <;> intro h <;> exact h

theorem processJobs_lastStatisticsUpdateTime (eng : EngineBehaviour) (w : EngineWorker) :
    (w.processJobs eng).1.lastStatisticsUpdateTime = w.lastStatisticsUpdateTime := by
  unfold processJobs
  cases hs : w.updateGpuSettingsJob with
  | none => exact drainForces_lastStatisticsUpdateTime eng w
  | some settings =>
    simp only []
    have h := callEngine_lastStatisticsUpdateTime eng .worker (.setGpuConstants settings) w
    revert h
    generalize w.callEngine eng .worker (.setGpuConstants settings) = r
    rcases r with ⟨w1, _ | m⟩ <;> intro h <;> simp only []
    · exact (drainForces_lastStatisticsUpdateTime eng { w1 with updateGpuSettingsJob := none }).trans h
    · exact h

theorem measureTPS_lastStatisticsUpdateTime (now : Int) (w : EngineWorker) :
    (w.measureTPS now).lastStatisticsUpdateTime = w.lastStatisticsUpdateTime := by
  unfold measureTPS
  split
  · cases w.measureTimepoint with
    | none => rfl
    | some last =>
      simp only []
      split <;> rfl
  · rfl

theorem updateStatistics_returns_quiet (eng : EngineBehaviour)
    (hq : ∀ k c, eng.raises k c = none) (t : Thread) (b : Bool) (now : Int) (w : EngineWorker) :
    (w.updateStatistics eng t b now).2 = none := by
  unfold updateStatistics
  rw [callEngine_quiet eng hq]
  simp only []
  split <;> rfl

end EngineWorker

theorem System.workerStep_snapshot (eng : EngineBehaviour) (now : Int) (s : System)
    (hpc : s.workerPc ≠ .refreshStatistics) :
    (s.workerStep eng now).worker.lastStatistics = s.worker.lastStatistics ∧
      (s.workerStep eng now).worker.lastStatisticsUpdateTime
        = s.worker.lastStatisticsUpdateTime := by
  rcases s with ⟨w, pc, cpc⟩
  cases pc with
  | refreshStatistics => exact absurd rfl hpc
  | calcStep =>
    simp only [System.workerStep]
    have h1 := EngineWorker.callEngine_lastStatistics eng .worker .calcTimestep w
    have h2 := EngineWorker.callEngine_lastStatisticsUpdateTime eng .worker .calcTimestep w
    revert h1 h2
    generalize w.callEngine eng .worker .calcTimestep = r
    rcases r with ⟨w1, _ | m⟩ <;> intro h1 h2
    · simp only []
      split <;> exact ⟨h1, h2⟩
    · exact ⟨h1, h2⟩
  | measure =>
    exact ⟨EngineWorker.measureTPS_lastStatistics now w,
      EngineWorker.measureTPS_lastStatisticsUpdateTime now w⟩
  | jobs =>
    simp only [System.workerStep]
    have h1 := EngineWorker.processJobs_lastStatistics eng w
    have h2 := EngineWorker.processJobs_lastStatisticsUpdateTime eng w
    revert h1 h2
    generalize w.processJobs eng = r
    rcases r with ⟨w1, _ | m⟩ <;> intro h1 h2 <;> exact ⟨h1, h2⟩
  | slowdown =>
    simp only [System.workerStep]
    cases w.slowDownTimepoint with
    | none => exact ⟨rfl, rfl⟩
    | some previous =>
      simp only []
      split
      · split <;> exact ⟨rfl, rfl⟩
      · exact ⟨rfl, rfl⟩
  | loopHead =>
    simp only [System.workerStep]
    split <;> exact ⟨rfl, rfl⟩
  | checkSync =>
    simp only [System.workerStep]
    split <;> exact ⟨rfl, rfl⟩
  | checkAccess =>
    simp only [System.workerStep]
    split <;> exact ⟨rfl, rfl⟩
  | checkRunning =>
    simp only [System.workerStep]
    split <;> exact ⟨rfl, rfl⟩
  | waitStart t => exact ⟨rfl, rfl⟩
  | waitPoll st t =>
    simp only [System.workerStep]
    split <;> exact ⟨rfl, rfl⟩
  | waitCheck st t =>
    simp only [System.workerStep]
    split <;> exact ⟨rfl, rfl⟩
  | waitGrant st t => exact ⟨rfl, rfl⟩
  | stamp => exact ⟨rfl, rfl⟩
  | grantCheck =>
    simp only [System.workerStep]
    split <;> exact ⟨rfl, rfl⟩
  | grantWrite => exact ⟨rfl, rfl⟩
  | exited => exact ⟨rfl, rfl⟩

theorem System.workerStep_refresh (eng : EngineBehaviour) (hq : ∀ k c, eng.raises k c = none)
    (now : Int) (s : System) (hpc : s.workerPc = .refreshStatistics) :
    s.workerStep eng now
      = { worker := { (s.worker.updateStatistics eng .worker true now).1 with
                        statisticsCounter := 0 },
          workerPc := .measure, callerPc := s.callerPc } := by
  rcases s with ⟨w, pc, cpc⟩
  cases hpc
  have h := EngineWorker.updateStatistics_returns_quiet eng hq .worker true now w
  simp only [System.workerStep]
  revert h
  generalize w.updateStatistics eng .worker true now = r
  rcases r with ⟨w1, _ | m⟩ <;> intro h
  · rfl
  · cases h

theorem System.workerStep_simulationStep (eng : EngineBehaviour)
    (hq : ∀ k c, eng.raises k c = none) (now : Int) (s : System) (hpc : s.workerPc = .calcStep) :
    (s.workerStep eng now).worker.engineLog
        = s.worker.engineLog ++ [⟨.worker, .calcTimestep, s.worker.accessState⟩] ∧
      (s.workerStep eng now).worker.statisticsCounter = s.worker.statisticsCounter + 1 ∧
      (s.workerStep eng now).workerPc
        = if s.worker.statisticsCounter + 1 = 3 then .refreshStatistics else .measure := by
  rcases s with ⟨w, pc, cpc⟩
  cases hpc
  simp only [System.workerStep, EngineWorker.callEngine_quiet eng hq, System.goto]
  split
  · exact ⟨rfl, rfl, rfl⟩
  · exact ⟨rfl, rfl, rfl⟩

/-- C26: with an engine that does not raise and the statistics counter at 0 when
the loop is entered, in every interleaving the worker has invoked
`updateStatistics(true)` exactly `k / 3` times once it has taken `k` simulation
steps and is not just about to invoke it, and the counter is then `k % 3`, one of
0, 1, 2; the invocation is pending exactly after a step whose number is a
multiple of 3, with `k / 3 - 1` invocations made so far. What is counted is what
the loop does: its step at the simulation step is one `calcTimestep` of the
engine and adds one to the counter, and its step at the refresh is
`updateStatistics(true)` on the worker object, whose result the loop keeps, with
the counter set back to 0. That invocation calls the engine's `getStatistics`
and stores the snapshot and the clock reading when no refresh happened before or
more than 30 ms have passed since the last one, and otherwise only resets the
counter; at every other position the worker leaves the snapshot and its
timepoint alone. -/
theorem statistics_refreshed_every_third_step (eng : EngineBehaviour)
    (hq : ∀ k c, eng.raises k c = none) (w : EngineWorker) (h0 : w.statisticsCounter = 0)
    (steps : List Step) :
    (((System.start w).run eng steps).workerPc ≠ .refreshStatistics →
      System.workerStepsAt eng .refreshStatistics (System.start w) steps
          = System.workerStepsAt eng .calcStep (System.start w) steps / 3 ∧
        ((System.start w).run eng steps).worker.statisticsCounter
          = ((System.workerStepsAt eng .calcStep (System.start w) steps % 3 : Nat) : Int)) ∧
      (((System.start w).run eng steps).workerPc = .refreshStatistics →
        System.workerStepsAt eng .refreshStatistics (System.start w) steps + 1
            = System.workerStepsAt eng .calcStep (System.start w) steps / 3 ∧
          System.workerStepsAt eng .calcStep (System.start w) steps % 3 = 0 ∧
          ((System.start w).run eng steps).worker.statisticsCounter = 3) ∧
      (∀ (s : System) (now : Int), s.workerPc = .calcStep →
        (s.workerStep eng now).worker.engineLog
            = s.worker.engineLog ++ [⟨.worker, .calcTimestep, s.worker.accessState⟩] ∧
          (s.workerStep eng now).worker.statisticsCounter = s.worker.statisticsCounter + 1 ∧
          (s.workerStep eng now).workerPc
            = if s.worker.statisticsCounter + 1 = 3 then .refreshStatistics else .measure) ∧
      (∀ (s : System) (now : Int), s.workerPc = .refreshStatistics →
        s.workerStep eng now
          = { worker := { (s.worker.updateStatistics eng .worker true now).1 with
                            statisticsCounter := 0 },
              workerPc := .measure, callerPc := s.callerPc }) ∧
      (∀ (s : System) (now : Int), s.workerPc = .refreshStatistics →
        (s.worker.lastStatisticsUpdateTime = none ∨
          ∃ last, s.worker.lastStatisticsUpdateTime = some last ∧ now - last > 30000) →
        (s.workerStep eng now).worker.lastStatistics
            = eng.statistics s.worker.engineLog.length ∧
          (s.workerStep eng now).worker.lastStatisticsUpdateTime = some now ∧
          (s.workerStep eng now).worker.engineLog
            = s.worker.engineLog ++ [⟨.worker, .getStatistics, s.worker.accessState⟩]) ∧
      (∀ (s : System) (now last : Int), s.workerPc = .refreshStatistics →
        s.worker.lastStatisticsUpdateTime = some last → now - last ≤ 30000 →
        s.workerStep eng now
          = { worker := { s.worker with statisticsCounter := 0 },
              workerPc := .measure, callerPc := s.callerPc }) ∧
      (∀ (s : System) (now : Int), s.workerPc ≠ .refreshStatistics →
        (s.workerStep eng now).worker.lastStatistics = s.worker.lastStatistics ∧
          (s.workerStep eng now).worker.lastStatisticsUpdateTime
            = s.worker.lastStatisticsUpdateTime) := by
  have hstart : System.Counted (System.start w) 0 0 := by
    refine ⟨?_, fun hp => (by cases hp), fun _ => ?_⟩
    · show ((0 : Nat) : Int) = 3 * ((0 : Nat) : Int) + w.statisticsCounter
      rw [h0]; rfl
    · show 0 ≤ w.statisticsCounter ∧ w.statisticsCounter ≤ 2
      rw [h0]; decide
  have h := System.run_counted eng hq steps (System.start w) 0 0 hstart
  rw [Nat.zero_add, Nat.zero_add] at h
  have ht := h.total
  refine ⟨fun hp => ?_, fun hp => ?_,
    fun s now hpc => System.workerStep_simulationStep eng hq now s hpc,
    fun s now hpc => System.workerStep_refresh eng hq now s hpc,
    fun s now hpc hdue => ?_, fun s now last hpc hl hr => ?_,
    fun s now hpc => System.workerStep_snapshot eng now s hpc⟩
  · have hs := h.settled hp
    constructor
    · omega
    · omega
  · have hs := h.pending hp
    refine ⟨?_, ?_, hs⟩
    · omega
    · omega
  · have hret := EngineWorker.updateStatistics_returns_quiet eng hq .worker true now s.worker
    have hd := EngineWorker.updateStatistics_due eng .worker true now s.worker
      (s.worker.updateStatistics eng .worker true now).1 (Or.inr hdue) (Prod.ext rfl hret)
    rw [System.workerStep_refresh eng hq now s hpc]
    refine ⟨?_, ?_, ?_⟩
    · show (s.worker.updateStatistics eng .worker true now).1.lastStatistics = _
      rw [hd]
    · show (s.worker.updateStatistics eng .worker true now).1.lastStatisticsUpdateTime = _
      rw [hd]
    · show (s.worker.updateStatistics eng .worker true now).1.engineLog = _
      rw [hd, EngineWorker.callEngine_quiet eng hq]
  · rw [System.workerStep_refresh eng hq now s hpc,
      EngineWorker.updateStatistics_not_due eng .worker now s.worker last hl hr]

/-- Thirty-six steps of the worker alone with the simulation running: the
fourth iteration has taken its step, so four simulation steps were taken, and
one refresh was made, after the third; the counter is 1, the snapshot is the
one the engine gave as its fourth call, and the engine was called for three
steps, the statistics, and one more step. -/
theorem statistics_refreshed_every_third_step_witness :
    System.workerStepsAt EngineBehaviour.quiet .calcStep
        (System.start { isSimulationRunning := true }) (List.replicate 36 (Step.worker 0)) = 4 ∧
      ((System.start { isSimulationRunning := true }).run EngineBehaviour.quiet
          (List.replicate 36 (Step.worker 0))).worker.lastStatistics = ⟨3⟩ ∧
      callsOf ((System.start { isSimulationRunning := true }).run EngineBehaviour.quiet
          (List.replicate 36 (Step.worker 0))).worker.engineLog
        = [.calcTimestep, .calcTimestep, .calcTimestep, .getStatistics, .calcTimestep] ∧
      System.workerStepsAt EngineBehaviour.quiet .refreshStatistics
        (System.start { isSimulationRunning := true }) (List.replicate 36 (Step.worker 0))
          = System.workerStepsAt EngineBehaviour.quiet .calcStep
              (System.start { isSimulationRunning := true })
              (List.replicate 36 (Step.worker 0)) / 3 ∧
      ((System.start { isSimulationRunning := true }).run EngineBehaviour.quiet
          (List.replicate 36 (Step.worker 0))).worker.statisticsCounter
        = ((System.workerStepsAt EngineBehaviour.quiet .calcStep
              (System.start { isSimulationRunning := true })
              (List.replicate 36 (Step.worker 0)) % 3 : Nat) : Int) :=
  ⟨by decide, by decide, by decide,
    (statistics_refreshed_every_third_step EngineBehaviour.quiet (fun _ _ => rfl)
      { isSimulationRunning := true } rfl (List.replicate 36 (Step.worker 0))).1 (by decide)⟩

namespace EngineWorker

theorem waitAndAllowAccess_pass (duration start : Int) (p : WaitPoll) (rest : List WaitPoll)
    (w : EngineWorker) :
    waitAndAllowAccess duration start (p :: rest) w
      = if p.now - start < duration then waitAndAllowAccess duration start rest (w.waitPass p)
        else some w := by
  rw [waitAndAllowAccess]
  split
  · cases hs : p.stored <;> simp only [waitPass, hs]
  · rfl

theorem waitAndAllowAccess_passes (duration start : Int) (p : WaitPoll) (after : List WaitPoll)
    (hp : ¬ p.now - start < duration) :
    ∀ (before : List WaitPoll) (w : EngineWorker),
      (∀ q ∈ before, q.now - start < duration) →
      waitAndAllowAccess duration start (before ++ p :: after) w
        = some (before.foldl waitPass w) := by
  intro before
  induction before with
  | nil =>
    intro w _
    rw [List.nil_append, waitAndAllowAccess_pass, if_neg hp]
    rfl
  | cons q qs ih =>
    intro w h
    rw [List.cons_append, waitAndAllowAccess_pass, if_pos (h q (List.mem_cons_self q qs))]
    exact ih _ (fun r hr => h r (List.mem_cons_of_mem q hr))

theorem waitPass_grants (w : EngineWorker) (p : WaitPoll)
    (h : (match p.stored with
          | some v => { w with accessState := v }
          | none => w).accessState = 1) :
    (w.waitPass p).accessState = 2 := by
  unfold waitPass grantAccess
  rw [if_pos h]

theorem waitPass_keeps_grant :
    ∀ (polls : List WaitPoll) (w : EngineWorker), w.accessState = 2 →
      (∀ r ∈ polls, r.stored = none) → (polls.foldl waitPass w).accessState = 2 := by
  intro polls
  induction polls with
  | nil => intro w h _; exact h
  | cons q qs ih =>
    intro w h hs
    rw [List.foldl_cons]
    apply ih _ _ (fun r hr => hs r (List.mem_cons_of_mem q hr))
    have hq : q.stored = none := hs q (List.mem_cons_self q qs)
    unfold waitPass grantAccess
    rw [hq]
    simp only []
    rw [if_neg (by rw [h]; decide)]
    exact h

end EngineWorker

/-- C27: `waitAndAllowAccess` returns at the first clock reading whose elapsed
time is not below the duration, having run the loop body once for every earlier
reading. A pass of the body that finds the flag at 1 leaves it at 2, and when no
other thread stores to the flag in the passes that follow, the flag is 2 when the
wait returns. With a duration of zero or less the first reading, taken no
earlier than the start, already ends the wait: the body is not run and the
worker object is returned as it was. -/
theorem waitAndAllowAccess_services_gate (duration start : Int) (before after : List WaitPoll)
    (p : WaitPoll) (w : EngineWorker)
    (hbefore : ∀ q ∈ before, q.now - start < duration)
    (hp : ¬ p.now - start < duration) :
    EngineWorker.waitAndAllowAccess duration start (before ++ p :: after) w
        = some (before.foldl EngineWorker.waitPass w) ∧
      (∀ (l1 l2 : List WaitPoll) (q : WaitPoll), before = l1 ++ q :: l2 →
        (match q.stored with
          | some v => { l1.foldl EngineWorker.waitPass w with accessState := v }
          | none => l1.foldl EngineWorker.waitPass w).accessState = 1 →
        ((l1.foldl EngineWorker.waitPass w).waitPass q).accessState = 2 ∧
          ((∀ r ∈ l2, r.stored = none) →
            ∃ w1, EngineWorker.waitAndAllowAccess duration start (before ++ p :: after) w = some w1 ∧
              w1.accessState = 2)) ∧
      (∀ (q : WaitPoll) (polls : List WaitPoll) (u : EngineWorker), duration ≤ 0 →
        start ≤ q.now →
        EngineWorker.waitAndAllowAccess duration start (q :: polls) u = some u) := by
  have hret := EngineWorker.waitAndAllowAccess_passes duration start p after hp before w hbefore
  refine ⟨hret, fun l1 l2 q hsplit hread => ?_, fun q polls u hd hq => ?_⟩
  · have hg := EngineWorker.waitPass_grants (l1.foldl EngineWorker.waitPass w) q hread
    refine ⟨hg, fun hquiet => ⟨_, hret, ?_⟩⟩
    rw [hsplit, List.foldl_append, List.foldl_cons]
    exact EngineWorker.waitPass_keeps_grant l2 _ hg hquiet
  · rw [EngineWorker.waitAndAllowAccess_pass, if_neg (by omega)]

/-- A wait of 100 µs started at 1000: the caller requests before the second
pass, the pass grants, and the wait returns at the reading 1100 with the flag
at 2. -/
theorem waitAndAllowAccess_services_gate_witness :
    EngineWorker.waitAndAllowAccess 100 1000 [⟨1010, none⟩, ⟨1050, some 1⟩, ⟨1090, none⟩, ⟨1100, none⟩, ⟨1200, none⟩] {}
        = some { accessState := 2 } ∧
      ∃ w1, EngineWorker.waitAndAllowAccess 100 1000
          ([⟨1010, none⟩, ⟨1050, some 1⟩, ⟨1090, none⟩] ++ ⟨1100, none⟩ :: [⟨1200, none⟩]) {} = some w1 ∧
        w1.accessState = 2 :=
  ⟨rfl,
    ((waitAndAllowAccess_services_gate 100 1000 [⟨1010, none⟩, ⟨1050, some 1⟩, ⟨1090, none⟩]
      [⟨1200, none⟩] ⟨1100, none⟩ {} (by decide) (by decide)).2.1
        [⟨1010, none⟩] [⟨1090, none⟩] ⟨1050, some 1⟩ rfl rfl).2 (by decide)⟩

theorem EngineWorkerGuard.pollLoop_threw_requested (maxDuration : Option Int) (start : Int)
    (init : Bool) (m : String) (w1 : EngineWorker) :
    ∀ (polls : List Poll) (w : EngineWorker), w.accessState = 1 →
      EngineWorkerGuard.pollLoop maxDuration start init polls w = .threw m w1 → w1 = w := by
  intro polls
  induction polls with
  | nil => intro w _ h; cases h
  | cons p rest ih =>
    intro w hw h
    rw [EngineWorkerGuard.pollLoop_cons] at h
    cases hp : p.workerGrants with
    | true =>
      have hg : w.grantAccess.accessState = 2 := by
        unfold EngineWorker.grantAccess
        rw [if_pos hw]
      simp only [hp, if_true, EngineWorkerGuard.poll, hg] at h
      simp only [show ¬ ((2 : Int) = 1) by decide, if_false] at h
      cases h
    | false =>
      simp only [hp, Bool.false_eq_true, if_false] at h
      split at h
      · exact ih w hw h
      · cases h
      · cases h
        rfl

/-- C28: when the constructor without `maxDuration` raises "GPU worker thread is
not reachable.", the worker object at the exception is the one the constructor
was entered with, except that the flag is 1: the store of 1 was made and nothing
has reset it. A gated operation entered with that clock raises the same error
with the same worker object, its body and the destructor not having run. The
flag being 1, the next grant of the worker makes it 2: in the interleaving the
caller is idle after the failed poll, the worker goes from its test to the store,
and the store leaves the flag at 2 with the caller still idle. -/
theorem hard_timeout_leaves_request_pending (isTimeoutInit : Bool) (clock : GateClock)
    (w w1 : EngineWorker)
    (h : EngineWorkerGuard.construct isTimeoutInit none clock w
      = .threw "GPU worker thread is not reachable." w1) :
    w1 = { w with accessState := 1 } ∧ w1.accessState = 1 ∧
      (∀ (body : EngineWorkerGuard → EngineWorker → Outcome Unit),
        EngineWorker.withGuard isTimeoutInit none clock body w
          = .threw "GPU worker thread is not reachable." w1) ∧
      w1.grantAccess.accessState = 2 ∧
      (∀ (eng : EngineBehaviour) (a : CallerAction) (start now : Int) (pc : WorkerPc),
        now - start > 7000000 →
        System.callerStep eng a now ⟨w1, pc, .polling none start⟩ = ⟨w1, pc, .idle⟩) ∧
      (∀ (eng : EngineBehaviour) (now : Int),
        System.workerStep eng now ⟨w1, .grantCheck, .idle⟩ = ⟨w1, .grantWrite, .idle⟩ ∧
          System.workerStep eng now ⟨w1, .grantWrite, .idle⟩
            = ⟨{ w1 with accessState := 2 }, .loopHead, .idle⟩) := by
  have hw : w.errorMessage = none := by
    cases he : w.errorMessage with
    | none => rfl
    | some m =>
      have hc : EngineWorkerGuard.checkForException w
          = some EngineWorkerGuard.invalidStateMessage := by
        unfold EngineWorkerGuard.checkForException
        rw [he]
      unfold EngineWorkerGuard.construct at h
      rw [hc] at h
      simp only [Outcome.threw.injEq] at h
      exact absurd h.1 (by decide)
  have h1 : w1 = { w with accessState := 1 } := by
    rw [EngineWorkerGuard.construct_of_clear _ _ _ _ hw] at h
    exact EngineWorkerGuard.pollLoop_threw_requested none clock.startTimepoint isTimeoutInit _ w1
      clock.polls _ rfl h
  have hf : w1.accessState = 1 := by rw [h1]
  refine ⟨h1, hf, fun body => ?_, ?_, fun eng a start now pc hlate => ?_, fun eng now => ⟨?_, rfl⟩⟩
  · unfold EngineWorker.withGuard
    rw [h]
  · unfold EngineWorker.grantAccess
    rw [if_pos hf]
  · simp only [System.callerStep, hf, EngineWorkerGuard.poll_hard_raise start now hlate]
  · simp only [System.workerStep, hf, if_true, System.goto]

/-- A worker that never grants: the poll at 7 s and one microsecond raises, and
the worker object at the exception has the flag at 1. -/
theorem hard_timeout_leaves_request_pending_witness :
    EngineWorkerGuard.construct false none ⟨0, [⟨false, 3000000⟩, ⟨false, 7000001⟩]⟩ {}
        = .threw "GPU worker thread is not reachable." { accessState := 1 } ∧
      ({ accessState := 1 } : EngineWorker).accessState = 1 :=
  ⟨rfl, (hard_timeout_leaves_request_pending false ⟨0, [⟨false, 3000000⟩, ⟨false, 7000001⟩]⟩ {}
    { accessState := 1 } rfl).2.1⟩

theorem EngineWorker.overshot_bounds (td dd : Int) (hdd : 0 ≤ dd) :
    0 ≤ EngineWorker.overshot td dd ∧ EngineWorker.overshot td dd ≤ dd ∧
      (td < dd → EngineWorker.overshot td dd = 0) := by
  unfold EngineWorker.overshot
  refine ⟨?_, ?_, fun h => ?_⟩ <;> omega

/-- C29: a call of `slowdownTPS` with a previous timepoint, the simulation
running and a target rate `r > 0` that has returned has stored an overshoot `o`
with `0 ≤ o ≤ 1000000 / r`; `o` is 0 when the call waited, that is when the
desired duration exceeded the time since the previous timepoint plus the carried
overshoot; for `r > 1000000` the desired duration is 0 and `o` is 0. The call
returns once a reading of its wait has reached the difference, and without any
such reading when there is nothing to wait for. -/
theorem slowdownTPS_overshoot_bounded (w : EngineWorker) (clock : SlowdownClock) (previous : Int)
    (hprev : w.slowDownTimepoint = some previous) (hrun : w.isSimulationRunning = true)
    (hr : 0 < w.tpsRestriction) :
    (∀ w1, w.slowdownTPS clock = some w1 →
      ∃ o, w1.slowDownOvershot = some o ∧ 0 ≤ o ∧ o ≤ 1000000 / w.tpsRestriction ∧
        (EngineWorker.desiredDuration w.tpsRestriction
            > EngineWorker.timestepDuration clock.entry previous w → o = 0) ∧
        (1000000 < w.tpsRestriction →
          EngineWorker.desiredDuration w.tpsRestriction = 0 ∧ o = 0)) ∧
      (((∃ p ∈ clock.waitPolls,
          EngineWorker.desiredDuration w.tpsRestriction
            - EngineWorker.timestepDuration clock.entry previous w ≤ p.now - clock.waitStart) ∨
        EngineWorker.desiredDuration w.tpsRestriction
          ≤ EngineWorker.timestepDuration clock.entry previous w) →
        ∃ w1, w.slowdownTPS clock = some w1) := by
  have hdd := EngineWorker.desiredDuration_pos w.tpsRestriction hr
  have hnn : 0 ≤ EngineWorker.desiredDuration w.tpsRestriction := by
    rw [hdd]
    exact Int.ediv_nonneg (by decide) (le_of_lt hr)
  have hb := EngineWorker.overshot_bounds (EngineWorker.timestepDuration clock.entry previous w)
    (EngineWorker.desiredDuration w.tpsRestriction) hnn
  constructor
  · intro w1 h
    rw [EngineWorker.slowdownTPS_throttled clock w previous hprev hrun hr] at h
    simp only [Option.map_eq_some'] at h
    rcases h with ⟨wa, ⟨wb, _, hwa⟩, hw1⟩
    subst hwa
    subst hw1
    refine ⟨_, rfl, hb.1, hdd ▸ hb.2.1, fun hwait => hb.2.2 hwait, fun hbig => ?_⟩
    have hz : EngineWorker.desiredDuration w.tpsRestriction = 0 := by
      rw [hdd]
      exact Int.ediv_eq_zero_of_lt (by decide) hbig
    refine ⟨hz, ?_⟩
    have h1 := hb.1
    have h2 := hb.2.1
    omega
  · intro hready
    rw [EngineWorker.slowdownTPS_throttled clock w previous hprev hrun hr]
    by_cases hw : EngineWorker.desiredDuration w.tpsRestriction
        > EngineWorker.timestepDuration clock.entry previous w
    · rcases hready with hready | hready
      · rcases EngineWorker.waitAndAllowAccess_returns _ clock.waitStart clock.waitPolls w hready
          with ⟨w0, h0⟩
        simp only [if_pos hw, h0, Option.map_some']
        exact ⟨_, rfl⟩
      · omega
    · simp only [if_neg hw, Option.map_some']
      exact ⟨_, rfl⟩

/-- A target rate of 100 steps per second (10000 µs per step): a step that took
25000 µs leaves an overshoot of 10000, not 15000; a step that took 4000 µs waits
and leaves an overshoot of 0. -/
theorem slowdownTPS_overshoot_bounded_witness :
    (EngineWorker.slowdownTPS ⟨25000, 25000, [], 25001⟩
        { slowDownTimepoint := some 0, isSimulationRunning := true, tpsRestriction := 100 }
      = some { slowDownTimepoint := some 25001, isSimulationRunning := true, tpsRestriction := 100,
               slowDownOvershot := some 10000 }) ∧
      (EngineWorker.slowdownTPS ⟨4000, 4000, [⟨4001, none⟩, ⟨10000, none⟩], 10001⟩
        { slowDownTimepoint := some 0, isSimulationRunning := true, tpsRestriction := 100 }
      = some { slowDownTimepoint := some 10001, isSimulationRunning := true, tpsRestriction := 100,
               slowDownOvershot := some 0 }) ∧
      ∃ o, ({ slowDownTimepoint := some 25001, isSimulationRunning := true, tpsRestriction := 100,
              slowDownOvershot := some 10000 } : EngineWorker).slowDownOvershot = some o ∧
        0 ≤ o ∧ o ≤ 1000000 / 100 :=
  ⟨rfl, rfl,
    match (slowdownTPS_overshoot_bounded
      { slowDownTimepoint := some 0, isSimulationRunning := true, tpsRestriction := 100 }
      ⟨25000, 25000, [], 25001⟩ 0 rfl rfl (by decide)).1 _ rfl with
    | ⟨o, h1, h2, h3, _⟩ => ⟨o, h1, h2, h3⟩⟩

namespace EngineWorker

theorem calcTimesteps_one_quiet (eng : EngineBehaviour) (hq : ∀ k c, eng.raises k c = none)
    (isTimeoutInit : Bool) (start : Int) (p : Poll) (rest : List Poll) (statisticsNow : Int)
    (w : EngineWorker) (hw : w.errorMessage = none) (hgrant : p.workerGrants = true) :
    ∃ w1, calcTimesteps eng isTimeoutInit ⟨start, p :: rest⟩ statisticsNow 1 w = .returned () w1 ∧
      w1.engineLog = w.engineLog ++ nestedStepEvents ∧
      w1.cudaSimulation = w.cudaSimulation.map (fun e => ⟨e.currentTimestep + 1⟩) ∧
      w1.accessState = 0 ∧ w1.errorMessage = none ∧
      w1.isSimulationRunning = w.isSimulationRunning ∧ w1.tpsRestriction = w.tpsRestriction ∧
      w1.slowDownTimepoint = w.slowDownTimepoint ∧ w1.slowDownOvershot = w.slowDownOvershot := by
  unfold calcTimesteps withGuard
  rw [EngineWorkerGuard.construct_granted isTimeoutInit none start p rest w hw hgrant]
  simp only [calcTimestepLoop, callEngine_quiet eng hq, updateStatistics, afterMinDurationDefault,
    Bool.not_false, Bool.true_or, if_true, Outcome.ofCall]
  refine ⟨_, rfl, ?_, ?_, rfl, hw, rfl, rfl, rfl, rfl⟩
  · simp [EngineWorkerGuard.destruct, nestedStepEvents]
  · show Option.map _ (Option.map _ w.cudaSimulation) = _
    cases w.cudaSimulation <;> rfl

theorem measureTPS_frame (now : Int) (w : EngineWorker) :
    (w.measureTPS now).engineLog = w.engineLog ∧
      (w.measureTPS now).cudaSimulation = w.cudaSimulation ∧
      (w.measureTPS now).accessState = w.accessState ∧
      (w.measureTPS now).errorMessage = w.errorMessage ∧
      (w.measureTPS now).isSimulationRunning = w.isSimulationRunning ∧
      (w.measureTPS now).tpsRestriction = w.tpsRestriction ∧
      (w.measureTPS now).slowDownTimepoint = w.slowDownTimepoint ∧
      (w.measureTPS now).slowDownOvershot = w.slowDownOvershot := by
  unfold measureTPS
  split
  · cases w.measureTimepoint with
    | none => exact ⟨rfl, rfl, rfl, rfl, rfl, rfl, rfl, rfl⟩
    | some last =>
      simp only []
      split <;> exact ⟨rfl, rfl, rfl, rfl, rfl, rfl, rfl, rfl⟩
  · exact ⟨rfl, rfl, rfl, rfl, rfl, rfl, rfl, rfl⟩

theorem waitAndAllowAccess_alone (duration start : Int) :
    ∀ (polls : List WaitPoll) (w w1 : EngineWorker), w.accessState ≠ 1 →
      (∀ p ∈ polls, p.stored = none) →
      waitAndAllowAccess duration start polls w = some w1 → w1 = w := by
  intro polls
  induction polls with
  | nil => intro w w1 _ _ h; cases h
  | cons q qs ih =>
    intro w w1 hw hs h
    rw [waitAndAllowAccess_pass] at h
    have hq : w.waitPass q = w := by
      unfold waitPass grantAccess
      rw [hs q (List.mem_cons_self q qs)]
      simp only []
      rw [if_neg hw]
    rw [hq] at h
    split at h
    · exact ih w w1 hw (fun r hr => hs r (List.mem_cons_of_mem q hr)) h
    · cases h; rfl

theorem slowdownTPS_steady (clock : SlowdownClock) (w : EngineWorker)
    (hidle : w.accessState = 0)
    (hprev : ∀ t, w.slowDownTimepoint = some t → t ≤ clock.entry)
    (hcar : ∀ o, w.slowDownOvershot = some o → 0 ≤ o)
    (hwait : ∃ p ∈ clock.waitPolls, 1000000 ≤ p.now - clock.waitStart)
    (halone : ∀ p ∈ clock.waitPolls, p.stored = none) :
    ∃ w1, slowdownTPS clock w = some w1 ∧ w1.engineLog = w.engineLog ∧
      w1.cudaSimulation = w.cudaSimulation ∧ w1.accessState = 0 ∧
      w1.errorMessage = w.errorMessage ∧ w1.slowDownTimepoint = some clock.exit ∧
      (∀ o, w1.slowDownOvershot = some o → 0 ≤ o) := by
  by_cases hthr : w.tpsRestriction ≤ 0 ∨ w.isSimulationRunning = false ∨ w.slowDownTimepoint = none
  · exact ⟨_, slowdownTPS_unthrottled _ w hthr, rfl, rfl, hidle, rfl, rfl, hcar⟩
  · have hr : 0 < w.tpsRestriction := by
      by_contra hc
      exact hthr (Or.inl (by omega))
    have hrun : w.isSimulationRunning = true := by
      cases hb : w.isSimulationRunning with
      | true => rfl
      | false => exact absurd (Or.inr (Or.inl hb)) hthr
    cases hp : w.slowDownTimepoint with
    | none => exact absurd (Or.inr (Or.inr hp)) hthr
    | some previous =>
      have hdd := desiredDuration_pos w.tpsRestriction hr
      have hnn : 0 ≤ desiredDuration w.tpsRestriction := by
        rw [hdd]
        exact Int.ediv_nonneg (by decide) (le_of_lt hr)
      have hle : desiredDuration w.tpsRestriction ≤ 1000000 := by
        rw [hdd]
        exact Int.ediv_le_self _ (by decide)
      have hov := overshot_bounds (timestepDuration clock.entry previous w)
        (desiredDuration w.tpsRestriction) hnn
      have htd : 0 ≤ timestepDuration clock.entry previous w := by
        rw [timestepDuration_eq clock.entry previous w w.slowDownOvershot rfl]
        have h1 := hprev previous hp
        have h2 : 0 ≤ w.slowDownOvershot.getD 0 := by
          cases ho : w.slowDownOvershot with
          | none => exact le_refl _
          | some o => exact hcar o ho
        omega
      rw [slowdownTPS_throttled _ w previous hp hrun hr]
      by_cases hw : desiredDuration w.tpsRestriction > timestepDuration clock.entry previous w
      · rcases hwait with ⟨q, hq, hlate⟩
        rcases waitAndAllowAccess_returns
          (desiredDuration w.tpsRestriction - timestepDuration clock.entry previous w)
          clock.waitStart clock.waitPolls w ⟨q, hq, by omega⟩ with ⟨w0, h0⟩
        have hsame := waitAndAllowAccess_alone _ _ clock.waitPolls w w0
          (by rw [hidle]; decide) halone h0
        subst hsame
        simp only [if_pos hw, h0, Option.map_some']
        refine ⟨_, rfl, rfl, rfl, hidle, rfl, rfl, fun o ho => ?_⟩
        cases ho
        exact hov.1
      · simp only [if_neg hw, Option.map_some']
        refine ⟨_, rfl, rfl, rfl, hidle, rfl, rfl, fun o ho => ?_⟩
        cases ho
        exact hov.1

theorem syncLoop_steady (eng : EngineBehaviour) (hq : ∀ k c, eng.raises k c = none)
    (isTimeoutInit : Bool) (sync : Nat → SyncClock)
    (hgrant : ∀ i, ∃ p rest, (sync i).gate.polls = p :: rest ∧ p.workerGrants = true)
    (hlater : ∀ i, (sync i).slowdown.exit ≤ (sync (i + 1)).slowdown.entry)
    (hwaited : ∀ i, ∃ p ∈ (sync i).slowdown.waitPolls,
      1000000 ≤ p.now - (sync i).slowdown.waitStart)
    (halone : ∀ i, ∀ p ∈ (sync i).slowdown.waitPolls, p.stored = none) :
    ∀ (remaining i : Nat) (w : EngineWorker), w.errorMessage = none →
      (∀ t, w.slowDownTimepoint = some t → t ≤ (sync i).slowdown.entry) →
      (∀ o, w.slowDownOvershot = some o → 0 ≤ o) →
      ∃ w1, syncLoop eng isTimeoutInit sync remaining i w = .returned () w1 ∧
        w1.engineLog = w.engineLog ++ nestedEvents remaining ∧
        w1.cudaSimulation = w.cudaSimulation.map (fun e => ⟨e.currentTimestep + remaining⟩) ∧
        (w.accessState = 0 ∨ 0 < remaining → w1.accessState = 0) := by
  intro remaining
  induction remaining with
  | zero =>
    intro i w _ _ _
    refine ⟨w, rfl, (List.append_nil _).symm, ?_, fun h => ?_⟩
    · cases w.cudaSimulation <;> rfl
    · rcases h with h | h
      · exact h
      · exact absurd h (by decide)
  | succ k ih =>
    intro i w hw hprev hcar
    rcases hgrant i with ⟨p, rest, hpolls, hp⟩
    have hgate : (sync i).gate = ⟨(sync i).gate.startTimepoint, p :: rest⟩ := by
      rw [← hpolls]
    rcases calcTimesteps_one_quiet eng hq isTimeoutInit (sync i).gate.startTimepoint p rest
      (sync i).statistics w hw hp with ⟨w1, h1, hlog1, hcuda1, hidle1, herr1, _, _, hprev1, hcar1⟩
    have hm := measureTPS_frame (sync i).measure w1
    rcases slowdownTPS_steady (sync i).slowdown (measureTPS (sync i).measure w1)
      (hm.2.2.1.trans hidle1)
      (fun t ht => hprev t (by rw [← hprev1, ← hm.2.2.2.2.2.2.1]; exact ht))
      (fun o ho => hcar o (by rw [← hcar1, ← hm.2.2.2.2.2.2.2]; exact ho))
      (hwaited i) (halone i) with ⟨w2, h2, hlog2, hcuda2, hidle2, herr2, hstamp2, hcar2⟩
    rcases ih (i + 1) w2 (by rw [herr2, hm.2.2.2.1, herr1])
      (fun t ht => by
        rw [hstamp2] at ht
        cases ht
        exact hlater i)
      hcar2 with ⟨w3, h3, hlog3, hcuda3, hidle3⟩
    refine ⟨w3, ?_, ?_, ?_, fun _ => hidle3 (Or.inl hidle2)⟩
    · rw [syncLoop, hgate] at *
      rw [h1]
      simp only []
      rw [h2]
      exact h3
    · rw [hlog3, hlog2, hm.1, hlog1, List.append_assoc]
      rfl
    · rw [hcuda3, hcuda2, hm.2.1, hcuda1]
      cases w.cudaSimulation with
      | none => rfl
      | some e =>
        show some (CudaSimulationFacade.mk (e.currentTimestep + 1 + k)) = some ⟨e.currentTimestep + (k + 1)⟩
        rw [Nat.add_assoc, Nat.add_comm 1 k]

end EngineWorker

namespace EngineWorker

theorem callEngine_syncSimulationWithRendering (eng : EngineBehaviour) (t : Thread) (c : EngineCall)
    (w : EngineWorker) : (w.callEngine eng t c).1.syncSimulationWithRendering = w.syncSimulationWithRendering := by
  unfold callEngine
  cases eng.raises w.engineLog.length c <;> rfl

theorem updateStatistics_syncSimulationWithRendering (eng : EngineBehaviour) (t : Thread) (b : Bool)
    (now : Int) (w : EngineWorker) :
    (w.updateStatistics eng t b now).1.syncSimulationWithRendering = w.syncSimulationWithRendering := by
  unfold updateStatistics
  have h := callEngine_syncSimulationWithRendering eng t .getStatistics w
  revert h
  generalize w.callEngine eng t .getStatistics = r
  rcases r with ⟨w1, _ | m⟩ <;> intro h <;> simp only [] <;> split
  all_goals first
    | rfl
    | exact h

theorem applyForceLoop_syncSimulationWithRendering (eng : EngineBehaviour) (jobs : List ApplyForceJob) :
    ∀ w : EngineWorker, (applyForceLoop eng jobs w).1.syncSimulationWithRendering = w.syncSimulationWithRendering := by
  induction jobs with
  | nil => intro w; rfl
  | cons job rest ih =>
    intro w
    unfold applyForceLoop
    have h := callEngine_syncSimulationWithRendering eng .worker (.applyForce (forceData job)) w
    revert h
    generalize w.callEngine eng .worker (.applyForce (forceData job)) = r
    rcases r with ⟨w1, _ | m⟩ <;> intro h <;> simp only []
    · exact (ih w1).trans h
    · exact h

theorem drainForces_syncSimulationWithRendering (eng : EngineBehaviour) (w : EngineWorker) :
    (if w.applyForceJobs.isEmpty then (w, (none : Option String))
      else
        match applyForceLoop eng w.applyForceJobs w with
        | (w2, some m) => (w2, some m)
        | (w2, none) => ({ w2 with applyForceJobs := [] }, none)).1.syncSimulationWithRendering
      = w.syncSimulationWithRendering := by
  split
  · rfl
  · have h := applyForceLoop_syncSimulationWithRendering eng w.applyForceJobs w
    revert h
    generalize applyForceLoop eng w.applyForceJobs w = r
    rcases r with ⟨w2, _ | m⟩ <;> intro h <;> exact h

theorem processJobs_syncSimulationWithRendering (eng : EngineBehaviour) (w : EngineWorker) :
    (w.processJobs eng).1.syncSimulationWithRendering = w.syncSimulationWithRendering := by
  unfold processJobs
  cases hs : w.updateGpuSettingsJob with
  | none => exact drainForces_syncSimulationWithRendering eng w
  | some settings =>
    simp only []
    have h := callEngine_syncSimulationWithRendering eng .worker (.setGpuConstants settings) w
    revert h
    generalize w.callEngine eng .worker (.setGpuConstants settings) = r
    rcases r with ⟨w1, _ | m⟩ <;> intro h <;> simp only []
    · exact (drainForces_syncSimulationWithRendering eng { w1 with updateGpuSettingsJob := none }).trans h
    · exact h

theorem newSimulation_syncSimulationWithRendering (eng : EngineBehaviour) (timestep : Nat) (now : Int)
    (w : EngineWorker) :
    (w.newSimulation eng timestep now).1.syncSimulationWithRendering = w.syncSimulationWithRendering := by
  have tail : ∀ w1 : EngineWorker,
      (match (match w1.imageResource with
          | some _ => w1.callEngine eng .caller .registerImageResource
          | none => (w1, none)) with
        | (w2, some m) => (w2, some m)
        | (w2, none) => w2.updateStatistics eng .caller afterMinDurationDefault now).1.syncSimulationWithRendering
        = w1.syncSimulationWithRendering := by
    intro w1
    cases w1.imageResource with
    | none => exact updateStatistics_syncSimulationWithRendering eng .caller _ now w1
    | some img =>
      simp only []
      have h := callEngine_syncSimulationWithRendering eng .caller .registerImageResource w1
      revert h
      generalize callEngine eng .caller .registerImageResource w1 = r
      rcases r with ⟨w2, _ | m⟩ <;> intro h <;> simp only []
      · exact (updateStatistics_syncSimulationWithRendering eng .caller _ now w2).trans h
      · exact h
  exact tail { w with accessState := 0, cudaSimulation := some ⟨timestep⟩ }

end EngineWorker

namespace System

theorem ungated_syncSimulationWithRendering (eng : EngineBehaviour) (now : Int)
    (w w1 : EngineWorker) (a : CallerAction) (h : ungated eng now w a = some w1)
    (ha : a ≠ .setSyncSimulationWithRendering false) (hs : w.syncSimulationWithRendering = true) :
    w1.syncSimulationWithRendering = true := by
  cases a <;> simp only [ungated, Option.some.injEq, reduceCtorEq] at h <;> subst h
  · exact (EngineWorker.newSimulation_syncSimulationWithRendering eng _ now w).trans hs
  · exact hs
  · exact hs
  · exact hs
  · exact hs
  · rename_i value
    cases value with
    | true => rfl
    | false => exact absurd rfl ha
  · exact hs
  · exact hs
  · exact hs
  · exact (EngineWorker.callEngine_syncSimulationWithRendering eng .caller
      .setSimulationParameters w).trans hs

theorem callerStep_syncSimulationWithRendering (eng : EngineBehaviour) (a : CallerAction)
    (now : Int) (s : System) (ha : a ≠ .setSyncSimulationWithRendering false)
    (hs : s.worker.syncSimulationWithRendering = true) :
    (s.callerStep eng a now).worker.syncSimulationWithRendering = true := by
  rcases s with ⟨w, pc, cpc⟩
  cases cpc with
  | requesting md => exact hs
  | polling md st =>
    simp only [callerStep]
    split <;> exact hs
  | idle =>
    simp only [callerStep]
    split
    · split <;> exact hs
    · split
      · rename_i w1 hu
        exact ungated_syncSimulationWithRendering eng now w w1 _ hu ha hs
      · exact hs
  | holding =>
    simp only [callerStep]
    split
    · exact hs
    · have hk := EngineWorker.callEngine_syncSimulationWithRendering eng .caller ‹EngineCall› w
      split
      · rename_i w1 _ hc
        rw [hc] at hk
        exact hk.trans hs
      · rename_i w1 hc
        rw [hc] at hk
        exact hk.trans hs
    · exact hs
    · split
      · rename_i w1 hu
        exact ungated_syncSimulationWithRendering eng now w w1 _ hu ha hs
      · exact hs

theorem workerStep_synced (eng : EngineBehaviour) (now : Int) (s : System)
    (hs : s.worker.syncSimulationWithRendering = true) (hpc : s.workerPc.inStepBranch = false) :
    (s.workerStep eng now).worker.syncSimulationWithRendering = true ∧
      (s.workerStep eng now).workerPc.inStepBranch = false := by
  rcases s with ⟨w, pc, cpc⟩
  have hs1 : w.syncSimulationWithRendering = true := hs
  cases pc <;> try (exact Bool.noConfusion (show true = false from hpc))
  case loopHead =>
    simp only [workerStep]
    split <;> exact ⟨hs, rfl⟩
  case checkSync =>
    simp only [workerStep, hs1, Bool.not_true, Bool.false_eq_true, if_false]
    exact ⟨hs, rfl⟩
  case jobs =>
    simp only [workerStep]
    have hk := EngineWorker.processJobs_syncSimulationWithRendering eng w
    revert hk
    generalize w.processJobs eng = r
    rcases r with ⟨w1, _ | m⟩ <;> intro hk
    · exact ⟨hk.trans hs, rfl⟩
    · exact ⟨hk.trans hs, rfl⟩
  case grantCheck =>
    simp only [workerStep]
    split <;> exact ⟨hs, rfl⟩
  case grantWrite => exact ⟨hs, rfl⟩
  case exited => exact ⟨hs, rfl⟩

theorem run_synced (eng : EngineBehaviour) (pc : WorkerPc) (hpc : pc.inStepBranch = true)
    (steps : List Step) :
    ∀ s : System, s.worker.syncSimulationWithRendering = true → s.workerPc.inStepBranch = false →
      (∀ a now, Step.caller a now ∈ steps → a ≠ .setSyncSimulationWithRendering false) →
      workerStepsAt eng pc s steps = 0 := by
  induction steps with
  | nil => intro s _ _ _; rfl
  | cons st rest ih =>
    intro s hs hin hno
    have hne : s.workerPc ≠ pc := by
      intro he
      rw [he, hpc] at hin
      cases hin
    cases st with
    | worker now =>
      have h1 := workerStep_synced eng now s hs hin
      have h2 := ih (s.workerStep eng now) h1.1 h1.2
        (fun a t hm => hno a t (List.mem_cons_of_mem _ hm))
      simp only [workerStepsAt, step, if_neg hne, Nat.zero_add]
      exact h2
    | caller a now =>
      have ha := hno a now (List.mem_cons_self _ _)
      have h2 := ih (s.callerStep eng a now)
        (callerStep_syncSimulationWithRendering eng a now s ha hs)
        (by rw [callerStep_workerPc]; exact hin)
        (fun a t hm => hno a t (List.mem_cons_of_mem _ hm))
      simp only [workerStepsAt, step, Nat.zero_add]
      exact h2

end System

/-- C30 as stated fails for a ratio of 2: after the first nested
`calcTimesteps(1)` and the measurement and throttle that follow it the flag is
0, the outer guard still being held; the second nested `calcTimesteps(1)` then
requests and is granted again, and its `calcTimestep` and `getStatistics` are
made with the flag at 2, inside the same outer critical section. -/
theorem nested_guard_granted_again_in_outer_section :
    (EngineWorker.syncLoop EngineBehaviour.quiet false
        (fun _ => ⟨⟨0, [⟨true, 1⟩]⟩, 0, 0, ⟨0, 0, [], 0⟩⟩) 1 0
        { syncSimulationWithRendering := true, isSimulationRunning := true,
          syncSimulationWithRenderingRatio := 2, accessState := 2,
          engineLog := [⟨.caller, .drawVectorGraphics, 2⟩] }).worker.accessState = 0 ∧
      (EngineWorker.tryDrawVectorGraphics EngineBehaviour.quiet false ⟨0, [⟨true, 1⟩]⟩
        (fun _ => ⟨⟨0, [⟨true, 1⟩]⟩, 0, 0, ⟨0, 0, [], 0⟩⟩)
        { syncSimulationWithRendering := true, isSimulationRunning := true,
          syncSimulationWithRenderingRatio := 2 }).worker.engineLog
        = [⟨.caller, .drawVectorGraphics, 2⟩,
           ⟨.caller, .calcTimestep, 2⟩, ⟨.caller, .getStatistics, 2⟩,
           ⟨.caller, .calcTimestep, 2⟩, ⟨.caller, .getStatistics, 2⟩] := by
  constructor
  · decide
  · decide

/-- C30, amended: with an engine that does not raise, no fault recorded,
sync-simulation-with-rendering enabled, the simulation running, ratio `r ≥ 1`,
every acquire granted at its first poll and a steady clock,
`tryDrawVectorGraphics` returns having made the draw call and then `r` nested
`calcTimesteps(1)`, each a `calcTimestep` and a `getStatistics` with the flag at
2, so the engine has advanced by exactly `r` timesteps. Every nested
`calcTimesteps(1)` returns with the flag at 0, and the flag is 0 when the body
of the outer guard ends, before the outer destructor has run: the flag is 0 from
each nested release until the next nested acquire or the end of the outer
critical section. In that mode the worker loop takes no step at any position of
the branch with the simulation step, the measurement and the throttle, whatever
the flag is: from the test of the mode it goes straight to `processJobs`. -/
theorem nested_guards_release_outer_gate (eng : EngineBehaviour)
    (hq : ∀ k c, eng.raises k c = none) (w : EngineWorker) (r : Nat) (start : Int) (p : Poll)
    (rest : List Poll) (sync : Nat → SyncClock)
    (hw : w.errorMessage = none) (hsync : w.syncSimulationWithRendering = true)
    (hrun : w.isSimulationRunning = true) (hr : 1 ≤ r)
    (hratio : w.syncSimulationWithRenderingRatio = (r : Int))
    (hp : p.workerGrants = true)
    (hnested : ∀ i, ∃ q qs, (sync i).gate.polls = q :: qs ∧ q.workerGrants = true)
    (hsteady : SyncClock.Steady sync w) :
    (∃ w3, EngineWorker.tryDrawVectorGraphics eng false ⟨start, p :: rest⟩ sync w
        = .returned () w3 ∧
      w3.engineLog = w.engineLog ++ ⟨.caller, .drawVectorGraphics, 2⟩ :: nestedEvents r ∧
      w3.cudaSimulation = w.cudaSimulation.map (fun e => ⟨e.currentTimestep + r⟩) ∧
      w3.accessState = 0) ∧
      (∃ w2, EngineWorker.syncSimulationWithRenderingIfDesired eng false sync
          (({ w with accessState := 2 } : EngineWorker).callEngine eng .caller
            .drawVectorGraphics).1 = .returned () w2 ∧
        w2.accessState = 0) ∧
      (∀ (i : Nat) (u : EngineWorker), u.errorMessage = none →
        ∃ u1, EngineWorker.calcTimesteps eng false (sync i).gate (sync i).statistics 1 u
            = .returned () u1 ∧
          u1.engineLog = u.engineLog ++ nestedStepEvents ∧ u1.accessState = 0) ∧
      (∀ steps : List Step,
        (∀ a now, Step.caller a now ∈ steps → a ≠ .setSyncSimulationWithRendering false) →
        ∀ pc : WorkerPc, pc.inStepBranch = true →
          System.workerStepsAt eng pc (System.start w) steps = 0) ∧
      (∀ (u : EngineWorker) (cpc : CallerPc) (now : Int), u.syncSimulationWithRendering = true →
        System.workerStep eng now ⟨u, .checkSync, cpc⟩ = ⟨u, .jobs, cpc⟩) := by
  have hd := EngineWorker.callEngine_quiet eng hq .caller .drawVectorGraphics
    { w with accessState := 2 }
  rcases EngineWorker.syncLoop_steady eng hq false sync hnested hsteady.later hsteady.waited
    hsteady.alone r 0 _ (show (({ w with accessState := 2 } : EngineWorker).callEngine eng .caller
      .drawVectorGraphics).1.errorMessage = none by rw [hd]; exact hw)
    (by rw [hd]; exact hsteady.first) (by rw [hd]; exact hsteady.carried) with
    ⟨w2, h2, hlog, hcuda, hidle⟩
  have hidle2 : w2.accessState = 0 := hidle (Or.inr hr)
  have hsd : EngineWorker.syncSimulationWithRenderingIfDesired eng false sync
      (({ w with accessState := 2 } : EngineWorker).callEngine eng .caller
        .drawVectorGraphics).1 = .returned () w2 := by
    unfold EngineWorker.syncSimulationWithRenderingIfDesired
    have hc : ((({ w with accessState := 2 } : EngineWorker).callEngine eng .caller
        .drawVectorGraphics).1.syncSimulationWithRendering &&
        (({ w with accessState := 2 } : EngineWorker).callEngine eng .caller
          .drawVectorGraphics).1.isSimulationRunning) = true := by
      rw [hd]
      show (w.syncSimulationWithRendering && w.isSimulationRunning) = true
      rw [hsync, hrun]
      rfl
    have ht : (({ w with accessState := 2 } : EngineWorker).callEngine eng .caller
        .drawVectorGraphics).1.syncSimulationWithRenderingRatio.toNat = r := by
      rw [hd]
      show w.syncSimulationWithRenderingRatio.toNat = r
      rw [hratio]
      exact Int.toNat_natCast r
    rw [if_pos hc, ht]
    exact h2
  refine ⟨⟨EngineWorkerGuard.destruct w2, ?_, ?_, ?_, rfl⟩, ⟨w2, hsd, hidle2⟩, fun i u hu => ?_,
    fun steps hno pc hpc => ?_, fun u cpc now hu => ?_⟩
  · unfold EngineWorker.tryDrawVectorGraphics EngineWorker.withGuard
    rw [EngineWorkerGuard.construct_granted false (some EngineWorker.FrameTimeout) start p rest w
      hw hp]
    simp only [EngineWorkerGuard.isTimeout, Bool.not_false, if_true]
    have hsd1 := hsd
    revert hsd1
    generalize ({ w with accessState := 2 } : EngineWorker).callEngine eng .caller
      .drawVectorGraphics = res at hd ⊢
    intro hsd1
    rw [hd] at hsd1 ⊢
    simp only []
    rw [hsd1]
  · show w2.engineLog = _
    rw [hlog, hd]
    simp
  · show w2.cudaSimulation = _
    rw [hcuda, hd]
    cases w.cudaSimulation <;> rfl
  · rcases hnested i with ⟨q, qs, hpolls, hq1⟩
    have hgate : (sync i).gate = ⟨(sync i).gate.startTimepoint, q :: qs⟩ := by
      rw [← hpolls]
    rcases EngineWorker.calcTimesteps_one_quiet eng hq false (sync i).gate.startTimepoint q qs
      (sync i).statistics u hu hq1 with ⟨u1, h1, hl1, _, hi1, _⟩
    rw [hgate]
    exact ⟨u1, h1, hl1, hi1⟩
  · exact System.run_synced eng pc hpc steps (System.start w) hsync rfl hno
  · simp only [System.workerStep, hu, Bool.not_true, Bool.false_eq_true, if_false, System.goto]

/-- A ratio of 2 with a throttle of 100 steps per second and every acquire
granted at its first poll: the call returns with the draw call and two nested
steps in the log, and the flag at 0. -/
theorem nested_guards_release_outer_gate_witness :
    ∃ w3, EngineWorker.tryDrawVectorGraphics EngineBehaviour.quiet false ⟨0, ⟨true, 1⟩ :: []⟩
        (fun _ => ⟨⟨0, [⟨true, 1⟩]⟩, 0, 0, ⟨0, 0, [⟨1000000, none⟩], 0⟩⟩)
        { syncSimulationWithRendering := true, isSimulationRunning := true,
          syncSimulationWithRenderingRatio := 2, tpsRestriction := 100 }
        = .returned () w3 ∧
      w3.engineLog = ([] : List EngineEvent) ++ ⟨.caller, .drawVectorGraphics, 2⟩ :: nestedEvents 2 ∧
      w3.cudaSimulation = (none : Option CudaSimulationFacade).map
        (fun e => ⟨e.currentTimestep + 2⟩) ∧
      w3.accessState = 0 :=
  (nested_guards_release_outer_gate EngineBehaviour.quiet (fun _ _ => rfl)
    { syncSimulationWithRendering := true, isSimulationRunning := true,
      syncSimulationWithRenderingRatio := 2, tpsRestriction := 100 }
    2 0 ⟨true, 1⟩ []
    (fun _ => ⟨⟨0, [⟨true, 1⟩]⟩, 0, 0, ⟨0, 0, [⟨1000000, none⟩], 0⟩⟩)
    rfl rfl rfl (by decide) rfl rfl
    (fun _ => ⟨⟨true, 1⟩, [], rfl, rfl⟩)
    ⟨fun _ h => (by cases h), fun _ => (by decide), fun _ h => (by cases h),
      fun _ => ⟨⟨1000000, none⟩, by decide, by decide⟩,
      fun _ q hq => (by
        rw [List.mem_singleton.mp hq])⟩).1

end Alien
